import Mathlib

/-!
# Estacao_Meteorologica.c: a shallow embedding

The weather-station firmware keeps its whole state in global variables and
reacts to three kinds of events: button interrupts (`gpio_irq_handler`), TCP
callbacks (`http_recv`, `http_sent`) and the main loop (alert evaluation,
level indicator).  Each C function is embedded as a pure Lean function over
the part of the global state it touches.

Conventions of the embedding:

* a C string is the list of its characters up to (not including) the
  terminating NUL; one `Char` stands for one byte, so the non-ASCII bytes of
  the HTML literals are written as `\x..` escapes of their UTF-8 encoding;
* `uint32_t` and `size_t` values are natural numbers reduced modulo `2 ^ 32`;
* `int` values are mathematical integers (the program never brings them near
  `INT_MAX`);
* a `float`/`double` value is `CFloat`: NaN, an infinity, or a finite value
  given by the rational number it denotes; `fin 0` is the zero of positive
  sign, and the negative zero is not a value of `CFloat`: it is read as
  `fin 0` where the sign of a zero has no effect (comparisons, sums, the
  conversions), its sign is not printed, and the statements about a division
  by zero exclude the operands that can make the divisor a negative zero;
  conversions between text, `double` and `float` round to nearest, ties to
  even;
* an arithmetic operation on `float` or `double` operands rounds its exact
  result to the format of the operation, and the conversion `(int)x` has no
  value where the C standard leaves it undefined;
* the C library functions the program calls (`snprintf`, `strncmp`, `strstr`,
  `atof`) are written out after the C standard;
* values read from the hardware (the clock, the transport) are arguments.
-/

namespace Estacao

/-! ## Pins -/

/-- `#define BOTAO_A 5` -/
def BOTAO_A : Nat := 5

/-- `#define BOTAO_B 6` -/
def BOTAO_B : Nat := 6

/-- `#define JOYSTICK_SW 22` -/
def JOYSTICK_SW : Nat := 22

/-! ## The OLED menu and the button interrupt handler -/

/-- The anonymous `enum` that types the global `estado_menu`. -/
inductive EstadoMenu where
  | MENU_PRINCIPAL
  | TELA_MONITORAMENTO
  | TELA_LIMITES
  deriving DecidableEq, Repr

open EstadoMenu

/-- The globals written by `gpio_irq_handler`: the three menu variables and
the function-local `static uint32_t last_press`. -/
structure IrqState where
  estado_menu : EstadoMenu
  tela_monitor_sub_estado : Int
  tela_limites_sub_estado : Int
  last_press : Nat
  deriving DecidableEq, Repr

/-- The start-up value of the globals of `IrqState`. -/
def IrqState.init : IrqState :=
  { estado_menu := MENU_PRINCIPAL, tela_monitor_sub_estado := 0,
    tela_limites_sub_estado := 0, last_press := 0 }

/-- Subtraction of two `uint32_t` values. -/
def u32sub (a b : Nat) : Nat := (a % 2 ^ 32 + (2 ^ 32 - b % 2 ^ 32)) % 2 ^ 32

/-- The test `current_time - last_press < 250` that makes the handler
return at once. -/
def debounced (s : IrqState) (current_time : Nat) : Bool :=
  decide (u32sub current_time s.last_press < 250)

/-- The body of `gpio_irq_handler` after the debounce test has let the event
through: the chain `if (gpio == BOTAO_A) ... else if (gpio == BOTAO_B) ...
else if (gpio == JOYSTICK_SW) ...`. -/
def irq_dispatch (s : IrqState) (gpio : Nat) : IrqState :=
  if gpio = BOTAO_A then
    if s.estado_menu = MENU_PRINCIPAL then
      { s with estado_menu := TELA_MONITORAMENTO, tela_monitor_sub_estado := 0 }
    else if s.estado_menu = TELA_MONITORAMENTO then
      { s with tela_monitor_sub_estado := (s.tela_monitor_sub_estado + 1).tmod 4 }
    else s
  else if gpio = BOTAO_B then
    if s.estado_menu = MENU_PRINCIPAL then
      { s with estado_menu := TELA_LIMITES, tela_limites_sub_estado := 0 }
    else if s.estado_menu = TELA_LIMITES then
      { s with tela_limites_sub_estado := (s.tela_limites_sub_estado + 1).tmod 4 }
    else s
  else if gpio = JOYSTICK_SW then
    { s with estado_menu := MENU_PRINCIPAL }
  else s

/-- `void gpio_irq_handler(uint gpio, uint32_t events)`.  The value read from
`to_ms_since_boot(get_absolute_time())` is the argument `current_time`;
`events` is not used by the C code. -/
def gpio_irq_handler (s : IrqState) (gpio : Nat) (current_time : Nat) : IrqState :=
  if debounced s current_time then s
  else irq_dispatch { s with last_press := current_time % 2 ^ 32 } gpio

/-! ## Floating-point values -/

/-- A value of C type `float` or `double`: NaN, plus or minus infinity, or a
finite value given by the rational number it denotes. -/
inductive CFloat where
  | nan
  | inf (neg : Bool)
  | fin (q : ℚ)
  deriving DecidableEq, Repr

namespace CFloat

/-- The C operator `<` on floating-point operands: false as soon as one
operand is NaN. -/
def lt : CFloat → CFloat → Bool
  | fin a, fin b => decide (a < b)
  | fin _, inf neg => !neg
  | inf neg, fin _ => neg
  | inf n1, inf n2 => n1 && !n2
  | _, _ => false

/-- The C operator `>`. -/
def gt (a b : CFloat) : Bool := lt b a

/-- The C operator `==` on floating-point operands: NaN equals nothing. -/
def feq : CFloat → CFloat → Bool
  | fin a, fin b => decide (a = b)
  | inf n1, inf n2 => n1 == n2
  | _, _ => false

/-- The C operator `<=`. -/
def le (a b : CFloat) : Bool := lt a b || feq a b

/-- The value is neither NaN nor an infinity. -/
def isFinite : CFloat → Bool
  | fin _ => true
  | _ => false

end CFloat

/-! ## Sensor readings, thresholds and the alert flag -/

/-- The four globals that hold the latest sensor values. -/
structure Reading where
  temperatura_bmp : CFloat
  umidade_aht : CFloat
  pressao_bmp : CFloat
  altitude_bmp : CFloat
  deriving DecidableEq, Repr

/-- The six globals that hold the alert limits. -/
structure Thresholds where
  temp_lim_min : CFloat
  temp_lim_max : CFloat
  umid_lim_min : CFloat
  umid_lim_max : CFloat
  press_lim_min : CFloat
  press_lim_max : CFloat
  deriving DecidableEq, Repr

/-- The initialisers of the six limit globals. -/
def Thresholds.init : Thresholds :=
  { temp_lim_min := .fin 18, temp_lim_max := .fin 40,
    umid_lim_min := .fin 30, umid_lim_max := .fin 70,
    press_lim_min := .fin 950, press_lim_max := .fin 1050 }

/-- The expression assigned to `alerta_ativo` in the main loop. -/
def alerta_ativo (r : Reading) (t : Thresholds) : Bool :=
  CFloat.gt r.temperatura_bmp t.temp_lim_max || CFloat.lt r.temperatura_bmp t.temp_lim_min ||
  CFloat.gt r.umidade_aht t.umid_lim_max || CFloat.lt r.umidade_aht t.umid_lim_min ||
  CFloat.gt r.pressao_bmp t.press_lim_max || CFloat.lt r.pressao_bmp t.press_lim_min

/-- Each of the three alert metrics of the reading equals (C `==`) its
minimum or its maximum limit. -/
def onBounds (r : Reading) (t : Thresholds) : Bool :=
  (CFloat.feq r.temperatura_bmp t.temp_lim_min || CFloat.feq r.temperatura_bmp t.temp_lim_max) &&
  (CFloat.feq r.umidade_aht t.umid_lim_min || CFloat.feq r.umidade_aht t.umid_lim_max) &&
  (CFloat.feq r.pressao_bmp t.press_lim_min || CFloat.feq r.pressao_bmp t.press_lim_max)

/-- No minimum limit is above its maximum limit: none of the three C
comparisons `min > max` holds (as when a limit is NaN). -/
def Thresholds.noMinAboveMax (t : Thresholds) : Bool :=
  !CFloat.gt t.temp_lim_min t.temp_lim_max && !CFloat.gt t.umid_lim_min t.umid_lim_max &&
  !CFloat.gt t.press_lim_min t.press_lim_max

/-! ## The pending response and `http_sent` -/

/-- `struct http_state { char response[4096]; size_t len; size_t sent; }`:
`response` is the string held in the buffer. -/
structure http_state where
  response : List Char
  len : Nat
  sent : Nat
  deriving DecidableEq, Repr

/-- One connection as `http_sent` sees it: the state record behind `arg` as
long as it is allocated (`none` once `free(hs)` has been called), and how many
times `tcp_close(tpcb)` and `free(hs)` have been called on it. -/
structure Conn where
  hs : Option http_state
  closes : Nat
  frees : Nat
  deriving DecidableEq, Repr

/-- A connection whose response of `len` bytes has just been handed to the
transport: nothing sent, nothing closed, nothing released. -/
def Conn.pending (response : List Char) (len : Nat) : Conn :=
  { hs := some { response := response, len := len, sent := 0 }, closes := 0, frees := 0 }

/-- `static err_t http_sent(void *arg, struct tcp_pcb *tpcb, u16_t len)`;
`size_t` has 32 bits on the target.  On a record that has been released the
function would read released memory, which has no defined behaviour: the
result is `none`. -/
def http_sent (c : Conn) (len : Nat) : Option Conn :=
  match c.hs with
  | none => none
  | some hs0 =>
    let hs : http_state := { hs0 with sent := (hs0.sent + len) % 2 ^ 32 }
    if hs.len ≤ hs.sent then
      some { hs := none, closes := c.closes + 1, frees := c.frees + 1 }
    else
      some { c with hs := some hs }

/-- The connection after a sequence of send notifications, oldest first. -/
def http_sent_all : Conn → List Nat → Option Conn
  | c, [] => some c
  | c, len :: acks => (http_sent c len).bind fun c1 => http_sent_all c1 acks

/-! ## Binary rounding -/

/-- `floor (log2 n)` for `n > 0` (and `0` for `n = 0`), by repeated halving. -/
def log2Fuel : Nat → Nat → Nat
  | 0, _ => 0
  | fuel + 1, n => if n < 2 then 0 else log2Fuel fuel (n / 2) + 1

/-- `floor (log2 (n / d))` for positive `n` and `d`. -/
def floorLog2Ratio (n d : Nat) : Int :=
  let e0 : Int := (log2Fuel n n : Int) - (log2Fuel d d : Int)
  if e0 ≥ 0 then
    if d * 2 ^ e0.toNat ≤ n then e0 else e0 - 1
  else
    if d ≤ n * 2 ^ (-e0).toNat then e0 else e0 - 1

/-- The integer nearest to `a / b`, ties going to the even one. -/
def roundHalfEvenDiv (a b : Nat) : Nat :=
  let q := a / b
  let r := a % b
  if 2 * r < b then q
  else if b < 2 * r then q + 1
  else if q % 2 = 0 then q else q + 1

/-- Round the rational `(-1)^neg * n / d` to the nearest value of a binary
floating-point format with `p` bits of precision and largest exponent `emax`
(IEEE 754 round-to-nearest, ties to even, gradual underflow, overflow to
infinity). -/
def roundBinary (p emax : Nat) (neg : Bool) (n d : Nat) : CFloat :=
  if n = 0 then .fin 0
  else
    let e : Int := max (floorLog2Ratio n d) (1 - (emax : Int))
    let t : Int := e - ((p : Int) - 1)
    let m : Nat :=
      if t ≥ 0 then roundHalfEvenDiv n (d * 2 ^ t.toNat)
      else roundHalfEvenDiv (n * 2 ^ (-t).toNat) d
    let overflow : Bool :=
      decide ((emax : Int) < e) || (decide (e = (emax : Int)) && decide (2 ^ p ≤ m))
    if overflow then .inf neg
    else
      let mag : ℚ :=
        if t ≥ 0 then mkRat (m * 2 ^ t.toNat : Nat) 1 else mkRat (m : Nat) (2 ^ (-t).toNat)
      .fin (if neg then -mag else mag)

/-- The nearest `double` (binary64). -/
def roundF64 (neg : Bool) (n d : Nat) : CFloat := roundBinary 53 1023 neg n d

/-- The nearest `float` (binary32). -/
def roundF32 (neg : Bool) (n d : Nat) : CFloat := roundBinary 24 127 neg n d

/-- Conversion of a `double` value to `float`, as in `float new_val = atof(...)`. -/
def toFloat : CFloat → CFloat
  | .fin q => roundF32 (decide (q.num < 0)) q.num.natAbs q.den
  | x => x

/-! ## C strings and the library functions the server calls

The functions of this section are the C standard library functions used by
`http_recv` and `parse_and_update_value` (`strncmp`, `strstr`, `atof`,
`snprintf`), written after their description in the C standard. -/

/-- The character of the decimal digit `d`. -/
def digitChar (d : Nat) : Char := Char.ofNat (48 + d % 10)

/-- The decimal digits of `n`, most significant first, at most `fuel` of them. -/
def natDigits : Nat → Nat → List Char
  | 0, _ => []
  | fuel + 1, n => if n < 10 then [digitChar n] else natDigits fuel (n / 10) ++ [digitChar n]

/-- The decimal numeral of `n` (conversion `%u`). -/
def fmtNat (n : Nat) : List Char := natDigits (n + 1) n

/-- Conversion `%d`. -/
def fmtInt (i : Int) : List Char :=
  if i < 0 then '-' :: fmtNat i.natAbs else fmtNat i.natAbs

/-- The low `prec` decimal digits of `n`, with leading zeros. -/
def fracDigits : Nat → Nat → List Char
  | 0, _ => []
  | prec + 1, n => fracDigits prec (n / 10) ++ [digitChar n]

/-- The magnitude `n / d` in fixed notation with `prec` fractional digits,
rounded to nearest (ties to even). -/
def fmtFixedMag (prec : Nat) (n d : Nat) : List Char :=
  let scaled := roundHalfEvenDiv (n * 10 ^ prec) d
  fmtNat (scaled / 10 ^ prec) ++ (if prec = 0 then [] else '.' :: fracDigits prec scaled)

/-- Conversion `%.{prec}f` of a `double` argument. -/
def fmtFixed (prec : Nat) : CFloat → List Char
  | .nan => "nan".toList
  | .inf false => "inf".toList
  | .inf true => "-inf".toList
  | .fin q =>
    if q.num < 0 then '-' :: fmtFixedMag prec q.num.natAbs q.den
    else fmtFixedMag prec q.num.natAbs q.den

/-- An argument of the variable argument list of `snprintf`. -/
inductive PfArg where
  | int (i : Int)
  | str (s : List Char)
  | dbl (x : CFloat)
  deriving DecidableEq, Repr

/-- The characters a `printf`-family function produces for a format and its
arguments.  The conversions are those the program uses: `%%`, `%d`, `%s` and
`%.Nf` with a one-digit precision; any other character is copied. -/
def vformat : List Char → List PfArg → List Char
  | [], _ => []
  | '%' :: '%' :: rest, args => '%' :: vformat rest args
  | '%' :: 'd' :: rest, .int i :: args => fmtInt i ++ vformat rest args
  | '%' :: 's' :: rest, .str s :: args => s ++ vformat rest args
  | '%' :: '.' :: p :: 'f' :: rest, .dbl x :: args =>
    fmtFixed (p.toNat - 48) x ++ vformat rest args
  | c :: fmt, args => c :: vformat fmt args

/-- `snprintf(buf, size, fmt, ...)`: the string left in `buf` (at most
`size - 1` characters before the NUL) and the returned value, the number of
characters the complete output has. -/
def snprintf (size : Nat) (fmt : List Char) (args : List PfArg) : List Char × Nat :=
  ((vformat fmt args).take (size - 1), (vformat fmt args).length)

/-- The test `strncmp(a, b, n) == 0`. -/
def strncmp_eq (a b : List Char) (n : Nat) : Bool := a.take n == b.take n

/-- `strstr(haystack, needle)`: the tail of `haystack` that starts at the first
occurrence of `needle`, or `none` (the null pointer). -/
def strstr : List Char → List Char → Option (List Char)
  | [], needle => if needle.isEmpty then some [] else none
  | c :: cs, needle =>
    if needle.isPrefixOf (c :: cs) then some (c :: cs) else strstr cs needle

/-! ### `atof` -/

/-- The C function `isspace` in the "C" locale. -/
def isspace (c : Char) : Bool :=
  c = ' ' || c = '\t' || c = '\n' || c = '\x0b' || c = '\x0c' || c = '\r'

/-- The value of a decimal digit. -/
def decVal (c : Char) : Option Nat :=
  if c.isDigit then some (c.toNat - 48) else none

/-- The value of a hexadecimal digit. -/
def hexVal (c : Char) : Option Nat :=
  if c.isDigit then some (c.toNat - 48)
  else if 'a' ≤ c ∧ c ≤ 'f' then some (c.toNat - 87)
  else if 'A' ≤ c ∧ c ≤ 'F' then some (c.toNat - 55)
  else none

/-- Read the longest run of digits: the accumulated value, the number of
digits read added to `k`, and the rest of the text. -/
def readDigits (base : Nat) (dv : Char → Option Nat) :
    List Char → Nat → Nat → Nat × Nat × List Char
  | [], acc, k => (acc, k, [])
  | c :: cs, acc, k =>
    match dv c with
    | some v => readDigits base dv cs (base * acc + v) (k + 1)
    | none => (acc, k, c :: cs)

/-- Read `digits [. digits]`: the digits as one integer, how many digits there
are in all, how many of them follow the point, and the rest of the text. -/
def readMantissa (base : Nat) (dv : Char → Option Nat) (s : List Char) :
    Nat × Nat × Nat × List Char :=
  match readDigits base dv s 0 0 with
  | (m1, k1, '.' :: t) =>
    match readDigits base dv t m1 0 with
    | (m2, k2, r2) => (m2, k1 + k2, k2, r2)
  | (m1, k1, r1) => (m1, k1, 0, r1)

/-- Read an optional exponent part: the marker (`e`/`E` or `p`/`P`), an
optional sign and at least one decimal digit; `0` when there is none. -/
def readExponent (lower upper : Char) : List Char → Int
  | [] => 0
  | c :: t =>
    if c = lower ∨ c = upper then
      match t with
      | '-' :: u =>
        match readDigits 10 decVal u 0 0 with
        | (e, k, _) => if k = 0 then 0 else -(e : Int)
      | '+' :: u =>
        match readDigits 10 decVal u 0 0 with
        | (e, k, _) => if k = 0 then 0 else (e : Int)
      | _ =>
        match readDigits 10 decVal t 0 0 with
        | (e, k, _) => if k = 0 then 0 else (e : Int)
    else 0

/-- The `double` nearest to `(-1)^neg * m * base ^ ex`. -/
def scaleRound (neg : Bool) (m base : Nat) (ex : Int) : CFloat :=
  if ex ≥ 0 then roundF64 neg (m * base ^ ex.toNat) 1
  else roundF64 neg m (base ^ (-ex).toNat)

/-- A decimal floating constant at the head of `s`; `0` when `s` does not
start with one (no conversion is performed). -/
def strtodDecimal (neg : Bool) (s : List Char) : CFloat :=
  match readMantissa 10 decVal s with
  | (m, k, kf, r) =>
    if k = 0 then .fin 0
    else scaleRound neg m 10 (readExponent 'e' 'E' r - (kf : Int))

/-- The text starts with the three letters `a b c`, in lower or upper case
(`lo` and `up` give the two cases of each letter). -/
def startsWithLetters (lo up : Char × Char × Char) : List Char → Bool
  | x :: y :: z :: _ =>
    (x == lo.1 || x == up.1) && (y == lo.2.1 || y == up.2.1) && (z == lo.2.2 || z == up.2.2)
  | _ => false

/-- The text after an optional sign: `inf`/`infinity`, `nan`, a hexadecimal
floating constant, or a decimal one. -/
def strtodUnsigned (neg : Bool) (s : List Char) : CFloat :=
  if startsWithLetters ('i', 'n', 'f') ('I', 'N', 'F') s then .inf neg
  else if startsWithLetters ('n', 'a', 'n') ('N', 'A', 'N') s then .nan
  else
    match s with
    | '0' :: x :: t =>
      if x = 'x' ∨ x = 'X' then
        match readMantissa 16 hexVal t with
        | (m, k, kf, r) =>
          if k = 0 then strtodDecimal neg s
          else scaleRound neg m 2 (readExponent 'p' 'P' r - 4 * (kf : Int))
      else strtodDecimal neg s
    | _ => strtodDecimal neg s

/-- `double atof(const char *s)`, that is `strtod(s, NULL)`: white space is
skipped, an optional sign is read, and the longest initial text that has the
form of a floating constant is converted, correctly rounded. -/
def atof (s : List Char) : CFloat :=
  match s.dropWhile isspace with
  | '-' :: t => strtodUnsigned true t
  | '+' :: t => strtodUnsigned false t
  | t => strtodUnsigned false t

/-! ## The HTML documents -/

/-- Adjacent string literals of a C initialiser, concatenated. -/
def concatLines : List String → List Char
  | [] => []
  | s :: rest => s.toList ++ concatLines rest

/-- `const char HTML_PAGE[]`, the dashboard document, one string per source line. -/
def HTML_PAGE : List Char :=
  concatLines [
    "<!DOCTYPE html>\n",
    "<html lang=\"pt-br\">\n",
    "<head>\n",
    "    <meta charset=\"UTF-8\">\n",
    "    <meta name=\"viewport\" content=\"width=device-width,initial-scale=1\">\n",
    "    <title>Esta\xc3\xa7\xc3\xa3o Meteorol\xc3\xb3gica</title>\n",
    "    <script src=\"https://cdn.jsdelivr.net/npm/chart.js\"></script>\n",
    "    <style>\n",
    "        body\x7bfont-family:sans-serif;background-color:#f0f2f5;display:flex;flex-direction:column;align-items:center;padding:20px\x7d\n",
    "        h1\x7bcolor:#333\x7d\n",
    "        .container\x7bdisplay:grid;grid-template-columns:repeat(auto-fit,minmax(320px,1fr));gap:20px;width:100%;max-width:1400px\x7d\n",
    "        .data-block\x7bbackground-color:#fff;border-radius:10px;box-shadow:0 4px 6px rgba(0,0,0,.1);padding:20px;text-align:center\x7d\n",
    "        h2\x7bmargin-top:0;font-size:1.1em;color:#6c757d\x7d\n",
    "        .value\x7bfont-size:2em;font-weight:700;color:#333\x7d\n",
    "        .alert-banner\x7bdisplay:none;width:100%;max-width:1000px;background-color:#dc3545;color:#fff;padding:10px;border-radius:8px;text-align:center;font-weight:700;margin-bottom:20px\x7d\n",
    "        .nav\x7bmargin-bottom:20px;font-size:1.2em\x7d\n",
    "    </style>\n",
    "</head>\n",
    "<body>\n",
    "    <h1>Esta\xc3\xa7\xc3\xa3o Meteorol\xc3\xb3gica</h1>\n",
    "    <div class=\"nav\"><a href=\"/settings\">Configurar Limites</a></div>\n",
    "    <div id=\"alert_msg\" class=\"alert-banner\">ALERTA DE LIMITE!</div>\n",
    "    <div class=\"container\">\n",
    "        <div class=\"data-block\"><h2>Temperatura</h2><p class=\"value\"><span id=\"temp_val\">--</span>&deg;C</p><canvas id=\"tempChart\"></canvas></div>\n",
    "        <div class=\"data-block\"><h2>Umidade</h2><p class=\"value\"><span id=\"umid_val\">--</span>%</p><canvas id=\"humidChart\"></canvas></div>\n",
    "        <div class=\"data-block\"><h2>Press\xc3\xa3o</h2><p class=\"value\"><span id=\"press_val\">--</span> hPa</p><canvas id=\"pressChart\"></canvas></div>\n",
    "        <div class=\"data-block\"><h2>Altitude</h2><p class=\"value\"><span id=\"alt_val\">--</span> m</p><canvas id=\"altChart\"></canvas></div>\n",
    "    </div>\n",
    "    <script>\n",
    "        const charts=\x7b\x7d;\n",
    "        function createChart(e,a,t,l,r,n)\x7bconst o=document.getElementById(e).getContext(\"2d\");charts[e]=new Chart(o,\x7btype:\"line\",data:\x7blabels:[],datasets:[\x7blabel:a,data:[],borderColor:t,tension:.2,fill:!0,backgroundColor:l\x7d]\x7d,options:\x7bscales:\x7by:\x7bsuggestedMin:r,suggestedMax:n\x7d\x7d\x7d\x7d)\x7d\n",
    "        createChart(\"tempChart\",\"Temperatura (C)\",\"rgb(255,99,132)\",\"rgba(255,99,132,0.1)\",10,40);\n",
    "        createChart(\"humidChart\",\"Umidade (%)\",\"rgb(54,162,235)\",\"rgba(54,162,235,0.1)\",0,100);\n",
    "        createChart(\"pressChart\",\"Press\xc3\xa3o (hPa)\",\"rgb(75,192,192)\",\"rgba(75,192,192,0.1)\",980,1030);\n",
    "        createChart(\"altChart\",\"Altitude (m)\",\"rgb(255,159,64)\",\"rgba(255,159,64,0.1)\",-50,250);\n",
    "        function fetchData()\x7bfetch(\"/data\").then(e=>e.json()).then(e=>\x7bdocument.getElementById(\"temp_val\").innerText=e.temp.toFixed(1);document.getElementById(\"umid_val\").innerText=e.hum.toFixed(1);document.getElementById(\"press_val\").innerText=e.press.toFixed(0);document.getElementById(\"alt_val\").innerText=e.alt.toFixed(0);document.getElementById(\"alert_msg\").style.display=e.alerta?\"block\":\"none\";const a=new Date,t=a.getHours()+\":\"+(\"0\"+a.getMinutes()).slice(-2)+\":\"+(\"0\"+a.getSeconds()).slice(-2);Object.values(charts).forEach(e=>\x7bif(e.data.labels.length>15)\x7be.data.labels.shift();e.data.datasets[0].data.shift()\x7de.data.labels.push(t)\x7d);charts.tempChart.data.datasets[0].data.push(e.temp);charts.humidChart.data.datasets[0].data.push(e.hum);charts.pressChart.data.datasets[0].data.push(e.press);charts.altChart.data.datasets[0].data.push(e.alt);Object.values(charts).forEach(e=>\x7be.update()\x7d)\x7d)\x7d\n",
    "        fetchData();setInterval(fetchData,2000);\n",
    "    </script>\n",
    "</body>\n",
    "</html>\n"]

/-- The initialiser of `HTML_PAGE_SETTINGS_FORMAT` before the conversion of `temp_lim_min`: the
string literals of the source lines, the line of a conversion being cut there. -/
def settingsFormat0 : List Char :=
  concatLines [
    "<!DOCTYPE html>\n",
    "<html lang=\"pt-br\">\n",
    "<head>\n",
    "    <meta charset=\"UTF-8\">\n",
    "    <meta name=\"viewport\" content=\"width=device-width,initial-scale=1\">\n",
    "    <title>Configura\xc3\xa7\xc3\xb5es</title>\n",
    "    <style>\n",
    "        body\x7bfont-family:sans-serif;background-color:#f0f2f5;display:flex;flex-direction:column;align-items:center;padding:20px\x7d\n",
    "        h1\x7bcolor:#333\x7d\n",
    "        form\x7bbackground-color:#fff;padding:30px;border-radius:10px;box-shadow:0 4px 6px rgba(0,0,0,.1);width:100%%;max-width:500px\x7d\n",
    "        .form-group\x7bmargin-bottom:20px\x7d\n",
    "        label\x7bdisplay:block;margin-bottom:5px;font-weight:700;color:#555\x7d\n",
    "        input[type=number]\x7bwidth:100%%;box-sizing:border-box;padding:10px;border:1px solid #ccc;border-radius:5px\x7d\n",
    "        input[type=submit]\x7bbackground-color:#007bff;color:#fff;padding:12px 20px;border:none;border-radius:5px;cursor:pointer;font-size:1em;width:100%%\x7d\n",
    "        a\x7bdisplay:inline-block;margin-top:20px;color:#007bff\x7d\n",
    "    </style>\n",
    "</head>\n",
    "<body>\n",
    "    <h1>Configurar Limites de Alerta</h1>\n",
    "    <form action=\"/settings\" method=\"get\">\n",
    "        <div class=\"form-group\"><label for=\"temp_min\">Temp. M\xc3\xadnima (\xc2\xb0C):</label><input type=\"number\" id=\"temp_min\" name=\"temp_min\" step=\"0.1\" value=\""]

/-- The initialiser of `HTML_PAGE_SETTINGS_FORMAT` between the conversions of `temp_lim_min` and `temp_lim_max`: the
string literals of the source lines, the line of a conversion being cut there. -/
def settingsFormat1 : List Char :=
  concatLines [
    "\"></div>\n",
    "        <div class=\"form-group\"><label for=\"temp_max\">Temp. M\xc3\xa1xima (\xc2\xb0C):</label><input type=\"number\" id=\"temp_max\" name=\"temp_max\" step=\"0.1\" value=\""]

/-- The initialiser of `HTML_PAGE_SETTINGS_FORMAT` between the conversions of `temp_lim_max` and `umid_lim_min`: the
string literals of the source lines, the line of a conversion being cut there. -/
def settingsFormat2 : List Char :=
  concatLines [
    "\"></div>\n",
    "        <div class=\"form-group\"><label for=\"umid_min\">Umidade M\xc3\xadnima (%%):</label><input type=\"number\" id=\"umid_min\" name=\"umid_min\" step=\"1\" value=\""]

/-- The initialiser of `HTML_PAGE_SETTINGS_FORMAT` between the conversions of `umid_lim_min` and `umid_lim_max`: the
string literals of the source lines, the line of a conversion being cut there. -/
def settingsFormat3 : List Char :=
  concatLines [
    "\"></div>\n",
    "        <div class=\"form-group\"><label for=\"umid_max\">Umidade M\xc3\xa1xima (%%):</label><input type=\"number\" id=\"umid_max\" name=\"umid_max\" step=\"1\" value=\""]

/-- The initialiser of `HTML_PAGE_SETTINGS_FORMAT` between the conversions of `umid_lim_max` and `press_lim_min`: the
string literals of the source lines, the line of a conversion being cut there. -/
def settingsFormat4 : List Char :=
  concatLines [
    "\"></div>\n",
    "        <div class=\"form-group\"><label for=\"press_min\">Press\xc3\xa3o M\xc3\xadnima (hPa):</label><input type=\"number\" id=\"press_min\" name=\"press_min\" step=\"1\" value=\""]

/-- The initialiser of `HTML_PAGE_SETTINGS_FORMAT` between the conversions of `press_lim_min` and `press_lim_max`: the
string literals of the source lines, the line of a conversion being cut there. -/
def settingsFormat5 : List Char :=
  concatLines [
    "\"></div>\n",
    "        <div class=\"form-group\"><label for=\"press_max\">Press\xc3\xa3o M\xc3\xa1xima (hPa):</label><input type=\"number\" id=\"press_max\" name=\"press_max\" step=\"1\" value=\""]

/-- The initialiser of `HTML_PAGE_SETTINGS_FORMAT` after the conversion of `press_lim_max`: the
string literals of the source lines, the line of a conversion being cut there. -/
def settingsFormat6 : List Char :=
  concatLines [
    "\"></div>\n",
    "        <input type=\"submit\" value=\"Salvar Configura\xc3\xa7\xc3\xb5es\">\n",
    "    </form>\n",
    "    <a href=\"/\">Voltar \xc3\xa0 P\xc3\xa1gina Principal</a>\n",
    "</body>\n",
    "</html>\n"]

/-- `const char HTML_PAGE_SETTINGS_FORMAT[]`, the `snprintf` format of the settings
form: the seven pieces of the initialiser with the six conversions between
them. -/
def HTML_PAGE_SETTINGS_FORMAT : List Char :=
  settingsFormat0 ++ ("%.1f".toList ++ (settingsFormat1 ++ ("%.1f".toList ++
    (settingsFormat2 ++ ("%.0f".toList ++ (settingsFormat3 ++ ("%.0f".toList ++
      (settingsFormat4 ++ ("%.0f".toList ++ (settingsFormat5 ++ ("%.0f".toList ++
        settingsFormat6)))))))))))

/-! ## The HTTP server -/

/-- `void parse_and_update_value(const char* request, const char* key, float* value)`:
the value left in `*value`. -/
def parse_and_update_value (request key : List Char) (value : CFloat) : CFloat :=
  match strstr request key with
  | some key_ptr => toFloat (atof (key_ptr.drop key.length))
  | none => value

/-- The six calls of `parse_and_update_value` made for a form submission. -/
def update_limits (req : List Char) (t : Thresholds) : Thresholds :=
  { temp_lim_min := parse_and_update_value req "temp_min=".toList t.temp_lim_min
    temp_lim_max := parse_and_update_value req "temp_max=".toList t.temp_lim_max
    umid_lim_min := parse_and_update_value req "umid_min=".toList t.umid_lim_min
    umid_lim_max := parse_and_update_value req "umid_max=".toList t.umid_lim_max
    press_lim_min := parse_and_update_value req "press_min=".toList t.press_lim_min
    press_lim_max := parse_and_update_value req "press_max=".toList t.press_lim_max }

/-- The format of the JSON payload of `/data`. -/
def JSON_FORMAT : List Char :=
  "\x7b\"temp\":%.2f, \"hum\":%.2f, \"press\":%.2f, \"alt\":%.2f, \"alerta\":%s\x7d".toList

/-- The format of the `/data` response. -/
def RESPONSE_JSON_FORMAT : List Char :=
  "HTTP/1.1 200 OK\r\nContent-Type: application/json\r\nContent-Length: %d\r\n\r\n%s".toList

/-- The format of the two HTML responses. -/
def RESPONSE_HTML_FORMAT : List Char :=
  "HTTP/1.1 200 OK\r\nContent-Type: text/html\r\nContent-Length: %d\r\n\r\n%s".toList

/-- The redirection sent after a form submission. -/
def RESPONSE_REDIRECT : List Char :=
  "HTTP/1.1 302 Found\r\nLocation: /\r\n\r\n".toList

/-- The record `hs` as `http_recv` hands it to `tcp_write`: the string left in
`hs->response` by the last `snprintf` and its result in `hs->len`. -/
def mkState (out : List Char × Nat) : http_state :=
  { response := out.1, len := out.2, sent := 0 }

/-- The part of `http_recv` that follows `char *req = (char *)p->payload`: the
limits after the call and the record handed to `tcp_write`.  `req` is the
request as the C string functions see it.  In the settings-form branch the C
code formats the page into the upper part of `hs->response` and then formats
the response from it into the same array; the embedding follows the values. -/
def http_recv_payload (r : Reading) (alerta : Bool) (t : Thresholds) (req : List Char) :
    Thresholds × http_state :=
  if strncmp_eq req "GET /data".toList 9 then
    let json := snprintf 256 JSON_FORMAT
      [.dbl r.temperatura_bmp, .dbl r.umidade_aht, .dbl r.pressao_bmp, .dbl r.altitude_bmp,
       .str (if alerta then "true".toList else "false".toList)]
    (t, mkState (snprintf 4096 RESPONSE_JSON_FORMAT [.int json.2, .str json.1]))
  else if strncmp_eq req "GET /settings".toList 13 then
    if (strstr req "?".toList).isSome then
      (update_limits req t, mkState (snprintf 4096 RESPONSE_REDIRECT []))
    else
      let page := snprintf (4096 - 1024) HTML_PAGE_SETTINGS_FORMAT
        [.dbl t.temp_lim_min, .dbl t.temp_lim_max, .dbl t.umid_lim_min, .dbl t.umid_lim_max,
         .dbl t.press_lim_min, .dbl t.press_lim_max]
      (t, mkState (snprintf 4096 RESPONSE_HTML_FORMAT [.int page.2, .str page.1]))
  else
    (t, mkState (snprintf 4096 RESPONSE_HTML_FORMAT [.int HTML_PAGE.length, .str HTML_PAGE]))

/-- `static err_t http_recv(void *arg, struct tcp_pcb *tpcb, struct pbuf *p, err_t err)`:
with a null `p` the connection is closed and nothing is allocated. -/
def http_recv (r : Reading) (alerta : Bool) (t : Thresholds) (p : Option (List Char)) :
    Thresholds × Option http_state :=
  match p with
  | none => (t, none)
  | some req => ((http_recv_payload r alerta t req).1, some (http_recv_payload r alerta t req).2)

/-! ## Vocabulary of the properties -/

/-- The step of a decimal accumulator: append the digit `c` to `acc`. -/
def digitStep (acc : Nat) (c : Char) : Nat := 10 * acc + (c.toNat - 48)

/-- `FLT_MAX`, the largest finite `float`: `(2 ^ 24 - 1) * 2 ^ 104`. -/
def FLT_MAX : Nat := 340282346638528859811704183484516925440

/-- The value lies in the range of the type `float`: NaN, an infinity, or a
number of magnitude at most `FLT_MAX`. -/
def CFloat.inFloatRange : CFloat → Bool
  | .fin q => decide (q.num.natAbs ≤ FLT_MAX * q.den)
  | _ => true

/-- The four fields of a reading lie in the range of `float`. -/
def Reading.inFloatRange (r : Reading) : Bool :=
  r.temperatura_bmp.inFloatRange && r.umidade_aht.inFloatRange &&
  r.pressao_bmp.inFloatRange && r.altitude_bmp.inFloatRange

/-- The four fields of a reading are numbers. -/
def Reading.isFinite (r : Reading) : Bool :=
  r.temperatura_bmp.isFinite && r.umidade_aht.isFinite &&
  r.pressao_bmp.isFinite && r.altitude_bmp.isFinite

/-- The six limits lie in the range of `float`. -/
def Thresholds.inFloatRange (t : Thresholds) : Bool :=
  t.temp_lim_min.inFloatRange && t.temp_lim_max.inFloatRange &&
  t.umid_lim_min.inFloatRange && t.umid_lim_max.inFloatRange &&
  t.press_lim_min.inFloatRange && t.press_lim_max.inFloatRange

/-- The text without its leading minus sign, if it has one. -/
def stripMinus : List Char → List Char
  | '-' :: t => t
  | s => s

/-- The text starts with a minus sign. -/
def hasMinus : List Char → Bool
  | '-' :: _ => true
  | _ => false

/-- What follows the integer digits of a numeral with `prec` fractional
digits: nothing when `prec = 0`, else a point and exactly `prec` digits. -/
def fracPartOk (prec : Nat) : List Char → Bool
  | [] => prec == 0
  | c :: fr => c == '.' && prec != 0 && fr.length == prec && fr.all Char.isDigit

/-- The text is a numeral in fixed notation with exactly `prec` fractional
digits: an optional minus sign, at least one digit and, when `prec > 0`, a
point followed by exactly `prec` digits. -/
def isFixedNumeral (prec : Nat) (s : List Char) : Bool :=
  !((stripMinus s).takeWhile Char.isDigit).isEmpty &&
    fracPartOk prec ((stripMinus s).dropWhile Char.isDigit)

/-- The number a numeral in fixed notation with `prec` fractional digits
denotes: its digits read as one integer, divided by `10 ^ prec`, with the
sign. -/
def fixedNumeralValue (prec : Nat) (s : List Char) : ℚ :=
  (if hasMinus s then -1 else 1) *
    ((((stripMinus s).filter Char.isDigit).foldl digitStep 0 : Nat) : ℚ) / 10 ^ prec

/-- The text `s` is the value `x` rendered with exactly `prec` fractional
digits, rounded: `x` is a number, `s` is a numeral with `prec` fractional
digits, and the number `s` denotes is within half a unit of the last digit
of `x`. -/
def Rendered (prec : Nat) (x : CFloat) (s : List Char) : Prop :=
  ∃ q : ℚ, x = .fin q ∧ isFixedNumeral prec s = true ∧
    |fixedNumeralValue prec s - q| ≤ 1 / (2 * 10 ^ prec)

/-- The JSON body the `/data` route is specified to send for given renderings
of the four fields. -/
def dataBody (T H P A : List Char) (alerta : Bool) : List Char :=
  "\x7b\"temp\":".toList ++ (T ++ (", \"hum\":".toList ++ (H ++ (", \"press\":".toList ++
    (P ++ (", \"alt\":".toList ++ (A ++ (", \"alerta\":".toList ++
      ((if alerta then "true".toList else "false".toList) ++ "\x7d".toList)))))))))

/-- The `/data` response as specified: status line and headers, with the
decimal byte length of the body as `Content-Length`, a blank line and the
body. -/
def dataResponse (body : List Char) : List Char :=
  "HTTP/1.1 200 OK\r\nContent-Type: application/json\r\nContent-Length: ".toList ++
    (fmtNat body.length ++ ("\r\n\r\n".toList ++ body))

/-- The text `resp` is the `/data` response specified for the reading `r` and
the alert flag: each of the four fields rendered with exactly two fractional
digits. -/
def DataResponseSpec (r : Reading) (alerta : Bool) (resp : List Char) : Prop :=
  ∃ T H P A : List Char,
    Rendered 2 r.temperatura_bmp T ∧ Rendered 2 r.umidade_aht H ∧
    Rendered 2 r.pressao_bmp P ∧ Rendered 2 r.altitude_bmp A ∧
    resp = dataResponse (dataBody T H P A alerta)

/-- The reading of the example of the specification: the `float` values
nearest to 23.456, 55.12, 1013.2 and 10.4. -/
def readingExample : Reading :=
  { temperatura_bmp := roundF32 false 23456 1000, umidade_aht := roundF32 false 5512 100,
    pressao_bmp := roundF32 false 10132 10, altitude_bmp := roundF32 false 104 10 }

/-- A reading with a negative pressure and the altitude the main loop then
computes: `44330.0 * (1.0 - pow(pressao_bmp / 1013.25, 0.1903))` is not a
number when the pressure is negative. -/
def readingNaN : Reading :=
  { readingExample with pressao_bmp := .fin (-1), altitude_bmp := .nan }

/-- The digits of the fractional part at the head of a text: the digits that
follow a point, nothing when the text does not start with a point. -/
def fracPart : List Char → List Char
  | '.' :: t => t.takeWhile Char.isDigit
  | _ => []

/-- The text after the fractional part. -/
def afterFracPart : List Char → List Char
  | '.' :: t => t.dropWhile Char.isDigit
  | r => r

/-- The decimal number at the head of a text, read as the words "the decimal
number that follows" are: an optional minus sign, then digits with an optional
fractional part (at least one digit in all).  The result is the sign, the
digits as one integer, the number of fractional digits and the text after the
number; `none` when the text does not start with a number. -/
def decimalPrefix (s : List Char) : Option (Bool × Nat × Nat × List Char) :=
  let ip := (stripMinus s).takeWhile Char.isDigit
  let r1 := (stripMinus s).dropWhile Char.isDigit
  if (ip ++ fracPart r1).isEmpty then none
  else some (hasMinus s, (ip ++ fracPart r1).foldl digitStep 0, (fracPart r1).length,
    afterFracPart r1)

/-- The text after a decimal number ends the number: it is empty or starts
with a character that is neither an exponent marker (`e`, `E`) nor the mark of
a hexadecimal constant (`x`, `X`). -/
def endsNumeral : List Char → Bool
  | [] => true
  | c :: _ => !(c == 'e' || c == 'E' || c == 'x' || c == 'X')

/-- What `http_recv` does to one limit on a form submission `req`, for the key
`key`: when the key does not occur in the request the limit keeps its value
`old`; when the first occurrence of the key is followed by a decimal number
(and the number ends there), the new value is that number, converted to
`double` and then to `float`. -/
def KeyUpdated (req key : List Char) (old new : CFloat) : Prop :=
  (¬ key <:+: req → new = old) ∧
  (∀ (pre after rest : List Char) (neg : Bool) (m kf : Nat),
    req = pre ++ (key ++ after) → ¬ key <:+: pre ++ key.dropLast →
    decimalPrefix after = some (neg, m, kf, rest) → endsNumeral rest = true →
    new = toFloat (roundF64 neg m (10 ^ kf)))

/-! ## The settings form as specified -/

/-- The settings form with the six limits in their fields: the text of the
format (each `%%` giving `%`) with the two temperature limits rendered with one
fractional digit and the other four with none. -/
def settingsPage (t : Thresholds) : List Char :=
  vformat settingsFormat0 [] ++ (fmtFixed 1 t.temp_lim_min ++
    (vformat settingsFormat1 [] ++ (fmtFixed 1 t.temp_lim_max ++
      (vformat settingsFormat2 [] ++ (fmtFixed 0 t.umid_lim_min ++
        (vformat settingsFormat3 [] ++ (fmtFixed 0 t.umid_lim_max ++
          (vformat settingsFormat4 [] ++ (fmtFixed 0 t.press_lim_min ++
            (vformat settingsFormat5 [] ++ (fmtFixed 0 t.press_lim_max ++
              vformat settingsFormat6 [])))))))))))

/-- An HTML response as specified: status line and headers, with the decimal
byte length of the document as `Content-Length`, a blank line and the
document. -/
def htmlResponse (body : List Char) : List Char :=
  "HTTP/1.1 200 OK\r\nContent-Type: text/html\r\nContent-Length: ".toList ++
    (fmtNat body.length ++ ("\r\n\r\n".toList ++ body))

/-! ## Resubmitting the settings form -/

/-- The request a browser sends when the settings form is submitted with the
values shown for the limits `t`, followed by whatever comes after the path
(`tail`). -/
def resubmission (t : Thresholds) (tail : List Char) : List Char :=
  "GET /settings?temp_min=".toList ++ (fmtFixed 1 t.temp_lim_min ++
    ("&temp_max=".toList ++ (fmtFixed 1 t.temp_lim_max ++
      ("&umid_min=".toList ++ (fmtFixed 0 t.umid_lim_min ++
        ("&umid_max=".toList ++ (fmtFixed 0 t.umid_lim_max ++
          ("&press_min=".toList ++ (fmtFixed 0 t.press_lim_min ++
            ("&press_max=".toList ++ (fmtFixed 0 t.press_lim_max ++ tail)))))))))))

/-- The `float` nearest to the value shown for `x` in a field with `prec`
fractional digits: `x` rounded to `prec` fractional digits, converted to
`double` and then to `float`; NaN and the infinities are shown as such. -/
def rerendered (prec : Nat) : CFloat → CFloat
  | .fin q =>
    toFloat (roundF64 (decide (q.num < 0))
      (roundHalfEvenDiv (q.num.natAbs * 10 ^ prec) q.den) (10 ^ prec))
  | x => x

/-- The limits after the form has been shown and submitted unchanged. -/
def Thresholds.rerendered (t : Thresholds) : Thresholds :=
  { temp_lim_min := Estacao.rerendered 1 t.temp_lim_min
    temp_lim_max := Estacao.rerendered 1 t.temp_lim_max
    umid_lim_min := Estacao.rerendered 0 t.umid_lim_min
    umid_lim_max := Estacao.rerendered 0 t.umid_lim_max
    press_lim_min := Estacao.rerendered 0 t.press_lim_min
    press_lim_max := Estacao.rerendered 0 t.press_lim_max }

/-- A character that `%.Nf` can produce. -/
def isValueChar (c : Char) : Bool :=
  c.isDigit || c == '.' || c == '-' || c == 'n' || c == 'a' || c == 'i' || c == 'f'

/-- The text after a submitted value ends the value: it is empty or starts
with `&` or a space. -/
def endsValue : List Char → Bool
  | [] => true
  | c :: _ => c == '&' || c == ' '

/-- The start-up limits with `temp_lim_min` set to 18.25, as the request
`GET /settings?temp_min=18.25` leaves them. -/
def limitsQuarter : Thresholds := { Thresholds.init with temp_lim_min := .fin (mkRat 73 4) }

/-- The value is a number, a whole multiple of `1 / k`, of magnitude below
`2^23`. -/
def CFloat.isSmallMultiple (k : Nat) : CFloat → Bool
  | .fin q => decide (q.den ∣ k) && decide (q.num.natAbs < 2 ^ 23 * q.den)
  | _ => false

/-- The two temperature limits are multiples of one half and the other four
are integers, all of magnitude below `2^23`. -/
def Thresholds.shownExactly (t : Thresholds) : Bool :=
  t.temp_lim_min.isSmallMultiple 2 && t.temp_lim_max.isSmallMultiple 2 &&
  t.umid_lim_min.isSmallMultiple 1 && t.umid_lim_max.isSmallMultiple 1 &&
  t.press_lim_min.isSmallMultiple 1 && t.press_lim_max.isSmallMultiple 1

/-! ## Floating-point arithmetic

The target evaluates an operation on two `float` operands in `float` and an
operation with a `double` operand in `double` (`FLT_EVAL_METHOD` is 0); each
operation rounds the exact result to the format.  A `float` converted to
`double` keeps its value.  A zero divisor is the positive zero, the only zero
of `CFloat`: a difference `x - y` that is zero is the positive zero unless `x`
is the negative and `y` the positive zero, so that the statements about a
division by the difference `max - min` exclude zero bounds where the divisor
can be zero. -/

/-- The value `num / den` rounded to the binary format with `p` bits of
precision and largest exponent `emax`. -/
def roundRatio (p emax : Nat) (num : Int) (den : Nat) : CFloat :=
  roundBinary p emax (decide (num < 0)) num.natAbs den

namespace CFloat

/-- The C operator `-` in the format `(p, emax)`: the difference of two
infinities of one sign is NaN. -/
def sub (p emax : Nat) : CFloat → CFloat → CFloat
  | fin a, fin b => roundRatio p emax (a.num * b.den - b.num * a.den) (a.den * b.den)
  | fin _, inf n => inf (!n)
  | inf n, fin _ => inf n
  | inf n1, inf n2 => if n1 = n2 then nan else inf n1
  | _, _ => nan

/-- The C operator `*` in the format `(p, emax)`: zero times an infinity is
NaN. -/
def mul (p emax : Nat) : CFloat → CFloat → CFloat
  | fin a, fin b => roundRatio p emax (a.num * b.num) (a.den * b.den)
  | fin a, inf n => if a.num = 0 then nan else inf (decide (a.num < 0) != n)
  | inf n, fin b => if b.num = 0 then nan else inf (n != decide (b.num < 0))
  | inf n1, inf n2 => inf (n1 != n2)
  | _, _ => nan

/-- The C operator `/` in the format `(p, emax)`: a number other than zero
divided by zero is an infinity, and zero by zero or an infinity by an infinity
is NaN. -/
def div (p emax : Nat) : CFloat → CFloat → CFloat
  | fin a, fin b =>
    if b.num = 0 then (if a.num = 0 then nan else inf (decide (a.num < 0)))
    else roundRatio p emax (a.num * b.den * b.num.sign) (a.den * b.num.natAbs)
  | fin _, inf _ => fin 0
  | inf n, fin b => inf (n != decide (b.num < 0))
  | _, _ => nan

/-- The conversion `(int)x`: the value with its fractional part discarded;
`none` when the behaviour is undefined, that is when `x` is NaN or an infinity
or the integral part is not a value of `int`. -/
def toInt : CFloat → Option Int
  | fin q =>
    if -2 ^ 31 ≤ q.num.tdiv q.den ∧ q.num.tdiv q.den < 2 ^ 31 then some (q.num.tdiv q.den)
    else none
  | _ => none

end CFloat

/-! ## The level indicator -/

/-- The initialiser of `percentual` in `set_matriz_indicador`:
`100.0 * (valor - min) / (max - min)`, a `double` computed from two `float`
differences, converted to `float`. -/
def percentual_init (valor min max : CFloat) : CFloat :=
  toFloat (CFloat.div 53 1023
    (CFloat.mul 53 1023 (.fin 100) (CFloat.sub 24 127 valor min)) (CFloat.sub 24 127 max min))

/-- The two statements `if (percentual < 0) percentual = 0;` and
`if (percentual > 100) percentual = 100;`. -/
def percentual_clamp (percentual : CFloat) : CFloat :=
  let percentual := if CFloat.lt percentual (.fin 0) then .fin 0 else percentual
  if CFloat.gt percentual (.fin 100) then .fin 100 else percentual

/-- The value of `percentual` after the two statements that clamp it. -/
def percentual (valor min max : CFloat) : CFloat :=
  percentual_clamp (percentual_init valor min max)

/-- The two statements `if (linhas_acesas < 0) linhas_acesas = 0;` and
`if (linhas_acesas > 5) linhas_acesas = 5;`. -/
def linhas_clamp (linhas_acesas : Int) : Int :=
  let linhas_acesas := if linhas_acesas < 0 then 0 else linhas_acesas
  if linhas_acesas > 5 then 5 else linhas_acesas

/-- The value of `linhas_acesas` for a value of `percentual`:
`(int)(percentual / 20.0f)`, replaced by 0 when negative and by 5 when above
5; `none` when the conversion to `int` is undefined. -/
def linhas_of_percentual (percentual : CFloat) : Option Int :=
  (CFloat.toInt (CFloat.div 24 127 percentual (.fin 20))).map linhas_clamp

/-- The value of `linhas_acesas` in `set_matriz_indicador` after the two
statements that clamp it; `none` when the conversion to `int` is undefined. -/
def linhas_acesas (valor min max : CFloat) : Option Int :=
  linhas_of_percentual (percentual valor min max)

/-- The value the variable `linhas_acesas` holds after the two statements that
clamp it, whatever the conversion does: where the C standard leaves
`(int)(percentual / 20.0f)` undefined (the quotient is NaN), `conv` is the
`int` the conversion yields. -/
def linhas_acesas_var (conv : Int) (valor min max : CFloat) : Int :=
  linhas_clamp
    ((CFloat.toInt (CFloat.div 24 127 (percentual valor min max) (.fin 20))).getD conv)

/-- `static inline uint32_t urgb_u32(uint8_t r, uint8_t g, uint8_t b)`. -/
def urgb_u32 (r g b : Nat) : Nat :=
  ((r % 256) <<< 8) ||| ((g % 256) <<< 16) ||| (b % 256)

/-- `int pixel_map[5][5]`: the physical pixel of the cell in row `i` and
column `j`. -/
def pixel_map (i j : Nat) : Nat :=
  ([[24, 23, 22, 21, 20],
    [15, 16, 17, 18, 19],
    [14, 13, 12, 11, 10],
    [5, 6, 7, 8, 9],
    [4, 3, 2, 1, 0]].getD i []).getD j 0

/-- The loop `for (int j = 0; j < 5; j++) pixels[pixel_map[i][j]] = colour;`. -/
def fill_row (pixels : List Nat) (i : Nat) (colour : Nat) : List Nat :=
  (List.range 5).foldl (fun px j => px.set (pixel_map i j) colour) pixels

/-- The loop `for (int i = 4; i >= (4 - linhas_acesas + 1); i--)` from the
value `i` of its variable on, with at most `fuel` evaluations of its test;
`none` when they do not suffice. -/
def level_loop (linhas_acesas : Int) : Nat → Int → List Nat → Option (List Nat)
  | 0, _, _ => none
  | fuel + 1, i, pixels =>
    if i ≥ 4 - linhas_acesas + 1 then
      level_loop linhas_acesas fuel (i - 1) (fill_row pixels i.toNat (urgb_u32 0 0 8))
    else some pixels

/-- The second part of `set_matriz_indicador`, from `uint32_t pixels[25] = {0}`
on: the arguments of the 25 calls of `put_pixel`, in order. -/
def put_pixels (linhas_acesas : Int) (alerta_ativo : Bool) : Option (List Nat) :=
  (level_loop linhas_acesas 6 4 (List.replicate 25 0)).map fun pixels =>
    let pixels := if alerta_ativo then fill_row pixels 0 (urgb_u32 20 0 0) else pixels
    (List.range 25).map fun i => pixels.getD i 0

/-- `void set_matriz_indicador(float valor, float min, float max)`: the
arguments of the 25 calls of `put_pixel`, in order; the global `alerta_ativo`
is an argument, and so is `conv`, the `int` an undefined conversion yields. -/
def set_matriz_indicador (conv : Int) (valor min max : CFloat) (alerta_ativo : Bool) :
    Option (List Nat) :=
  put_pixels (linhas_acesas_var conv valor min max) alerta_ativo

/-! ## Vocabulary of the rounding proofs -/

/-- The exponent `roundBinary` selects for `n / d`: that of its leading bit,
or the least exponent of the format when the value is below the normal
range. -/
def binExp (emax n d : Nat) : Int := max (floorLog2Ratio n d) (1 - (emax : Int))

/-- The integer significand `roundBinary` computes for the scale `2^t`: the
integer nearest to `n / d / 2^t`, ties going to the even one. -/
def binMant (n d : Nat) (t : Int) : Nat :=
  if t ≥ 0 then roundHalfEvenDiv n (d * 2 ^ t.toNat)
  else roundHalfEvenDiv (n * 2 ^ (-t).toNat) d

/-- The value with its sign changed. -/
def CFloat.neg : CFloat → CFloat
  | .nan => .nan
  | .inf n => .inf (!n)
  | .fin q => .fin (-q)

/-- The value is a value of the type `float`: the conversion to `float`
leaves it as it is. -/
def CFloat.isFloat (x : CFloat) : Bool := decide (toFloat x = x)

/-- The colour specified for the cells of row `i` (row 0 is the topmost and
row 4 the bottom one): the alert colour in the topmost row when the alert flag
is set, else the level colour in the bottom `linhas` rows, else off. -/
def cell_colour (linhas : Int) (alerta : Bool) (i : Nat) : Nat :=
  if alerta = true ∧ i = 0 then urgb_u32 20 0 0
  else if 5 - linhas ≤ (i : Int) then urgb_u32 0 0 8
  else 0

/-! # Theorems -/

/-! ## Menu navigation (C7 to C10) -/

/-- An accepted event stores the time stamp and runs the dispatch chain. -/
theorem gpio_irq_handler_accepted (s : IrqState) (gpio current_time : Nat)
    (hacc : debounced s current_time = false) :
    gpio_irq_handler s gpio current_time
      = irq_dispatch { s with last_press := current_time % 2 ^ 32 } gpio := by
  simp [gpio_irq_handler, hacc]

/-- C7: an accepted event while the menu is in `MENU_PRINCIPAL`: button A goes
to the monitoring screen with subscreen 0, button B goes to the limits screen
with subscreen 0, and an event from any other pin (the joystick switch
included) leaves the menu in `MENU_PRINCIPAL` with both subscreen indices
untouched. -/
theorem C7_main_menu_transitions (s : IrqState) (gpio current_time : Nat)
    (hacc : debounced s current_time = false)
    (hmain : s.estado_menu = MENU_PRINCIPAL) :
    (gpio = BOTAO_A →
        (gpio_irq_handler s gpio current_time).estado_menu = TELA_MONITORAMENTO ∧
        (gpio_irq_handler s gpio current_time).tela_monitor_sub_estado = 0 ∧
        (gpio_irq_handler s gpio current_time).tela_limites_sub_estado
          = s.tela_limites_sub_estado) ∧
    (gpio = BOTAO_B →
        (gpio_irq_handler s gpio current_time).estado_menu = TELA_LIMITES ∧
        (gpio_irq_handler s gpio current_time).tela_limites_sub_estado = 0 ∧
        (gpio_irq_handler s gpio current_time).tela_monitor_sub_estado
          = s.tela_monitor_sub_estado) ∧
    (gpio ≠ BOTAO_A → gpio ≠ BOTAO_B →
        (gpio_irq_handler s gpio current_time).estado_menu = MENU_PRINCIPAL ∧
        (gpio_irq_handler s gpio current_time).tela_monitor_sub_estado
          = s.tela_monitor_sub_estado ∧
        (gpio_irq_handler s gpio current_time).tela_limites_sub_estado
          = s.tela_limites_sub_estado) := by
  rw [gpio_irq_handler_accepted s gpio current_time hacc]
  refine ⟨?_, ?_, ?_⟩
  · intro hA
    simp [irq_dispatch, hA, hmain]
  · intro hB
    simp [irq_dispatch, hB, hmain, BOTAO_A, BOTAO_B]
  · intro hA hB
    by_cases hJ : gpio = JOYSTICK_SW
    · simp [irq_dispatch, hJ, BOTAO_A, BOTAO_B, JOYSTICK_SW]
    · simp [irq_dispatch, hA, hB, hJ, hmain]

/-- C7 at the start-up state: button A, pressed 1000 ms after boot. -/
theorem C7_main_menu_transitions_witness :
    debounced IrqState.init 1000 = false ∧
    IrqState.init.estado_menu = MENU_PRINCIPAL ∧
    (gpio_irq_handler IrqState.init BOTAO_A 1000).estado_menu = TELA_MONITORAMENTO ∧
    (gpio_irq_handler IrqState.init BOTAO_A 1000).tela_monitor_sub_estado = 0 :=
  ⟨by decide, rfl,
   ((C7_main_menu_transitions IrqState.init BOTAO_A 1000 (by decide) rfl).1 rfl).1,
   ((C7_main_menu_transitions IrqState.init BOTAO_A 1000 (by decide) rfl).1 rfl).2.1⟩

/-- C8: for a subscreen index `sub` in `0..3`, an accepted button A in the
monitoring screen with subscreen `sub` stays in the monitoring screen with
subscreen `(sub + 1) mod 4`, and an accepted button B in the limits screen with
subscreen `sub` stays in the limits screen with subscreen `(sub + 1) mod 4`;
the new index is again in `0..3`, it is `0` when `sub = 3`, and the index of
the other screen is untouched. -/
theorem C8_subscreen_cycle (s : IrqState) (current_time : Nat) (sub : Int)
    (hacc : debounced s current_time = false)
    (hlo : 0 ≤ sub) (hhi : sub ≤ 3) :
    (s.estado_menu = TELA_MONITORAMENTO → s.tela_monitor_sub_estado = sub →
        (gpio_irq_handler s BOTAO_A current_time).estado_menu = TELA_MONITORAMENTO ∧
        (gpio_irq_handler s BOTAO_A current_time).tela_monitor_sub_estado
          = (sub + 1) % 4 ∧
        (gpio_irq_handler s BOTAO_A current_time).tela_limites_sub_estado
          = s.tela_limites_sub_estado) ∧
    (s.estado_menu = TELA_LIMITES → s.tela_limites_sub_estado = sub →
        (gpio_irq_handler s BOTAO_B current_time).estado_menu = TELA_LIMITES ∧
        (gpio_irq_handler s BOTAO_B current_time).tela_limites_sub_estado
          = (sub + 1) % 4 ∧
        (gpio_irq_handler s BOTAO_B current_time).tela_monitor_sub_estado
          = s.tela_monitor_sub_estado) ∧
    0 ≤ (sub + 1) % 4 ∧ (sub + 1) % 4 ≤ 3 ∧ (sub = 3 → (sub + 1) % 4 = 0) := by
  have htm : (sub + 1).tmod 4 = (sub + 1) % 4 := by
    have h0 : (0 : Int) ≤ sub + 1 := by omega
    rw [Int.tmod_eq_emod h0 (by decide)]
  rw [gpio_irq_handler_accepted s BOTAO_A current_time hacc,
    gpio_irq_handler_accepted s BOTAO_B current_time hacc]
  refine ⟨?_, ?_, by omega, by omega, by omega⟩
  · intro hm hs
    simp [irq_dispatch, hm, hs, htm]
  · intro hm hs
    simp [irq_dispatch, hm, hs, htm, BOTAO_A, BOTAO_B]

/-- C8 at the last monitoring subscreen: button A wraps from 3 to 0. -/
theorem C8_subscreen_cycle_witness :
    debounced ⟨TELA_MONITORAMENTO, 3, 0, 0⟩ 1000 = false ∧
    (0 : Int) ≤ 3 ∧ (3 : Int) ≤ 3 ∧
    (gpio_irq_handler ⟨TELA_MONITORAMENTO, 3, 0, 0⟩ BOTAO_A 1000).estado_menu
      = TELA_MONITORAMENTO ∧
    (gpio_irq_handler ⟨TELA_MONITORAMENTO, 3, 0, 0⟩ BOTAO_A 1000).tela_monitor_sub_estado
      = (3 + 1) % 4 :=
  ⟨by decide, by decide, by decide,
   ((C8_subscreen_cycle ⟨TELA_MONITORAMENTO, 3, 0, 0⟩ 1000 3 (by decide) (by decide)
      (by decide)).1 rfl rfl).1,
   ((C8_subscreen_cycle ⟨TELA_MONITORAMENTO, 3, 0, 0⟩ 1000 3 (by decide) (by decide)
      (by decide)).1 rfl rfl).2.1⟩

/-- C9: in every menu state (any screen, any subscreen indices) an accepted
event from the joystick switch leaves the menu in `MENU_PRINCIPAL`; the two
subscreen indices keep their values. -/
theorem C9_joystick_home (s : IrqState) (current_time : Nat)
    (hacc : debounced s current_time = false) :
    (gpio_irq_handler s JOYSTICK_SW current_time).estado_menu = MENU_PRINCIPAL ∧
    (gpio_irq_handler s JOYSTICK_SW current_time).tela_monitor_sub_estado
      = s.tela_monitor_sub_estado ∧
    (gpio_irq_handler s JOYSTICK_SW current_time).tela_limites_sub_estado
      = s.tela_limites_sub_estado := by
  rw [gpio_irq_handler_accepted s JOYSTICK_SW current_time hacc]
  simp [irq_dispatch, BOTAO_A, BOTAO_B, JOYSTICK_SW]

/-- C9 from the limits screen, subscreen 2. -/
theorem C9_joystick_home_witness :
    debounced ⟨TELA_LIMITES, 1, 2, 0⟩ 1000 = false ∧
    (gpio_irq_handler ⟨TELA_LIMITES, 1, 2, 0⟩ JOYSTICK_SW 1000).estado_menu
      = MENU_PRINCIPAL :=
  ⟨by decide, (C9_joystick_home ⟨TELA_LIMITES, 1, 2, 0⟩ 1000 (by decide)).1⟩

/-- C10: an accepted button B in the monitoring screen, and an accepted
button A in the limits screen, change nothing of the menu state: the screen
and both subscreen indices keep their values. -/
theorem C10_foreign_button_ignored (s : IrqState) (current_time : Nat)
    (hacc : debounced s current_time = false) :
    (s.estado_menu = TELA_MONITORAMENTO →
        (gpio_irq_handler s BOTAO_B current_time).estado_menu = s.estado_menu ∧
        (gpio_irq_handler s BOTAO_B current_time).tela_monitor_sub_estado
          = s.tela_monitor_sub_estado ∧
        (gpio_irq_handler s BOTAO_B current_time).tela_limites_sub_estado
          = s.tela_limites_sub_estado) ∧
    (s.estado_menu = TELA_LIMITES →
        (gpio_irq_handler s BOTAO_A current_time).estado_menu = s.estado_menu ∧
        (gpio_irq_handler s BOTAO_A current_time).tela_monitor_sub_estado
          = s.tela_monitor_sub_estado ∧
        (gpio_irq_handler s BOTAO_A current_time).tela_limites_sub_estado
          = s.tela_limites_sub_estado) := by
  rw [gpio_irq_handler_accepted s BOTAO_A current_time hacc,
    gpio_irq_handler_accepted s BOTAO_B current_time hacc]
  refine ⟨?_, ?_⟩
  · intro hm
    simp [irq_dispatch, hm, BOTAO_A, BOTAO_B]
  · intro hm
    simp [irq_dispatch, hm]

/-- C10 in the monitoring screen, subscreen 2, with button B. -/
theorem C10_foreign_button_ignored_witness :
    debounced ⟨TELA_MONITORAMENTO, 2, 1, 0⟩ 1000 = false ∧
    (gpio_irq_handler ⟨TELA_MONITORAMENTO, 2, 1, 0⟩ BOTAO_B 1000).estado_menu
      = TELA_MONITORAMENTO ∧
    (gpio_irq_handler ⟨TELA_MONITORAMENTO, 2, 1, 0⟩ BOTAO_B 1000).tela_monitor_sub_estado
      = 2 :=
  ⟨by decide,
   ((C10_foreign_button_ignored ⟨TELA_MONITORAMENTO, 2, 1, 0⟩ 1000 (by decide)).1 rfl).1,
   ((C10_foreign_button_ignored ⟨TELA_MONITORAMENTO, 2, 1, 0⟩ 1000 (by decide)).1 rfl).2.1⟩

/-! ## The alert flag (C1) -/

/-- A value that equals one of two limits, the lower of which is not above
the upper one, is neither above the upper limit nor below the lower one. -/
theorem CFloat.on_bound_inside (x lo hi : CFloat) (hord : CFloat.gt lo hi = false)
    (hx : (CFloat.feq x lo || CFloat.feq x hi) = true) :
    CFloat.gt x hi = false ∧ CFloat.lt x lo = false := by
  cases x with
  | nan => simp [CFloat.feq] at hx
  | inf n =>
    cases lo with
    | nan => cases hi <;> simp_all [CFloat.lt, CFloat.gt, CFloat.feq]
    | fin a => cases hi <;> simp_all [CFloat.lt, CFloat.gt, CFloat.feq]
    | inf m =>
      cases hi with
      | nan => simp_all [CFloat.lt, CFloat.gt, CFloat.feq]
      | fin b => simp_all [CFloat.lt, CFloat.gt, CFloat.feq]
      | inf k =>
        revert hord hx
        cases n <;> cases m <;> cases k <;> decide
  | fin q =>
    cases lo with
    | nan => cases hi <;> simp_all [CFloat.lt, CFloat.gt, CFloat.feq]
    | inf n => cases hi <;> simp_all [CFloat.lt, CFloat.gt, CFloat.feq]
    | fin a =>
      cases hi with
      | nan => simp_all [CFloat.lt, CFloat.gt, CFloat.feq]
      | inf n => simp_all [CFloat.lt, CFloat.gt, CFloat.feq]
      | fin b =>
        simp only [CFloat.gt, CFloat.lt, CFloat.feq, Bool.or_eq_true, decide_eq_true_eq,
          decide_eq_false_iff_not, not_lt] at hord hx ⊢
        rcases hx with h | h
        · subst h
          exact ⟨hord, le_refl _⟩
        · subst h
          exact ⟨le_refl _, hord⟩

/-- C1, as stated, fails: with `temp_lim_min = 50` above `temp_lim_max = 40`
(both reachable through `/settings`), the reading 50 degrees, 30 %, 950 hPa
has every metric equal to its minimum limit and still raises the alert. -/
theorem C1_counterexample :
    onBounds ⟨.fin 50, .fin 30, .fin 950, .fin 0⟩
        ⟨.fin 50, .fin 40, .fin 30, .fin 70, .fin 950, .fin 1050⟩ = true ∧
    alerta_ativo ⟨.fin 50, .fin 30, .fin 950, .fin 0⟩
        ⟨.fin 50, .fin 40, .fin 30, .fin 70, .fin 950, .fin 1050⟩ = true := by
  decide

/-- C1, amended: for every reading and every six limits the flag assigned to
`alerta_ativo` is true exactly when temperature, humidity or pressure is above
its maximum or below its minimum limit (C comparisons; for finite values the
order of the rationals); when no minimum limit is above its maximum limit
(the C comparison `min > max` is false for each pair, as it also is when one
of the two is NaN), a reading in which each of the three metrics equals its
minimum or its maximum limit gives false; and the altitude never influences
the flag. -/
theorem C1_alert_flag (r : Reading) (t : Thresholds) :
    (alerta_ativo r t = true ↔
      CFloat.gt r.temperatura_bmp t.temp_lim_max = true ∨
      CFloat.lt r.temperatura_bmp t.temp_lim_min = true ∨
      CFloat.gt r.umidade_aht t.umid_lim_max = true ∨
      CFloat.lt r.umidade_aht t.umid_lim_min = true ∨
      CFloat.gt r.pressao_bmp t.press_lim_max = true ∨
      CFloat.lt r.pressao_bmp t.press_lim_min = true) ∧
    (∀ T H P tmin tmax hmin hmax pmin pmax : ℚ,
      r.temperatura_bmp = .fin T → r.umidade_aht = .fin H → r.pressao_bmp = .fin P →
      t = ⟨.fin tmin, .fin tmax, .fin hmin, .fin hmax, .fin pmin, .fin pmax⟩ →
      (alerta_ativo r t = true ↔
        T > tmax ∨ T < tmin ∨ H > hmax ∨ H < hmin ∨ P > pmax ∨ P < pmin)) ∧
    (t.noMinAboveMax = true → onBounds r t = true → alerta_ativo r t = false) ∧
    (∀ a : CFloat, alerta_ativo { r with altitude_bmp := a } t = alerta_ativo r t) := by
  refine ⟨?_, ?_, ?_, ?_⟩
  · simp [alerta_ativo, or_assoc]
  · intro T H P tmin tmax hmin hmax pmin pmax hT hH hP ht
    subst ht
    simp [alerta_ativo, hT, hH, hP, CFloat.gt, CFloat.lt, or_assoc]
  · intro hord hb
    simp only [Thresholds.noMinAboveMax, Bool.and_eq_true, Bool.not_eq_true'] at hord
    simp only [onBounds, Bool.and_eq_true] at hb
    obtain ⟨⟨ho1, ho2⟩, ho3⟩ := hord
    obtain ⟨⟨hb1, hb2⟩, hb3⟩ := hb
    have h1 := CFloat.on_bound_inside _ _ _ ho1 hb1
    have h2 := CFloat.on_bound_inside _ _ _ ho2 hb2
    have h3 := CFloat.on_bound_inside _ _ _ ho3 hb3
    simp [alerta_ativo, h1.1, h1.2, h2.1, h2.2, h3.1, h3.2]
  · intro a
    rfl

/-- C1 (amended) at the start-up limits with the reading 18 degrees, 70 %,
1050 hPa, each on one of its limits, and at the limits left by
`/settings?temp_min=50&temp_max=nan` with the reading 50 degrees, 30 %,
950 hPa. -/
theorem C1_alert_flag_witness :
    Thresholds.init.noMinAboveMax = true ∧
    onBounds ⟨.fin 18, .fin 70, .fin 1050, .fin 0⟩ Thresholds.init = true ∧
    alerta_ativo ⟨.fin 18, .fin 70, .fin 1050, .fin 0⟩ Thresholds.init = false ∧
    Thresholds.noMinAboveMax ⟨.fin 50, .nan, .fin 30, .fin 70, .fin 950, .fin 1050⟩ = true ∧
    alerta_ativo ⟨.fin 50, .fin 30, .fin 950, .fin 0⟩
      ⟨.fin 50, .nan, .fin 30, .fin 70, .fin 950, .fin 1050⟩ = false :=
  ⟨by decide, by decide,
   (C1_alert_flag ⟨.fin 18, .fin 70, .fin 1050, .fin 0⟩ Thresholds.init).2.2.1
     (by decide) (by decide),
   by decide,
   (C1_alert_flag ⟨.fin 50, .fin 30, .fin 950, .fin 0⟩
     ⟨.fin 50, .nan, .fin 30, .fin 70, .fin 950, .fin 1050⟩).2.2.1 (by decide) (by decide)⟩

/-! ## Send progress (C4) -/

/-- While the acknowledged bytes stay below the response length the record
only accumulates them. -/
theorem http_sent_all_open (resp : List Char) (L : Nat) (hL : L < 2 ^ 32) :
    ∀ (acks : List Nat) (s cl fr : Nat), s + acks.sum < L →
      http_sent_all ⟨some ⟨resp, L, s⟩, cl, fr⟩ acks
        = some ⟨some ⟨resp, L, s + acks.sum⟩, cl, fr⟩ := by
  intro acks
  induction acks with
  | nil => intro s cl fr _; simp [http_sent_all]
  | cons a rest ih =>
    intro s cl fr h
    simp only [List.sum_cons] at h
    have hmod : (s + a) % 2 ^ 32 = s + a := Nat.mod_eq_of_lt (by omega)
    have hstep :
        http_sent ⟨some ⟨resp, L, s⟩, cl, fr⟩ a = some ⟨some ⟨resp, L, s + a⟩, cl, fr⟩ := by
      have hlt : ¬ L ≤ s + a := by omega
      simp only [http_sent, hmod, if_neg hlt]
    have := ih (s + a) cl fr (by omega)
    simp only [http_sent_all, hstep, Option.some_bind, this, List.sum_cons, Nat.add_assoc]

/-- Notifications are processed one after the other. -/
theorem http_sent_all_append (xs ys : List Nat) :
    ∀ c : Conn, http_sent_all c (xs ++ ys)
      = (http_sent_all c xs).bind fun c1 => http_sent_all c1 ys := by
  induction xs with
  | nil => intro c; rfl
  | cons a rest ih =>
    intro c
    simp only [List.cons_append, http_sent_all]
    cases http_sent c a with
    | none => rfl
    | some c1 => exact ih c1

/-- The notification at which the acknowledged bytes reach the response
length closes the connection and releases the record. -/
theorem http_sent_all_reach (resp : List Char) (L : Nat) (hL : L < 2 ^ 32)
    (pre : List Nat) (a : Nat) (hpre : pre.sum < L) (hreach : L ≤ pre.sum + a)
    (ha : pre.sum + a < 2 ^ 32) :
    http_sent_all (Conn.pending resp L) (pre ++ [a]) = some ⟨none, 1, 1⟩ := by
  have hopen := http_sent_all_open resp L hL pre 0 0 0 (by omega)
  simp only [Nat.zero_add] at hopen
  have hmod : (pre.sum + a) % 2 ^ 32 = pre.sum + a := Nat.mod_eq_of_lt ha
  rw [http_sent_all_append]
  simp only [Conn.pending, hopen, Option.some_bind, http_sent_all, http_sent, hmod,
    if_pos hreach, Nat.zero_add]

/-- C4: a pending response of length `L > 0` (a `size_t`) with nothing sent,
and the sequence of the notifications that acknowledge its bytes, each
acknowledging at least one byte and all together at most the `L` bytes handed
to the transport.  After every prefix whose lengths sum to less than `L` the
connection has not been closed, the record has not been released and `sent` is
that sum, below `L`.  The first notification at which the sum reaches `L`
closes the connection and releases the record; it is the last notification of
the sequence, so that over the whole sequence the connection is closed once
and the record released once.  Over any such sequence the connection is
closed at most once, and once exactly when the sum reaches `L`. -/
theorem C4_http_sent_progress (resp : List Char) (L : Nat) (acks : List Nat)
    (hL0 : 0 < L) (hL : L < 2 ^ 32) (hpos : ∀ a ∈ acks, 0 < a) (hsum : acks.sum ≤ L) :
    (∀ k : Nat, (acks.take k).sum < L →
      http_sent_all (Conn.pending resp L) (acks.take k)
        = some ⟨some ⟨resp, L, (acks.take k).sum⟩, 0, 0⟩) ∧
    (∀ (pre : List Nat) (a : Nat) (post : List Nat), acks = pre ++ a :: post →
      pre.sum < L → L ≤ pre.sum + a →
      http_sent_all (Conn.pending resp L) pre = some ⟨some ⟨resp, L, pre.sum⟩, 0, 0⟩ ∧
      http_sent_all (Conn.pending resp L) (pre ++ [a]) = some ⟨none, 1, 1⟩ ∧
      post = [] ∧
      http_sent_all (Conn.pending resp L) acks = some ⟨none, 1, 1⟩) ∧
    (∃ c : Conn, http_sent_all (Conn.pending resp L) acks = some c ∧
      c.closes ≤ 1 ∧ c.frees = c.closes ∧ (c.closes = 1 ↔ acks.sum = L)) := by
  have hopen : ∀ l : List Nat, l.sum < L →
      http_sent_all (Conn.pending resp L) l = some ⟨some ⟨resp, L, l.sum⟩, 0, 0⟩ := by
    intro l hl
    have h := http_sent_all_open resp L hL l 0 0 0 (by omega)
    simp only [Nat.zero_add] at h
    exact h
  have hsplit : ∀ (pre : List Nat) (a : Nat) (post : List Nat), acks = pre ++ a :: post →
      pre.sum < L → L ≤ pre.sum + a →
      post = [] ∧ http_sent_all (Conn.pending resp L) (pre ++ [a]) = some ⟨none, 1, 1⟩ := by
    intro pre a post hs hpre hreach
    have htot : acks.sum = pre.sum + a + post.sum := by
      simp [hs, List.sum_append, Nat.add_assoc]
    have hpost : post = [] := by
      cases post with
      | nil => rfl
      | cons b rest =>
        have hb : 0 < b := hpos b (by simp [hs])
        simp only [List.sum_cons] at htot
        omega
    exact ⟨hpost, http_sent_all_reach resp L hL pre a hpre hreach (by omega)⟩
  refine ⟨fun k hk => hopen _ hk, ?_, ?_⟩
  · intro pre a post hs hpre hreach
    obtain ⟨hpost, hone⟩ := hsplit pre a post hs hpre hreach
    refine ⟨hopen pre hpre, hone, hpost, ?_⟩
    rw [hs, hpost]
    exact hone
  · rcases Nat.lt_or_ge acks.sum L with hlt | hge
    · exact ⟨_, hopen acks hlt, by simp, rfl, by simp; omega⟩
    · have heq : acks.sum = L := le_antisymm hsum hge
      rcases List.eq_nil_or_concat acks with hnil | ⟨pre, a, hcat⟩
      · rw [hnil] at heq
        simp at heq
        omega
      · have hcat2 : acks = pre ++ a :: [] := by rw [hcat]; simp
        have ha : 0 < a := hpos a (by simp [hcat])
        have htot : acks.sum = pre.sum + a := by simp [hcat, List.sum_append]
        obtain ⟨-, hone⟩ := hsplit pre a [] hcat2 (by omega) (by omega)
        refine ⟨⟨none, 1, 1⟩, ?_, le_refl _, rfl, by simp [heq]⟩
        rw [hcat2]
        exact hone

/-- C4 on a response of 10 bytes acknowledged as 4 then 6 bytes: nothing is
closed after the first notification, and the second one closes the connection
and releases the record, once. -/
theorem C4_http_sent_progress_witness :
    0 < 10 ∧ 10 < 2 ^ 32 ∧ (∀ a ∈ [4, 6], 0 < a) ∧ [4, 6].sum ≤ 10 ∧
    http_sent_all (Conn.pending [] 10) [4] = some ⟨some ⟨[], 10, 4⟩, 0, 0⟩ ∧
    http_sent_all (Conn.pending [] 10) [4, 6] = some ⟨none, 1, 1⟩ :=
  ⟨by decide, by decide, by decide, by decide,
   ((C4_http_sent_progress [] 10 [4, 6] (by decide) (by decide) (by decide) (by decide)).2.1
      [4] 6 [] rfl (by decide) (by decide)).1,
   ((C4_http_sent_progress [] 10 [4, 6] (by decide) (by decide) (by decide) (by decide)).2.1
      [4] 6 [] rfl (by decide) (by decide)).2.2.2⟩

/-! ## Decimal digits -/

/-- The code point of a digit character. -/
theorem digitChar_toNat (n : Nat) : (digitChar n).toNat = 48 + n % 10 := by
  have h : n % 10 < 10 := Nat.mod_lt _ (by decide)
  unfold digitChar
  generalize n % 10 = d at h
  interval_cases d <;> rfl

/-- A digit character is a digit. -/
theorem digitChar_isDigit (n : Nat) : (digitChar n).isDigit = true := by
  have h : n % 10 < 10 := Nat.mod_lt _ (by decide)
  unfold digitChar
  generalize n % 10 = d at h
  interval_cases d <;> rfl

/-- The characters of a numeral are digits. -/
theorem natDigits_isDigit :
    ∀ (fuel n : Nat) (c : Char), c ∈ natDigits fuel n → c.isDigit = true := by
  intro fuel
  induction fuel with
  | zero => intro n c h; simp [natDigits] at h
  | succ fuel ih =>
    intro n c h
    unfold natDigits at h
    split at h
    · simp only [List.mem_singleton] at h
      rw [h]; exact digitChar_isDigit n
    · rcases List.mem_append.mp h with h | h
      · exact ih _ _ h
      · simp only [List.mem_singleton] at h
        rw [h]; exact digitChar_isDigit n

/-- A numeral of a number below `10 ^ k` has at most `k` digits. -/
theorem natDigits_length_le : ∀ (fuel n k : Nat), n < 10 ^ k → 1 ≤ k →
    (natDigits fuel n).length ≤ k := by
  intro fuel
  induction fuel with
  | zero => intro n k _ _; simp [natDigits]
  | succ fuel ih =>
    intro n k hn hk
    unfold natDigits
    split
    · simpa using hk
    · rename_i h10
      have hk2 : 2 ≤ k := by
        rcases Nat.lt_or_ge k 2 with h | h
        · have : k = 1 := by omega
          subst this
          simp at hn
          omega
        · exact h
      have hdiv : n / 10 < 10 ^ (k - 1) := by
        have : 10 ^ k = 10 ^ (k - 1) * 10 := by
          rw [← pow_succ]; congr 1; omega
        rw [this] at hn
        exact Nat.div_lt_of_lt_mul (by rw [Nat.mul_comm]; exact hn)
      have := ih (n / 10) (k - 1) hdiv (by omega)
      simp only [List.length_append, List.length_singleton]
      omega

/-- With enough fuel a numeral is not empty. -/
theorem natDigits_ne_nil (fuel n : Nat) : natDigits (fuel + 1) n ≠ [] := by
  unfold natDigits
  split <;> simp

/-- Accumulating the digits of a numeral appends the number. -/
theorem foldl_natDigits : ∀ (fuel n acc : Nat), n < fuel →
    (natDigits fuel n).foldl digitStep acc = acc * 10 ^ (natDigits fuel n).length + n := by
  intro fuel
  induction fuel with
  | zero => intro n acc h; omega
  | succ fuel ih =>
    intro n acc h
    unfold natDigits
    split
    · rename_i h10
      simp [digitStep, digitChar_toNat, Nat.mod_eq_of_lt h10]
      ring
    · rename_i h10
      have hlt : n / 10 < fuel := by omega
      rw [List.foldl_append, ih (n / 10) acc hlt]
      simp only [List.foldl_cons, List.foldl_nil, digitStep, digitChar_toNat,
        List.length_append, List.length_singleton, pow_succ]
      have := Nat.div_add_mod n 10
      have e : 48 + n % 10 - 48 = n % 10 := by omega
      rw [e]
      nlinarith [this]

/-- The fractional digits are exactly `prec` digits. -/
theorem fracDigits_length : ∀ (prec n : Nat), (fracDigits prec n).length = prec := by
  intro prec
  induction prec with
  | zero => intro n; simp [fracDigits]
  | succ prec ih => intro n; simp [fracDigits, ih]

/-- The fractional digits are digits. -/
theorem fracDigits_isDigit :
    ∀ (prec n : Nat) (c : Char), c ∈ fracDigits prec n → c.isDigit = true := by
  intro prec
  induction prec with
  | zero => intro n c h; simp [fracDigits] at h
  | succ prec ih =>
    intro n c h
    unfold fracDigits at h
    rcases List.mem_append.mp h with h | h
    · exact ih _ _ h
    · simp only [List.mem_singleton] at h
      rw [h]; exact digitChar_isDigit n

/-- Accumulating the fractional digits appends the number modulo `10 ^ prec`. -/
theorem foldl_fracDigits : ∀ (prec n acc : Nat),
    (fracDigits prec n).foldl digitStep acc = acc * 10 ^ prec + n % 10 ^ prec := by
  intro prec
  induction prec with
  | zero => intro n acc; simp [fracDigits, Nat.mod_one]
  | succ prec ih =>
    intro n acc
    unfold fracDigits
    rw [List.foldl_append, ih (n / 10) acc]
    simp only [List.foldl_cons, List.foldl_nil, digitStep, digitChar_toNat]
    have e : 48 + n % 10 - 48 = n % 10 := by omega
    rw [e]
    have hmod : n % 10 ^ (prec + 1) = 10 * (n / 10 % 10 ^ prec) + n % 10 := by
      rw [pow_succ, Nat.mul_comm (10 ^ prec) 10, Nat.mod_mul]
      omega
    rw [hmod, pow_succ]
    ring

/-- Reading stops at a character that is not a digit. -/
theorem readDigits_stop (c : Char) (cs : List Char) (acc k : Nat) (h : c.isDigit = false) :
    readDigits 10 decVal (c :: cs) acc k = (acc, k, c :: cs) := by
  simp [readDigits, decVal, h]

/-! ## Rounding to a decimal position and the conversion `%.Nf` -/

/-- Rounding a quotient that is at most `M` gives at most `M`. -/
theorem roundHalfEvenDiv_le (a b M : Nat) (hb : 0 < b) (h : a ≤ M * b) :
    roundHalfEvenDiv a b ≤ M := by
  have hq : a / b ≤ M := Nat.div_le_of_le_mul (by rw [Nat.mul_comm]; exact h)
  have hdm := Nat.div_add_mod a b
  have hr : a % b < b := Nat.mod_lt _ hb
  have hup : 0 < a % b → a / b + 1 ≤ M := by
    intro hpos
    by_contra hcon
    have hMq : M ≤ a / b := by omega
    have : M * b ≤ a / b * b := Nat.mul_le_mul_right b hMq
    have h2 : b * (a / b) = a / b * b := Nat.mul_comm _ _
    omega
  unfold roundHalfEvenDiv
  simp only
  split
  · exact hq
  · split
    · exact hup (by omega)
    · split
      · exact hq
      · exact hup (by omega)

/-- The rounded quotient is within half a unit of the exact one. -/
theorem roundHalfEvenDiv_err (a b : Nat) (hb : 0 < b) :
    2 * (roundHalfEvenDiv a b * b) ≤ 2 * a + b ∧
    2 * a ≤ 2 * (roundHalfEvenDiv a b * b) + b := by
  have hdm := Nat.div_add_mod a b
  have hr : a % b < b := Nat.mod_lt _ hb
  have h2 : b * (a / b) = a / b * b := Nat.mul_comm _ _
  have h3 : (a / b + 1) * b = a / b * b + b := by ring
  unfold roundHalfEvenDiv
  simp only
  split
  · omega
  · split
    · rw [h3]; omega
    · split
      · omega
      · rw [h3]; omega

/-- `FLT_MAX` has 39 decimal digits. -/
theorem FLT_MAX_lt : FLT_MAX < 10 ^ 39 := by decide

/-- The numeral of a magnitude in `float` range has at most 39 digits before
the point. -/
theorem fmtFixedMag_length_le (prec n d : Nat) (hd : 0 < d) (h : n ≤ FLT_MAX * d) :
    (fmtFixedMag prec n d).length ≤ 39 + (if prec = 0 then 0 else 1 + prec) := by
  have hs : roundHalfEvenDiv (n * 10 ^ prec) d ≤ FLT_MAX * 10 ^ prec := by
    apply roundHalfEvenDiv_le _ _ _ hd
    calc n * 10 ^ prec ≤ FLT_MAX * d * 10 ^ prec := Nat.mul_le_mul_right _ h
      _ = FLT_MAX * 10 ^ prec * d := by ring
  have hip : roundHalfEvenDiv (n * 10 ^ prec) d / 10 ^ prec < 10 ^ 39 := by
    have : roundHalfEvenDiv (n * 10 ^ prec) d / 10 ^ prec ≤ FLT_MAX :=
      Nat.div_le_of_le_mul (by rw [Nat.mul_comm (10 ^ prec) FLT_MAX]; exact hs)
    exact lt_of_le_of_lt this FLT_MAX_lt
  have hlen := natDigits_length_le (roundHalfEvenDiv (n * 10 ^ prec) d / 10 ^ prec + 1)
    (roundHalfEvenDiv (n * 10 ^ prec) d / 10 ^ prec) 39 hip (by decide)
  unfold fmtFixedMag fmtNat
  simp only [List.length_append]
  split
  · simp only [List.length_nil]
    omega
  · simp only [List.length_cons, fracDigits_length]
    omega

/-- The text of `%.Nf` for a value in `float` range has at most
`40 + 1 + N` characters. -/
theorem fmtFixed_length_le (prec : Nat) (x : CFloat) (h : x.inFloatRange = true) :
    (fmtFixed prec x).length ≤ 40 + (if prec = 0 then 0 else 1 + prec) := by
  cases x with
  | nan =>
    have : "nan".toList.length = 3 := by decide
    simp only [fmtFixed, this]
    omega
  | inf neg =>
    have h1 : "inf".toList.length = 3 := by decide
    have h2 : "-inf".toList.length = 4 := by decide
    cases neg <;> simp only [fmtFixed, h1, h2] <;> omega
  | fin q =>
    simp only [CFloat.inFloatRange, decide_eq_true_eq] at h
    have := fmtFixedMag_length_le prec q.num.natAbs q.den q.den_pos h
    simp only [fmtFixed]
    split
    · simp only [List.length_cons]
      omega
    · omega

/-- A run of digits followed by a point: `takeWhile` returns the run. -/
theorem takeWhile_digits_append (ds rest : List Char) (hds : ∀ c ∈ ds, c.isDigit = true)
    (hrest : ∀ c cs, rest = c :: cs → c.isDigit = false) :
    (ds ++ rest).takeWhile Char.isDigit = ds ∧ (ds ++ rest).dropWhile Char.isDigit = rest := by
  induction ds with
  | nil =>
    cases rest with
    | nil => simp
    | cons c cs => simp [List.takeWhile, List.dropWhile, hrest c cs rfl]
  | cons d ds ih =>
    have hd : d.isDigit = true := hds d (by simp)
    have := ih (fun c hc => hds c (by simp [hc]))
    simp [List.takeWhile, List.dropWhile, hd, this.1, this.2]

/-- Keeping the digits of `digits . digits` drops the point only. -/
theorem filter_digits_point (ds fr : List Char) (hds : ∀ c ∈ ds, c.isDigit = true)
    (hfr : ∀ c ∈ fr, c.isDigit = true) :
    (ds ++ '.' :: fr).filter Char.isDigit = ds ++ fr := by
  have h1 : ds.filter Char.isDigit = ds := List.filter_eq_self.mpr hds
  have h2 : fr.filter Char.isDigit = fr := List.filter_eq_self.mpr hfr
  have h3 : ('.' : Char).isDigit = false := by decide
  simp [List.filter_append, List.filter_cons, h1, h2, h3]

/-- The integer that the digits of the text of a magnitude form is the rounded
scaled magnitude. -/
theorem fmtFixedMag_digits (prec n d : Nat) :
    ((fmtFixedMag prec n d).filter Char.isDigit).foldl digitStep 0
      = roundHalfEvenDiv (n * 10 ^ prec) d := by
  have hip := natDigits_isDigit (roundHalfEvenDiv (n * 10 ^ prec) d / 10 ^ prec + 1)
    (roundHalfEvenDiv (n * 10 ^ prec) d / 10 ^ prec)
  have hfold := foldl_natDigits (roundHalfEvenDiv (n * 10 ^ prec) d / 10 ^ prec + 1)
    (roundHalfEvenDiv (n * 10 ^ prec) d / 10 ^ prec) 0 (Nat.lt_succ_self _)
  unfold fmtFixedMag fmtNat
  simp only
  split
  · rename_i h0
    subst h0
    rw [List.append_nil, List.filter_eq_self.mpr hip, hfold]
    simp
  · rw [filter_digits_point _ _ hip (fracDigits_isDigit prec _), List.foldl_append, hfold,
      foldl_fracDigits]
    simp only [Nat.zero_mul, Nat.zero_add]
    exact Nat.div_add_mod' _ _

/-- A text that starts with a digit has no minus sign to strip. -/
theorem stripMinus_digit (c : Char) (cs : List Char) (hc : c.isDigit = true) :
    stripMinus (c :: cs) = c :: cs ∧ hasMinus (c :: cs) = false := by
  have hcm : c ≠ '-' := by
    intro h; rw [h] at hc; revert hc; decide
  constructor
  · unfold stripMinus
    split
    · rename_i heq
      injection heq with h1 _
      exact absurd h1 hcm
    · rfl
  · unfold hasMinus
    split
    · rename_i heq
      injection heq with h1 _
      exact absurd h1 hcm
    · rfl

/-- The text of a magnitude is a numeral with `prec` fractional digits that
starts with a digit, also after a minus sign has been put before it. -/
theorem fmtFixedMag_shape (prec n d : Nat) :
    isFixedNumeral prec (fmtFixedMag prec n d) = true ∧
    isFixedNumeral prec ('-' :: fmtFixedMag prec n d) = true ∧
    ∃ c cs, fmtFixedMag prec n d = c :: cs ∧ c.isDigit = true := by
  have hip := natDigits_isDigit (roundHalfEvenDiv (n * 10 ^ prec) d / 10 ^ prec + 1)
    (roundHalfEvenDiv (n * 10 ^ prec) d / 10 ^ prec)
  have hne := natDigits_ne_nil (roundHalfEvenDiv (n * 10 ^ prec) d / 10 ^ prec)
    (roundHalfEvenDiv (n * 10 ^ prec) d / 10 ^ prec)
  have hfr := fracDigits_isDigit prec (roundHalfEvenDiv (n * 10 ^ prec) d)
  have hfl := fracDigits_length prec (roundHalfEvenDiv (n * 10 ^ prec) d)
  generalize hf : fracDigits prec (roundHalfEvenDiv (n * 10 ^ prec) d) = fr at hfr hfl
  generalize hi : natDigits (roundHalfEvenDiv (n * 10 ^ prec) d / 10 ^ prec + 1)
    (roundHalfEvenDiv (n * 10 ^ prec) d / 10 ^ prec) = ip at hip hne
  have hmag : fmtFixedMag prec n d = ip ++ (if prec = 0 then [] else '.' :: fr) := by
    unfold fmtFixedMag fmtNat
    simp only [hf, hi]
  have hb : (ip ++ (if prec = 0 then [] else '.' :: fr)).takeWhile Char.isDigit = ip ∧
      (ip ++ (if prec = 0 then [] else '.' :: fr)).dropWhile Char.isDigit
        = (if prec = 0 then [] else '.' :: fr) := by
    apply takeWhile_digits_append ip _ hip
    intro c cs hc
    split at hc
    · cases hc
    · injection hc with h1 _
      rw [← h1]; decide
  have hne2 : ip.isEmpty = false := by
    cases ip with
    | nil => exact absurd rfl hne
    | cons a b => rfl
  have hok : fracPartOk prec (if prec = 0 then [] else '.' :: fr) = true := by
    by_cases h0 : prec = 0
    · simp [h0, fracPartOk]
    · simp only [h0, if_false, fracPartOk, Bool.and_eq_true, beq_iff_eq, bne_iff_ne, ne_eq,
        List.all_eq_true]
      exact ⟨⟨⟨trivial, not_false⟩, hfl⟩, hfr⟩
  cases hipc : ip with
  | nil => exact absurd hipc hne
  | cons c cs =>
    have hc : c.isDigit = true := hip c (by simp [hipc])
    have hsm := (stripMinus_digit c (cs ++ (if prec = 0 then [] else '.' :: fr)) hc).1
    rw [hipc] at hmag hb hne2
    simp only [List.cons_append] at hmag hb
    refine ⟨?_, ?_, c, cs ++ (if prec = 0 then [] else '.' :: fr), hmag, hc⟩
    · rw [hmag]
      unfold isFixedNumeral
      rw [hsm, hb.1, hb.2, hok]
      rfl
    · rw [hmag]
      unfold isFixedNumeral
      have : stripMinus ('-' :: c :: (cs ++ (if prec = 0 then [] else '.' :: fr)))
          = c :: (cs ++ (if prec = 0 then [] else '.' :: fr)) := rfl
      rw [this, hb.1, hb.2, hok]
      rfl

/-- A scaled integer within half a unit of `n * P / d` denotes a number within
`1 / (2 P)` of `n / d`. -/
theorem abs_scaled_sub_le (S n d : Nat) (P : ℚ) (hP : 0 < P) (hd : 0 < d)
    (h1 : 2 * (S : ℚ) * d ≤ 2 * (n * P) + d) (h2 : 2 * ((n : ℚ) * P) ≤ 2 * S * d + d) :
    |(S : ℚ) / P - (n : ℚ) / d| ≤ 1 / (2 * P) := by
  have hD : (0 : ℚ) < d := by exact_mod_cast hd
  have hPD : 0 < P * d := mul_pos hP hD
  have key : (S : ℚ) / P - (n : ℚ) / d = (S * d - n * P) / (P * d) := by
    field_simp
    ring
  have key2 : 1 / (2 * P) = ((d : ℚ) / 2) / (P * d) := by
    field_simp
    ring
  rw [key, key2, abs_div, abs_of_pos hPD]
  apply div_le_div_of_nonneg_right _ (le_of_lt hPD)
  rw [abs_le]
  constructor <;> linarith

/-- The number denoted by the text of a magnitude `n / d`, with or without a
minus sign before it, is within half a unit of the last digit. -/
theorem fixedNumeralValue_fmtFixedMag (prec n d : Nat) (hd : 0 < d) :
    |fixedNumeralValue prec (fmtFixedMag prec n d) - (n : ℚ) / d| ≤ 1 / (2 * 10 ^ prec) ∧
    |fixedNumeralValue prec ('-' :: fmtFixedMag prec n d) - -((n : ℚ) / d)|
      ≤ 1 / (2 * 10 ^ prec) := by
  have herr := roundHalfEvenDiv_err (n * 10 ^ prec) d hd
  have hP : (0 : ℚ) < 10 ^ prec := by positivity
  have h1 : 2 * ((roundHalfEvenDiv (n * 10 ^ prec) d : Nat) : ℚ) * d
      ≤ 2 * (n * 10 ^ prec) + d := by
    have h : ((2 * (roundHalfEvenDiv (n * 10 ^ prec) d * d) : Nat) : ℚ)
        ≤ ((2 * (n * 10 ^ prec) + d : Nat) : ℚ) := by exact_mod_cast herr.1
    push_cast at h
    linarith
  have h2 : 2 * ((n : ℚ) * 10 ^ prec)
      ≤ 2 * ((roundHalfEvenDiv (n * 10 ^ prec) d : Nat) : ℚ) * d + d := by
    have h : ((2 * (n * 10 ^ prec) : Nat) : ℚ)
        ≤ ((2 * (roundHalfEvenDiv (n * 10 ^ prec) d * d) + d : Nat) : ℚ) := by
      exact_mod_cast herr.2
    push_cast at h
    linarith
  have hmain := abs_scaled_sub_le _ _ _ _ hP hd h1 h2
  obtain ⟨c, cs, hcs, hc⟩ := (fmtFixedMag_shape prec n d).2.2
  have hdig := fmtFixedMag_digits prec n d
  constructor
  · have hv : fixedNumeralValue prec (fmtFixedMag prec n d)
        = ((roundHalfEvenDiv (n * 10 ^ prec) d : Nat) : ℚ) / 10 ^ prec := by
      unfold fixedNumeralValue
      rw [hcs, (stripMinus_digit c cs hc).1, (stripMinus_digit c cs hc).2, ← hcs, hdig]
      simp
    rw [hv]
    exact hmain
  · have hv : fixedNumeralValue prec ('-' :: fmtFixedMag prec n d)
        = -(((roundHalfEvenDiv (n * 10 ^ prec) d : Nat) : ℚ) / 10 ^ prec) := by
      unfold fixedNumeralValue
      have e1 : hasMinus ('-' :: fmtFixedMag prec n d) = true := rfl
      have e2 : stripMinus ('-' :: fmtFixedMag prec n d) = fmtFixedMag prec n d := rfl
      rw [e1, e2, hdig]
      simp only [if_true]
      ring
    rw [hv]
    have : -(((roundHalfEvenDiv (n * 10 ^ prec) d : Nat) : ℚ) / 10 ^ prec) - -((n : ℚ) / d)
        = -((((roundHalfEvenDiv (n * 10 ^ prec) d : Nat) : ℚ) / 10 ^ prec) - (n : ℚ) / d) := by
      ring
    rw [this, abs_neg]
    exact hmain

/-- A rational number from its sign and the magnitude of its numerator. -/
theorem rat_eq_natAbs_div (q : ℚ) :
    (q.num < 0 → q = -((q.num.natAbs : ℚ) / q.den)) ∧
    (¬ q.num < 0 → q = (q.num.natAbs : ℚ) / q.den) := by
  have hq : (q.num : ℚ) / q.den = q := Rat.num_div_den q
  constructor
  · intro hneg
    have h0 : q.num = -(q.num.natAbs : Int) := by omega
    have h : ((q.num : Int) : ℚ) = ((-(q.num.natAbs : Int) : Int) : ℚ) := by rw [← h0]
    simp only [Int.cast_neg, Int.cast_natCast] at h
    rw [← neg_div, ← h, hq]
  · intro hneg
    have h0 : q.num = (q.num.natAbs : Int) := by omega
    have h : ((q.num : Int) : ℚ) = (((q.num.natAbs : Int) : Int) : ℚ) := by rw [← h0]
    simp only [Int.cast_natCast] at h
    rw [← h, hq]

/-- The text of `%.Nf` for a number is that number rendered with exactly `N`
fractional digits, rounded. -/
theorem fmtFixed_rendered (prec : Nat) (q : ℚ) :
    Rendered prec (.fin q) (fmtFixed prec (.fin q)) := by
  have hv := fixedNumeralValue_fmtFixedMag prec q.num.natAbs q.den q.den_pos
  have hsh := fmtFixedMag_shape prec q.num.natAbs q.den
  have hq := rat_eq_natAbs_div q
  refine ⟨q, rfl, ?_, ?_⟩
  · simp only [fmtFixed]
    split
    · exact hsh.2.1
    · exact hsh.1
  · simp only [fmtFixed]
    split
    · rename_i hneg
      have h := hv.2
      rw [← hq.1 hneg] at h
      exact h
    · rename_i hneg
      have h := hv.1
      rw [← hq.2 hneg] at h
      exact h

/-! ## The `/data` route (C2) -/

/-- The JSON format, expanded. -/
theorem vformat_JSON_FORMAT (T H P A : CFloat) (alerta : Bool) :
    vformat JSON_FORMAT
      [.dbl T, .dbl H, .dbl P, .dbl A, .str (if alerta then "true".toList else "false".toList)]
      = dataBody (fmtFixed 2 T) (fmtFixed 2 H) (fmtFixed 2 P) (fmtFixed 2 A) alerta := by
  rfl

/-- Conversion `%d` of a length. -/
theorem fmtInt_natCast (n : Nat) : fmtInt (n : Int) = fmtNat n := by
  unfold fmtInt
  have : ¬ ((n : Int) < 0) := by omega
  simp [this]

/-- The format of the `/data` response, expanded. -/
theorem vformat_RESPONSE_JSON_FORMAT (body : List Char) :
    vformat RESPONSE_JSON_FORMAT [.int (body.length : Int), .str body] = dataResponse body := by
  have h : vformat RESPONSE_JSON_FORMAT [.int (body.length : Int), .str body]
      = "HTTP/1.1 200 OK\r\nContent-Type: application/json\r\nContent-Length: ".toList ++
        (fmtInt (body.length : Int) ++ ("\r\n\r\n".toList ++ (body ++ []))) := rfl
  rw [h, fmtInt_natCast, List.append_nil]
  rfl

/-- The length of the JSON body. -/
theorem dataBody_length (T H P A : List Char) (alerta : Bool) :
    (dataBody T H P A alerta).length
      = 46 + T.length + H.length + P.length + A.length + (if alerta then 4 else 5) := by
  have h1 : "\x7b\"temp\":".toList.length = 8 := by decide
  have h2 : ", \"hum\":".toList.length = 8 := by decide
  have h3 : ", \"press\":".toList.length = 10 := by decide
  have h4 : ", \"alt\":".toList.length = 8 := by decide
  have h5 : ", \"alerta\":".toList.length = 11 := by decide
  have h6 : "\x7d".toList.length = 1 := by decide
  have h7 : "true".toList.length = 4 := by decide
  have h8 : "false".toList.length = 5 := by decide
  unfold dataBody
  simp only [List.length_append, h1, h2, h3, h4, h5, h6]
  cases alerta
  · simp only [h8, Bool.false_eq_true, if_false]
    omega
  · simp only [h7, if_true]
    omega

/-- The length of the `/data` response. -/
theorem dataResponse_length (body : List Char) :
    (dataResponse body).length = 65 + (fmtNat body.length).length + 4 + body.length := by
  have h1 : "HTTP/1.1 200 OK\r\nContent-Type: application/json\r\nContent-Length: ".toList.length
      = 65 := by decide
  have h2 : "\r\n\r\n".toList.length = 4 := by decide
  unfold dataResponse
  simp only [List.length_append, h1, h2]
  omega

/-- A list shorter than the buffer is not truncated. -/
theorem take_pred_eq_self (l : List Char) (size : Nat) (h : l.length < size) :
    l.take (size - 1) = l :=
  List.take_of_length_le (by omega)

/-- On a `GET /data` request with a reading of numbers in `float` range,
`http_recv` sends the specified response for the texts `%.2f` of the four
fields. -/
theorem http_recv_data (r : Reading) (alerta : Bool) (t : Thresholds) (req : List Char)
    (hreq : req.take 9 = "GET /data".toList) (hrange : r.inFloatRange = true) :
    http_recv_payload r alerta t req
      = (t, { response := dataResponse (dataBody (fmtFixed 2 r.temperatura_bmp)
                (fmtFixed 2 r.umidade_aht) (fmtFixed 2 r.pressao_bmp)
                (fmtFixed 2 r.altitude_bmp) alerta),
              len := (dataResponse (dataBody (fmtFixed 2 r.temperatura_bmp)
                (fmtFixed 2 r.umidade_aht) (fmtFixed 2 r.pressao_bmp)
                (fmtFixed 2 r.altitude_bmp) alerta)).length,
              sent := 0 }) := by
  simp only [Reading.inFloatRange, Bool.and_eq_true] at hrange
  obtain ⟨⟨⟨hT, hH⟩, hP⟩, hA⟩ := hrange
  have lT := fmtFixed_length_le 2 _ hT
  have lH := fmtFixed_length_le 2 _ hH
  have lP := fmtFixed_length_le 2 _ hP
  have lA := fmtFixed_length_le 2 _ hA
  simp only [show (2 : Nat) = 0 ↔ False from by decide, if_false] at lT lH lP lA
  have hcmp : strncmp_eq req "GET /data".toList 9 = true := by
    unfold strncmp_eq
    rw [hreq]
    decide
  generalize hbody : dataBody (fmtFixed 2 r.temperatura_bmp) (fmtFixed 2 r.umidade_aht)
    (fmtFixed 2 r.pressao_bmp) (fmtFixed 2 r.altitude_bmp) alerta = body
  have hbl : body.length ≤ 223 := by
    rw [← hbody, dataBody_length]
    split <;> omega
  have hdig : (fmtNat body.length).length ≤ 3 :=
    natDigits_length_le _ _ 3 (by norm_num; omega) (by decide)
  have hjson : snprintf 256 JSON_FORMAT
      [.dbl r.temperatura_bmp, .dbl r.umidade_aht, .dbl r.pressao_bmp, .dbl r.altitude_bmp,
       .str (if alerta then "true".toList else "false".toList)] = (body, body.length) := by
    unfold snprintf
    rw [vformat_JSON_FORMAT, hbody, take_pred_eq_self _ _ (by omega)]
  have hresp : snprintf 4096 RESPONSE_JSON_FORMAT [.int (body.length : Int), .str body]
      = (dataResponse body, (dataResponse body).length) := by
    unfold snprintf
    rw [vformat_RESPONSE_JSON_FORMAT, take_pred_eq_self _ _ (by rw [dataResponse_length]; omega)]
  unfold http_recv_payload
  simp only [hcmp, if_true, hjson, hresp, mkState]

set_option maxRecDepth 100000 in
/-- C2, as stated, fails: when a field of the reading is not a number (here
the altitude), `%.2f` writes `nan`, which is not that field rendered with two
fractional digits, and the body is not a JSON document. -/
theorem C2_counterexample :
    (http_recv readingNaN false Thresholds.init (some "GET /data HTTP/1.1\r\n\r\n".toList)).2.map
        (fun hs => hs.response)
      = some ("HTTP/1.1 200 OK\r\nContent-Type: application/json\r\nContent-Length: 69\r\n\r\n"
          ++ "\x7b\"temp\":23.46, \"hum\":55.12, \"press\":-1.00, \"alt\":nan, "
          ++ "\"alerta\":false\x7d").toList ∧
    ∀ resp : List Char, ¬ DataResponseSpec readingNaN false resp := by
  constructor
  · decide
  · rintro resp ⟨T, H, P, A, _, _, _, ⟨q, hq, _⟩, _⟩
    simp [readingNaN] at hq

/-- C2, amended: for every request whose first 9 characters are `GET /data`,
every reading whose four fields are numbers (in the range of `float`) and
every alert flag, `http_recv` leaves the limits alone and hands over the
response `HTTP/1.1 200 OK`, `Content-Type: application/json`,
`Content-Length: N`, blank line, body, where the body is
`{"temp":T, "hum":H, "press":P, "alt":A, "alerta":B}` with `T`, `H`, `P`, `A`
the four fields rendered with exactly two fractional digits (rounded), `B` the
literal `true` or `false` of the flag, and `N` the decimal length of the body;
`len` is the length of that response and `sent` is 0. -/
theorem C2_data_response (r : Reading) (alerta : Bool) (t : Thresholds) (req : List Char)
    (hreq : req.take 9 = "GET /data".toList)
    (hfin : r.isFinite = true) (hrange : r.inFloatRange = true) :
    ∃ hs : http_state, http_recv r alerta t (some req) = (t, some hs) ∧
      DataResponseSpec r alerta hs.response ∧
      hs.len = hs.response.length ∧ hs.sent = 0 := by
  have h := http_recv_data r alerta t req hreq hrange
  refine ⟨(http_recv_payload r alerta t req).2, by simp only [http_recv, h], ?_, ?_, ?_⟩
  rotate_left
  · rw [h]
  · rw [h]
  rw [h]
  simp only [Reading.isFinite, Bool.and_eq_true] at hfin
  obtain ⟨⟨⟨hT, hH⟩, hP⟩, hA⟩ := hfin
  have hren : ∀ x : CFloat, x.isFinite = true → Rendered 2 x (fmtFixed 2 x) := by
    intro x hx
    cases x with
    | fin q => exact fmtFixed_rendered 2 q
    | nan => simp [CFloat.isFinite] at hx
    | inf neg => simp [CFloat.isFinite] at hx
  exact ⟨_, _, _, _, hren _ hT, hren _ hH, hren _ hP, hren _ hA, rfl⟩

set_option maxRecDepth 100000 in
/-- C2 (amended) on the example of the specification: the reading 23.456,
55.12, 1013.2, 10.4 without alert gives the body
`{"temp":23.46, "hum":55.12, "press":1013.20, "alt":10.40, "alerta":false}`
and `Content-Length: 73`. -/
theorem C2_data_response_witness :
    ("GET /data HTTP/1.1\r\n\r\n".toList).take 9 = "GET /data".toList ∧
    readingExample.isFinite = true ∧ readingExample.inFloatRange = true ∧
    (∃ hs : http_state,
      http_recv readingExample false Thresholds.init (some "GET /data HTTP/1.1\r\n\r\n".toList)
        = (Thresholds.init, some hs) ∧
      DataResponseSpec readingExample false hs.response ∧
      hs.len = hs.response.length ∧ hs.sent = 0) ∧
    (http_recv readingExample false Thresholds.init
        (some "GET /data HTTP/1.1\r\n\r\n".toList)).2.map (fun hs => hs.response)
      = some ("HTTP/1.1 200 OK\r\nContent-Type: application/json\r\nContent-Length: 73\r\n\r\n"
          ++ "\x7b\"temp\":23.46, \"hum\":55.12, \"press\":1013.20, \"alt\":10.40, "
          ++ "\"alerta\":false\x7d").toList :=
  ⟨by decide, by decide, by decide,
   C2_data_response readingExample false Thresholds.init "GET /data HTTP/1.1\r\n\r\n".toList
     (by decide) (by decide) (by decide),
   by decide⟩

/-! ## `strstr` and `atof` -/

/-- `readDigits` reads exactly the leading digits. -/
theorem readDigits_eq : ∀ (s : List Char) (acc k : Nat),
    readDigits 10 decVal s acc k
      = ((s.takeWhile Char.isDigit).foldl digitStep acc,
         k + (s.takeWhile Char.isDigit).length, s.dropWhile Char.isDigit) := by
  intro s
  induction s with
  | nil => intro acc k; simp [readDigits]
  | cons c cs ih =>
    intro acc k
    by_cases hc : c.isDigit = true
    · have h1 : readDigits 10 decVal (c :: cs) acc k
          = readDigits 10 decVal cs (digitStep acc c) (k + 1) := by
        simp [readDigits, decVal, hc, digitStep]
      rw [h1, ih]
      simp only [List.takeWhile_cons, hc, if_true, List.dropWhile_cons, List.foldl_cons,
        List.length_cons]
      congr 2
      omega
    · have hc2 : c.isDigit = false := by simpa using hc
      rw [readDigits_stop c cs acc k hc2]
      simp [List.takeWhile_cons, List.dropWhile_cons, hc2]

/-- A needle that does not occur is not found. -/
theorem strstr_eq_none (needle : List Char) :
    ∀ hay : List Char, ¬ needle <:+: hay → strstr hay needle = none := by
  intro hay
  induction hay with
  | nil =>
    intro h
    have hne : needle ≠ [] := by
      intro he; apply h; rw [he]
    cases needle with
    | nil => exact absurd rfl hne
    | cons a b => simp [strstr]
  | cons c cs ih =>
    intro h
    have hp : needle.isPrefixOf (c :: cs) = false := by
      by_contra hcon
      have hcon2 : needle.isPrefixOf (c :: cs) = true := by simpa using hcon
      exact h (List.isPrefixOf_iff_prefix.mp hcon2).isInfix
    have hrec : ¬ needle <:+: cs := fun hi => h (hi.trans (List.suffix_cons c cs).isInfix)
    simp only [strstr, hp, Bool.false_eq_true, if_false]
    exact ih hrec

/-- `strstr` returns the first occurrence: when the needle does not occur
before the end of `pre ++ needle`, the search in `pre ++ needle ++ after`
returns `needle ++ after`. -/
theorem strstr_first (needle after : List Char) :
    ∀ pre : List Char, ¬ needle <:+: pre ++ needle.dropLast →
      strstr (pre ++ (needle ++ after)) needle = some (needle ++ after) := by
  intro pre
  induction pre with
  | nil =>
    intro h
    have hne : needle ≠ [] := by
      intro he; apply h; rw [he]; exact List.nil_infix
    cases hn : needle with
    | nil => exact absurd hn hne
    | cons a b =>
      have hp : (a :: b).isPrefixOf (a :: b ++ after) = true :=
        List.isPrefixOf_iff_prefix.mpr (List.prefix_append _ _)
      simp only [List.nil_append, List.cons_append] at hp ⊢
      simp only [strstr, hp, if_true]
  | cons p ps ih =>
    intro h
    have hne : needle ≠ [] := by
      intro he; apply h; rw [he]; exact List.nil_infix
    have hlen : needle.length ≤ (p :: ps ++ needle.dropLast).length := by
      simp only [List.cons_append, List.length_cons, List.length_append, List.length_dropLast]
      omega
    have hsplit : p :: ps ++ (needle ++ after)
        = (p :: ps ++ needle.dropLast) ++ (needle.getLast hne :: after) := by
      have := List.dropLast_append_getLast hne
      conv_lhs => rw [← this]
      simp
    have hp : needle.isPrefixOf (p :: (ps ++ (needle ++ after))) = false := by
      by_contra hcon
      have hcon2 : needle.isPrefixOf (p :: (ps ++ (needle ++ after))) = true := by
        simpa using hcon
      have h1 : needle <+: p :: ps ++ (needle ++ after) := List.isPrefixOf_iff_prefix.mp hcon2
      have h2 : (p :: ps ++ needle.dropLast) <+: p :: ps ++ (needle ++ after) := by
        rw [hsplit]; exact List.prefix_append _ _
      exact h (List.prefix_of_prefix_length_le h1 h2 hlen).isInfix
    have hrec : ¬ needle <:+: ps ++ needle.dropLast :=
      fun hi => h (hi.trans (List.suffix_cons p _).isInfix)
    simp only [List.cons_append, strstr, hp, Bool.false_eq_true, if_false, List.append_eq]
    exact ih hrec

/-- A key that does not occur leaves the value alone. -/
theorem parse_and_update_value_absent (req key : List Char) (v : CFloat)
    (h : ¬ key <:+: req) : parse_and_update_value req key v = v := by
  simp [parse_and_update_value, strstr_eq_none key req h]

/-- A key that occurs replaces the value by the number read after its first
occurrence. -/
theorem parse_and_update_value_first (pre key after : List Char) (v : CFloat)
    (h : ¬ key <:+: pre ++ key.dropLast) :
    parse_and_update_value (pre ++ (key ++ after)) key v = toFloat (atof after) := by
  simp [parse_and_update_value, strstr_first key after pre h]

/-- No exponent is read from a text that ends the number. -/
theorem readExponent_ends (r : List Char) (h : endsNumeral r = true) :
    readExponent 'e' 'E' r = 0 := by
  cases r with
  | nil => rfl
  | cons c t =>
    simp only [endsNumeral, Bool.not_eq_true', Bool.or_eq_false_iff, beq_eq_false_iff_ne,
      ne_eq] at h
    have hc : ¬ (c = 'e' ∨ c = 'E') := by
      rintro (h1 | h1)
      · exact h.1.1.1 h1
      · exact h.1.1.2 h1
    simp only [readExponent, hc, if_false]

/-- Scaling by a non-positive power of ten divides. -/
theorem scaleRound_neg_exp (neg : Bool) (m kf : Nat) :
    scaleRound neg m 10 (0 - (kf : Int)) = roundF64 neg m (10 ^ kf) := by
  unfold scaleRound
  by_cases h0 : kf = 0
  · subst h0
    simp
  · have hlt : ¬ (0 - (kf : Int) ≥ 0) := by omega
    have htn : (-(0 - (kf : Int))).toNat = kf := by omega
    simp only [hlt, if_false, htn]

/-- The decimal conversion of a text whose leading number ends before the
rest: the digits as one integer over the power of ten of the fractional
digits. -/
theorem strtodDecimal_eq (neg : Bool) (b : List Char)
    (hne : (b.takeWhile Char.isDigit ++ fracPart (b.dropWhile Char.isDigit)).isEmpty = false)
    (hend : endsNumeral (afterFracPart (b.dropWhile Char.isDigit)) = true) :
    strtodDecimal neg b
      = roundF64 neg
          ((b.takeWhile Char.isDigit ++ fracPart (b.dropWhile Char.isDigit)).foldl digitStep 0)
          (10 ^ (fracPart (b.dropWhile Char.isDigit)).length) := by
  generalize hip : b.takeWhile Char.isDigit = ip at hne ⊢
  generalize hr1 : b.dropWhile Char.isDigit = r1 at hne hend ⊢
  have hrd : readDigits 10 decVal b 0 0 = (ip.foldl digitStep 0, ip.length, r1) := by
    rw [readDigits_eq, hip, hr1, Nat.zero_add]
  have hplain : ∀ r : List Char, fracPart r = [] → afterFracPart r = r →
      (∀ t, r ≠ '.' :: t) → r = r1 →
      strtodDecimal neg b = roundF64 neg ((ip ++ fracPart r1).foldl digitStep 0)
        (10 ^ (fracPart r1).length) := by
    intro r hf ha hnd hr
    subst hr
    rw [hf] at hne ⊢
    rw [ha] at hend
    have hk : ip.length ≠ 0 := by
      intro h0
      have : ip = [] := List.length_eq_zero.mp h0
      rw [this] at hne
      simp at hne
    have hm : readMantissa 10 decVal b = (ip.foldl digitStep 0, ip.length, 0, r) := by
      unfold readMantissa
      rw [hrd]
      split
      · rename_i heq
        simp only [Prod.mk.injEq] at heq
        exact absurd heq.2.2 (hnd _)
      · rename_i heq
        simp only [Prod.mk.injEq] at heq
        obtain ⟨h1, h2, h3⟩ := heq
        rw [← h1, ← h2, ← h3]
    unfold strtodDecimal
    rw [hm]
    simp only [hk, if_false, readExponent_ends r hend, List.append_nil, List.length_nil]
    have := scaleRound_neg_exp neg (ip.foldl digitStep 0) 0
    simpa using this
  cases r1 with
  | nil => exact hplain [] rfl rfl (fun t h => by cases h) rfl
  | cons c t =>
    by_cases hc : c = '.'
    · subst hc
      simp only [fracPart, afterFracPart] at hne hend ⊢
      have hm : readMantissa 10 decVal b
          = ((ip ++ t.takeWhile Char.isDigit).foldl digitStep 0,
             ip.length + (t.takeWhile Char.isDigit).length,
             (t.takeWhile Char.isDigit).length, t.dropWhile Char.isDigit) := by
        unfold readMantissa
        rw [hrd]
        simp only [readDigits_eq, Nat.zero_add, List.foldl_append]
      have hk : ip.length + (t.takeWhile Char.isDigit).length ≠ 0 := by
        intro h0
        have h1 : ip = [] := List.length_eq_zero.mp (by omega)
        have h2 : t.takeWhile Char.isDigit = [] := List.length_eq_zero.mp (by omega)
        rw [h1, h2] at hne
        simp at hne
      unfold strtodDecimal
      rw [hm]
      simp only [hk, if_false, readExponent_ends _ hend]
      exact scaleRound_neg_exp neg _ _
    · have hf : fracPart (c :: t) = [] := by
        unfold fracPart
        split
        · rename_i heq
          injection heq with h1 _
          exact absurd h1 hc
        · rfl
      have ha : afterFracPart (c :: t) = c :: t := by
        unfold afterFracPart
        split
        · rename_i heq
          injection heq with h1 _
          exact absurd h1 hc
        · rfl
      exact hplain (c :: t) hf ha (fun t2 h => by injection h with h1 _; exact hc h1) rfl

/-- A text that starts with a digit or a point is neither `inf` nor `nan`. -/
theorem startsWithLetters_digit (lo up : Char × Char × Char) (c : Char) (cs : List Char)
    (hlo : lo.1.isDigit = false ∧ lo.1 ≠ '.') (hup : up.1.isDigit = false ∧ up.1 ≠ '.')
    (hc : c.isDigit = true ∨ c = '.') :
    startsWithLetters lo up (c :: cs) = false := by
  have h1 : c ≠ lo.1 := by
    intro h
    rcases hc with hc | hc
    · rw [h, hlo.1] at hc; cases hc
    · exact hlo.2 (h ▸ hc)
  have h2 : c ≠ up.1 := by
    intro h
    rcases hc with hc | hc
    · rw [h, hup.1] at hc; cases hc
    · exact hup.2 (h ▸ hc)
  unfold startsWithLetters
  split
  · rename_i heq
    injection heq with e1 _
    subst e1
    simp [h1, h2]
  · rfl

/-- On a text that starts with a digit or a point and whose number ends
before the rest, the conversion is the decimal one. -/
theorem strtodUnsigned_decimal (neg : Bool) (c : Char) (cs : List Char)
    (hc : c.isDigit = true ∨ c = '.')
    (hend : endsNumeral (afterFracPart ((c :: cs).dropWhile Char.isDigit)) = true) :
    strtodUnsigned neg (c :: cs) = strtodDecimal neg (c :: cs) := by
  have hinf := startsWithLetters_digit ('i', 'n', 'f') ('I', 'N', 'F') c cs
    (by decide) (by decide) hc
  have hnan := startsWithLetters_digit ('n', 'a', 'n') ('N', 'A', 'N') c cs
    (by decide) (by decide) hc
  unfold strtodUnsigned
  simp only [hinf, hnan, Bool.false_eq_true, if_false]
  split
  · rename_i x t heq
    injection heq with e1 e2
    subst e1 e2
    split
    · rename_i hx
      exfalso
      have hxd : x.isDigit = false := by
        rcases hx with h | h <;> rw [h] <;> decide
      have hxp : x ≠ '.' := by
        rcases hx with h | h <;> rw [h] <;> decide
      have h0 : ('0' : Char).isDigit = true := by decide
      have hdw : ('0' :: x :: t).dropWhile Char.isDigit = x :: t := by
        simp [List.dropWhile_cons, h0, hxd]
      have ha : afterFracPart (x :: t) = x :: t := by
        unfold afterFracPart
        split
        · rename_i heq
          injection heq with h1 _
          exact absurd h1 hxp
        · rfl
      rw [hdw, ha] at hend
      rcases hx with h | h <;> rw [h] at hend <;> simp [endsNumeral] at hend
    · rfl
  · rfl

/-- `atof` on a text that starts with a decimal number which ends before the
rest: the number, correctly rounded to `double`. -/
theorem atof_decimal (s rest : List Char) (neg : Bool) (m kf : Nat)
    (h : decimalPrefix s = some (neg, m, kf, rest)) (hend : endsNumeral rest = true) :
    atof s = roundF64 neg m (10 ^ kf) := by
  unfold decimalPrefix at h
  simp only at h
  split at h
  · cases h
  · rename_i hne
    have hne2 : ((stripMinus s).takeWhile Char.isDigit
        ++ fracPart ((stripMinus s).dropWhile Char.isDigit)).isEmpty = false := by
      simpa using hne
    simp only [Option.some.injEq, Prod.mk.injEq] at h
    obtain ⟨hneg, hm, hkf, hrest⟩ := h
    rw [← hrest] at hend
    have hdec := strtodDecimal_eq neg (stripMinus s) hne2 hend
    rw [hm, hkf] at hdec
    -- the text after the sign starts with a digit or a point
    have hhead : ∃ c cs, stripMinus s = c :: cs ∧ (c.isDigit = true ∨ c = '.') := by
      cases hb : stripMinus s with
      | nil =>
        rw [hb] at hne2
        simp [fracPart] at hne2
      | cons c cs =>
        refine ⟨c, cs, rfl, ?_⟩
        by_cases hcd : c.isDigit = true
        · exact Or.inl hcd
        · right
          by_contra hcp
          rw [hb] at hne2
          have hcd2 : c.isDigit = false := by simpa using hcd
          have hf : fracPart (c :: cs) = [] := by
            unfold fracPart
            split
            · rename_i heq
              injection heq with h1 _
              exact absurd h1 hcp
            · rfl
          simp [List.takeWhile_cons, List.dropWhile_cons, hcd2, hf] at hne2
    obtain ⟨c, cs, hb, hc⟩ := hhead
    rw [hb] at hend hdec
    have hu := strtodUnsigned_decimal neg c cs hc hend
    have hnsp : isspace c = false := by
      rcases hc with hc | hc
      · by_contra hcon
        have hcon2 : isspace c = true := by simpa using hcon
        simp only [isspace, Bool.or_eq_true, decide_eq_true_eq] at hcon2
        rcases hcon2 with ((((h1 | h1) | h1) | h1) | h1) | h1 <;>
          (rw [h1] at hc; revert hc; decide)
      · rw [hc]; decide
    cases s with
    | nil => simp [stripMinus] at hb
    | cons a as =>
      by_cases ha : a = '-'
      · subst ha
        have hsm : stripMinus ('-' :: as) = as := rfl
        have hhm : hasMinus ('-' :: as) = true := rfl
        rw [hsm] at hb
        rw [hhm] at hneg
        subst hb
        have : atof ('-' :: c :: cs) = strtodUnsigned true (c :: cs) := by
          unfold atof
          have : ('-' :: c :: cs).dropWhile isspace = '-' :: c :: cs := by
            have : isspace '-' = false := by decide
            simp [List.dropWhile_cons, this]
          rw [this]
          rfl
        subst hneg
        rw [this, hu, hdec]
      · have hsm : stripMinus (a :: as) = a :: as := by
          unfold stripMinus
          split
          · rename_i heq
            injection heq with h1 _
            exact absurd h1 ha
          · rfl
        have hhm : hasMinus (a :: as) = false := by
          unfold hasMinus
          split
          · rename_i heq
            injection heq with h1 _
            exact absurd h1 ha
          · rfl
        rw [hsm] at hb
        injection hb with e1 e2
        subst e1 e2
        rw [hhm] at hneg
        have hplus : a ≠ '+' := by
          intro hp
          rcases hc with hc | hc
          · rw [hp] at hc; revert hc; decide
          · rw [hp] at hc; revert hc; decide
        have : atof (a :: as) = strtodUnsigned false (a :: as) := by
          unfold atof
          have : (a :: as).dropWhile isspace = a :: as := by
            simp [List.dropWhile_cons, hnsp]
          rw [this]
          split
          · rename_i heq
            injection heq with h1 _
            exact absurd h1 ha
          · rename_i heq
            injection heq with h1 _
            exact absurd h1 hplus
          · rfl
        subst hneg
        rw [this, hu, hdec]

/-! ## Form submission (C3) -/

/-- A request that contains a question mark is found to contain one. -/
theorem strstr_question (req : List Char) (h : '?' ∈ req) :
    (strstr req "?".toList).isSome = true := by
  induction req with
  | nil => cases h
  | cons c cs ih =>
    by_cases hc : c = '?'
    · subst hc
      have hp : "?".toList.isPrefixOf ('?' :: cs) = true := by
        show ['?'].isPrefixOf ('?' :: cs) = true
        simp [List.isPrefixOf]
      simp only [strstr, hp, if_true, Option.isSome_some]
    · have hmem : '?' ∈ cs := by
        rcases List.mem_cons.mp h with h1 | h1
        · exact absurd h1.symm hc
        · exact h1
      have hp : "?".toList.isPrefixOf (c :: cs) = false := by
        show ['?'].isPrefixOf (c :: cs) = false
        simp [List.isPrefixOf, Ne.symm hc]
      simp only [strstr, hp, Bool.false_eq_true, if_false]
      exact ih hmem

/-- A request without a question mark is found to contain none. -/
theorem strstr_no_question (req : List Char) (h : '?' ∉ req) :
    (strstr req "?".toList).isSome = false := by
  have : ¬ "?".toList <:+: req := by
    rintro ⟨a, b, hab⟩
    apply h
    rw [← hab]
    simp
  rw [strstr_eq_none _ _ this]
  rfl

/-- The two routing tests on a request that starts with `GET /settings`. -/
theorem strncmp_settings (req : List Char) (hreq : req.take 13 = "GET /settings".toList) :
    strncmp_eq req "GET /data".toList 9 = false ∧
    strncmp_eq req "GET /settings".toList 13 = true := by
  have h9 : req.take 9 = "GET /sett".toList := by
    have : req.take 9 = (req.take 13).take 9 := by
      rw [List.take_take]
      rfl
    rw [this, hreq]
    decide
  constructor
  · unfold strncmp_eq
    rw [h9]
    decide
  · unfold strncmp_eq
    rw [hreq]
    decide

/-- On a `GET /settings` request that contains a question mark, `http_recv`
runs the six updates and answers with the redirection. -/
theorem http_recv_settings_query (r : Reading) (alerta : Bool) (t : Thresholds)
    (req : List Char) (hreq : req.take 13 = "GET /settings".toList) (hq : '?' ∈ req) :
    http_recv_payload r alerta t req
      = (update_limits req t, { response := RESPONSE_REDIRECT, len := 35, sent := 0 }) := by
  have hs := strncmp_settings req hreq
  have hr : snprintf 4096 RESPONSE_REDIRECT [] = (RESPONSE_REDIRECT, 35) := by decide
  unfold http_recv_payload
  simp only [hs.1, hs.2, strstr_question req hq, Bool.false_eq_true, if_false, if_true, hr,
    mkState]

/-- What one call of `parse_and_update_value` does. -/
theorem keyUpdated_parse (req key : List Char) (old : CFloat) :
    KeyUpdated req key old (parse_and_update_value req key old) := by
  constructor
  · intro h
    exact parse_and_update_value_absent req key old h
  · intro pre after rest neg m kf hsplit hfirst hnum hend
    rw [hsplit, parse_and_update_value_first pre key after old hfirst,
      atof_decimal after rest neg m kf hnum hend]

/-- C3, as stated, fails: a key that is present with no number after it (a
form field left empty) does not leave a "decimal number that follows": in
`GET /settings?temp_min=&temp_max=35` the text after the first `temp_min=` is
`&temp_max=35 ...`, which starts with no number, and the limit becomes 0. -/
theorem C3_counterexample :
    ("GET /settings?temp_min=&temp_max=35 HTTP/1.1\r\n\r\n".toList
        = "GET /settings?".toList ++ ("temp_min=".toList
            ++ "&temp_max=35 HTTP/1.1\r\n\r\n".toList)) ∧
    (¬ "temp_min=".toList <:+: "GET /settings?".toList ++ "temp_min=".toList.dropLast) ∧
    decimalPrefix "&temp_max=35 HTTP/1.1\r\n\r\n".toList = none ∧
    Thresholds.init.temp_lim_min = .fin 18 ∧
    (http_recv readingExample false Thresholds.init
        (some "GET /settings?temp_min=&temp_max=35 HTTP/1.1\r\n\r\n".toList)).1.temp_lim_min
      = .fin 0 := by
  decide

/-- C3, amended: for every request that starts with `GET /settings` and
contains a question mark, `http_recv` answers exactly
`HTTP/1.1 302 Found\r\nLocation: /\r\n\r\n` (35 bytes), and for each of the six
keys: if the key does not occur in the request the limit is left unchanged,
and if its first occurrence is followed by a decimal number (optional minus
sign, digits with an optional fractional part) that ends at the end of the
request or before a character other than `e`, `E`, `x`, `X`, the limit becomes
that number (converted to `double`, then to `float`).  In particular
`GET /settings?temp_min=15.5&press_max=1040` sets `temp_min` to 15.5 and
`press_max` to 1040 and leaves the other four limits unchanged. -/
theorem C3_settings_update (r : Reading) (alerta : Bool) (t : Thresholds) (req : List Char)
    (hreq : req.take 13 = "GET /settings".toList) (hq : '?' ∈ req) :
    (∃ (hs : http_state) (t' : Thresholds),
      http_recv r alerta t (some req) = (t', some hs) ∧
      hs.response = "HTTP/1.1 302 Found\r\nLocation: /\r\n\r\n".toList ∧
      hs.len = hs.response.length ∧ hs.sent = 0 ∧
      KeyUpdated req "temp_min=".toList t.temp_lim_min t'.temp_lim_min ∧
      KeyUpdated req "temp_max=".toList t.temp_lim_max t'.temp_lim_max ∧
      KeyUpdated req "umid_min=".toList t.umid_lim_min t'.umid_lim_min ∧
      KeyUpdated req "umid_max=".toList t.umid_lim_max t'.umid_lim_max ∧
      KeyUpdated req "press_min=".toList t.press_lim_min t'.press_lim_min ∧
      KeyUpdated req "press_max=".toList t.press_lim_max t'.press_lim_max) ∧
    (http_recv r alerta t (some "GET /settings?temp_min=15.5&press_max=1040".toList)).1
      = { t with temp_lim_min := .fin 15.5, press_lim_max := .fin 1040 } := by
  constructor
  · have h := http_recv_settings_query r alerta t req hreq hq
    refine ⟨(http_recv_payload r alerta t req).2, (http_recv_payload r alerta t req).1,
      rfl, ?_, ?_, ?_, ?_⟩
    · rw [h]; rfl
    · rw [h]; rfl
    · rw [h]
    · rw [h]
      exact ⟨keyUpdated_parse _ _ _, keyUpdated_parse _ _ _, keyUpdated_parse _ _ _,
        keyUpdated_parse _ _ _, keyUpdated_parse _ _ _, keyUpdated_parse _ _ _⟩
  · have h := http_recv_settings_query r alerta t
      "GET /settings?temp_min=15.5&press_max=1040".toList (by decide) (by decide)
    have hu : update_limits "GET /settings?temp_min=15.5&press_max=1040".toList t
        = { t with temp_lim_min := .fin (mkRat 31 2), press_lim_max := .fin 1040 } := rfl
    have h155 : mkRat 31 2 = (15.5 : ℚ) := by
      rw [Rat.mkRat_eq_div]; norm_num
    simp only [http_recv, h, hu, h155]

/-- C3 (amended) on `GET /settings?temp_min=15.5&press_max=1040 HTTP/1.1` from
the start-up limits: the redirection is sent, `temp_min` becomes 15.5 and
`temp_max`, absent, keeps its value. -/
theorem C3_settings_update_witness :
    ("GET /settings?temp_min=15.5&press_max=1040 HTTP/1.1\r\n\r\n".toList).take 13
      = "GET /settings".toList ∧
    '?' ∈ "GET /settings?temp_min=15.5&press_max=1040 HTTP/1.1\r\n\r\n".toList ∧
    (∃ (hs : http_state) (t' : Thresholds),
      http_recv readingExample false Thresholds.init
        (some "GET /settings?temp_min=15.5&press_max=1040 HTTP/1.1\r\n\r\n".toList)
        = (t', some hs) ∧
      hs.response = "HTTP/1.1 302 Found\r\nLocation: /\r\n\r\n".toList ∧
      t'.temp_lim_min = toFloat (roundF64 false 155 (10 ^ 1)) ∧
      t'.temp_lim_max = Thresholds.init.temp_lim_max) ∧
    toFloat (roundF64 false 155 (10 ^ 1)) = .fin (mkRat 31 2) := by
  refine ⟨by decide, by decide, ?_, by decide⟩
  obtain ⟨⟨hs, t', h1, h2, _, _, k1, k2, _⟩, _⟩ :=
    C3_settings_update readingExample false Thresholds.init
      "GET /settings?temp_min=15.5&press_max=1040 HTTP/1.1\r\n\r\n".toList
      (by decide) (by decide)
  refine ⟨hs, t', h1, h2, ?_, ?_⟩
  · exact k1.2 "GET /settings?".toList "15.5&press_max=1040 HTTP/1.1\r\n\r\n".toList
      "&press_max=1040 HTTP/1.1\r\n\r\n".toList false 155 1 (by decide) (by decide)
      (by decide) (by decide)
  · exact k2.1 (by decide)

/-! ## The settings form (C6) -/

set_option maxRecDepth 100000 in
/-- Formatting runs through the first piece of the format and converts the
first limit. -/
theorem vformat_settingsFormat0 (x : CFloat) (args : List PfArg) (R : List Char) :
    vformat (settingsFormat0 ++ ("%.1f".toList ++ R)) (.dbl x :: args)
      = vformat settingsFormat0 [] ++ (fmtFixed 1 x ++ vformat R args) := rfl

set_option maxRecDepth 100000 in
/-- The second piece and the second limit. -/
theorem vformat_settingsFormat1 (x : CFloat) (args : List PfArg) (R : List Char) :
    vformat (settingsFormat1 ++ ("%.1f".toList ++ R)) (.dbl x :: args)
      = vformat settingsFormat1 [] ++ (fmtFixed 1 x ++ vformat R args) := rfl

set_option maxRecDepth 100000 in
/-- The third piece and the third limit. -/
theorem vformat_settingsFormat2 (x : CFloat) (args : List PfArg) (R : List Char) :
    vformat (settingsFormat2 ++ ("%.0f".toList ++ R)) (.dbl x :: args)
      = vformat settingsFormat2 [] ++ (fmtFixed 0 x ++ vformat R args) := rfl

set_option maxRecDepth 100000 in
/-- The fourth piece and the fourth limit. -/
theorem vformat_settingsFormat3 (x : CFloat) (args : List PfArg) (R : List Char) :
    vformat (settingsFormat3 ++ ("%.0f".toList ++ R)) (.dbl x :: args)
      = vformat settingsFormat3 [] ++ (fmtFixed 0 x ++ vformat R args) := rfl

set_option maxRecDepth 100000 in
/-- The fifth piece and the fifth limit. -/
theorem vformat_settingsFormat4 (x : CFloat) (args : List PfArg) (R : List Char) :
    vformat (settingsFormat4 ++ ("%.0f".toList ++ R)) (.dbl x :: args)
      = vformat settingsFormat4 [] ++ (fmtFixed 0 x ++ vformat R args) := rfl

set_option maxRecDepth 100000 in
/-- The sixth piece and the sixth limit. -/
theorem vformat_settingsFormat5 (x : CFloat) (args : List PfArg) (R : List Char) :
    vformat (settingsFormat5 ++ ("%.0f".toList ++ R)) (.dbl x :: args)
      = vformat settingsFormat5 [] ++ (fmtFixed 0 x ++ vformat R args) := rfl

/-- The settings format, expanded: the form with the six limits in their
fields. -/
theorem vformat_HTML_PAGE_SETTINGS_FORMAT (t : Thresholds) :
    vformat HTML_PAGE_SETTINGS_FORMAT
      [.dbl t.temp_lim_min, .dbl t.temp_lim_max, .dbl t.umid_lim_min, .dbl t.umid_lim_max,
       .dbl t.press_lim_min, .dbl t.press_lim_max] = settingsPage t := by
  unfold HTML_PAGE_SETTINGS_FORMAT settingsPage
  rw [vformat_settingsFormat0, vformat_settingsFormat1, vformat_settingsFormat2,
    vformat_settingsFormat3, vformat_settingsFormat4, vformat_settingsFormat5]

set_option maxRecDepth 100000 in
/-- The lengths of the seven pieces of the form. -/
theorem settings_pieces_length :
    (vformat settingsFormat0 []).length = 1178 ∧ (vformat settingsFormat1 []).length = 160 ∧
    (vformat settingsFormat2 []).length = 158 ∧ (vformat settingsFormat3 []).length = 158 ∧
    (vformat settingsFormat4 []).length = 164 ∧ (vformat settingsFormat5 []).length = 164 ∧
    (vformat settingsFormat6 []).length = 146 := by
  refine ⟨by decide, by decide, by decide, by decide, by decide, by decide, by decide⟩

/-- The length of the form: 2128 bytes of text and the six values. -/
theorem settingsPage_length (t : Thresholds) :
    (settingsPage t).length = 2128 + (fmtFixed 1 t.temp_lim_min).length
      + (fmtFixed 1 t.temp_lim_max).length + (fmtFixed 0 t.umid_lim_min).length
      + (fmtFixed 0 t.umid_lim_max).length + (fmtFixed 0 t.press_lim_min).length
      + (fmtFixed 0 t.press_lim_max).length := by
  obtain ⟨h0, h1, h2, h3, h4, h5, h6⟩ := settings_pieces_length
  unfold settingsPage
  simp only [List.length_append, h0, h1, h2, h3, h4, h5, h6]
  omega

/-- The format of the HTML responses, expanded. -/
theorem vformat_RESPONSE_HTML_FORMAT (body : List Char) :
    vformat RESPONSE_HTML_FORMAT [.int (body.length : Int), .str body] = htmlResponse body := by
  have h : vformat RESPONSE_HTML_FORMAT [.int (body.length : Int), .str body]
      = "HTTP/1.1 200 OK\r\nContent-Type: text/html\r\nContent-Length: ".toList ++
        (fmtInt (body.length : Int) ++ ("\r\n\r\n".toList ++ (body ++ []))) := rfl
  rw [h, fmtInt_natCast, List.append_nil]
  rfl

/-- The length of an HTML response. -/
theorem htmlResponse_length (body : List Char) :
    (htmlResponse body).length = 58 + (fmtNat body.length).length + 4 + body.length := by
  have h1 : "HTTP/1.1 200 OK\r\nContent-Type: text/html\r\nContent-Length: ".toList.length
      = 58 := by decide
  have h2 : "\r\n\r\n".toList.length = 4 := by decide
  unfold htmlResponse
  simp only [List.length_append, h1, h2]
  omega

/-- On a `GET /settings` request without any question mark, with limits in
`float` range, `http_recv` leaves the limits alone and sends the form with the
six limits in their fields, with its exact length as `Content-Length`. -/
theorem http_recv_settings_form (r : Reading) (alerta : Bool) (t : Thresholds)
    (req : List Char) (hreq : req.take 13 = "GET /settings".toList) (hq : '?' ∉ req)
    (hrange : t.inFloatRange = true) :
    http_recv_payload r alerta t req
      = (t, { response := htmlResponse (settingsPage t),
              len := (htmlResponse (settingsPage t)).length, sent := 0 }) := by
  simp only [Thresholds.inFloatRange, Bool.and_eq_true] at hrange
  obtain ⟨⟨⟨⟨⟨h1, h2⟩, h3⟩, h4⟩, h5⟩, h6⟩ := hrange
  have l1 := fmtFixed_length_le 1 _ h1
  have l2 := fmtFixed_length_le 1 _ h2
  have l3 := fmtFixed_length_le 0 _ h3
  have l4 := fmtFixed_length_le 0 _ h4
  have l5 := fmtFixed_length_le 0 _ h5
  have l6 := fmtFixed_length_le 0 _ h6
  simp only [show (1 : Nat) = 0 ↔ False from by decide, if_false, if_true] at l1 l2 l3 l4 l5 l6
  have hlen := settingsPage_length t
  generalize hpage : settingsPage t = page at hlen
  have hpl : page.length ≤ 2372 := by omega
  have hdig : (fmtNat page.length).length ≤ 4 :=
    natDigits_length_le _ _ 4 (by norm_num; omega) (by decide)
  have hs := strncmp_settings req hreq
  have hpg : snprintf (4096 - 1024) HTML_PAGE_SETTINGS_FORMAT
      [.dbl t.temp_lim_min, .dbl t.temp_lim_max, .dbl t.umid_lim_min, .dbl t.umid_lim_max,
       .dbl t.press_lim_min, .dbl t.press_lim_max] = (page, page.length) := by
    unfold snprintf
    rw [vformat_HTML_PAGE_SETTINGS_FORMAT, hpage, take_pred_eq_self _ _ (by omega)]
  have hresp : snprintf 4096 RESPONSE_HTML_FORMAT [.int (page.length : Int), .str page]
      = (htmlResponse page, (htmlResponse page).length) := by
    unfold snprintf
    rw [vformat_RESPONSE_HTML_FORMAT, take_pred_eq_self _ _ (by rw [htmlResponse_length]; omega)]
  unfold http_recv_payload
  simp only [hs.1, hs.2, strstr_no_question req hq, Bool.false_eq_true, if_false, if_true,
    hpg, hresp, mkState]

set_option maxRecDepth 100000 in
/-- C6 fails on the code: the request line `GET /settings HTTP/1.1` has no
query string, but a question mark in a header line that follows it (here a
`Referer`) makes `http_recv` take the form-submission branch: it overwrites
`temp_lim_min` with the 15.5 found in the header and answers with the
redirection instead of the form. -/
theorem C6_header_question_mark :
    http_recv readingExample false Thresholds.init
      (some ("GET /settings HTTP/1.1\r\nHost: 192.168.0.10\r\n"
        ++ "Referer: http://192.168.0.10/settings?temp_min=15.5\r\n\r\n").toList)
    = ({ Thresholds.init with temp_lim_min := .fin (mkRat 31 2) },
       some { response := "HTTP/1.1 302 Found\r\nLocation: /\r\n\r\n".toList,
              len := 35, sent := 0 }) := by
  decide

/-! ## The round trip of the settings form (C5) -/

/-- A needle is found at the head of a text that starts with it. -/
theorem strstr_self_append (c : Char) (cs R : List Char) :
    strstr ((c :: cs) ++ R) (c :: cs) = some ((c :: cs) ++ R) := by
  have h : (c :: cs).isPrefixOf (c :: (cs ++ R)) = true :=
    List.isPrefixOf_iff_prefix.mpr (List.prefix_append (c :: cs) R)
  simp only [List.cons_append, strstr, List.append_eq, h, if_true]

/-- The search steps over a text that does not contain the first character of
the needle. -/
theorem strstr_skip (k : Char) (ks : List Char) :
    ∀ (v rest : List Char), (∀ c ∈ v, c ≠ k) →
      strstr (v ++ rest) (k :: ks) = strstr rest (k :: ks) := by
  intro v
  induction v with
  | nil => intro rest _; rfl
  | cons a as ih =>
    intro rest h
    have ha : a ≠ k := h a (by simp)
    have hp : (k :: ks).isPrefixOf (a :: (as ++ rest)) = false := by
      simp [List.isPrefixOf, Ne.symm ha]
    simp only [List.cons_append, strstr, hp, Bool.false_eq_true, if_false, List.append_eq]
    exact ih rest (fun c hc => h c (by simp [hc]))

/-- The characters of the text of `%.Nf`. -/
theorem fmtFixed_valueChars (prec : Nat) (x : CFloat) :
    ∀ c ∈ fmtFixed prec x, isValueChar c = true := by
  have hdig : ∀ c : Char, c.isDigit = true → isValueChar c = true := by
    intro c hc
    simp [isValueChar, hc]
  have hmag : ∀ n d : Nat, ∀ c ∈ fmtFixedMag prec n d, isValueChar c = true := by
    intro n d c hc
    unfold fmtFixedMag fmtNat at hc
    simp only at hc
    rcases List.mem_append.mp hc with h | h
    · exact hdig c (natDigits_isDigit _ _ c h)
    · split at h
      · cases h
      · rcases List.mem_cons.mp h with h1 | h1
        · rw [h1]; decide
        · exact hdig c (fracDigits_isDigit _ _ c h1)
  intro c hc
  cases x with
  | nan =>
    have : c ∈ ['n', 'a', 'n'] := hc
    simp only [List.mem_cons, List.mem_singleton, List.not_mem_nil, or_false] at this
    rcases this with h | h | h <;> rw [h] <;> decide
  | inf neg =>
    cases neg
    · have : c ∈ ['i', 'n', 'f'] := hc
      simp only [List.mem_cons, List.mem_singleton, List.not_mem_nil, or_false] at this
      rcases this with h | h | h <;> rw [h] <;> decide
    · have : c ∈ ['-', 'i', 'n', 'f'] := hc
      simp only [List.mem_cons, List.mem_singleton, List.not_mem_nil, or_false] at this
      rcases this with h | h | h | h <;> rw [h] <;> decide
  | fin q =>
    simp only [fmtFixed] at hc
    split at hc
    · rcases List.mem_cons.mp hc with h | h
      · rw [h]; decide
      · exact hmag _ _ c h
    · exact hmag _ _ c hc

/-- The number read back from the text of a magnitude followed by the end of
a value: its digits form the rounded scaled magnitude, with `prec` of them
after the point. -/
theorem decimalPrefix_fmtFixedMag (prec n d : Nat) (tl : List Char) (htl : endsValue tl = true) :
    (fmtFixedMag prec n d ++ tl).takeWhile Char.isDigit
        ++ fracPart ((fmtFixedMag prec n d ++ tl).dropWhile Char.isDigit) ≠ [] ∧
    ((fmtFixedMag prec n d ++ tl).takeWhile Char.isDigit
        ++ fracPart ((fmtFixedMag prec n d ++ tl).dropWhile Char.isDigit)).foldl digitStep 0
      = roundHalfEvenDiv (n * 10 ^ prec) d ∧
    (fracPart ((fmtFixedMag prec n d ++ tl).dropWhile Char.isDigit)).length = prec ∧
    afterFracPart ((fmtFixedMag prec n d ++ tl).dropWhile Char.isDigit) = tl := by
  have hip := natDigits_isDigit (roundHalfEvenDiv (n * 10 ^ prec) d / 10 ^ prec + 1)
    (roundHalfEvenDiv (n * 10 ^ prec) d / 10 ^ prec)
  have hne := natDigits_ne_nil (roundHalfEvenDiv (n * 10 ^ prec) d / 10 ^ prec)
    (roundHalfEvenDiv (n * 10 ^ prec) d / 10 ^ prec)
  have hfold := foldl_natDigits (roundHalfEvenDiv (n * 10 ^ prec) d / 10 ^ prec + 1)
    (roundHalfEvenDiv (n * 10 ^ prec) d / 10 ^ prec) 0 (Nat.lt_succ_self _)
  have hfr := fracDigits_isDigit prec (roundHalfEvenDiv (n * 10 ^ prec) d)
  have hfl := fracDigits_length prec (roundHalfEvenDiv (n * 10 ^ prec) d)
  have hff := foldl_fracDigits prec (roundHalfEvenDiv (n * 10 ^ prec) d)
  generalize hS : roundHalfEvenDiv (n * 10 ^ prec) d = S at *
  generalize hf : fracDigits prec S = fr at hfr hfl hff
  generalize hi : natDigits (S / 10 ^ prec + 1) (S / 10 ^ prec) = ip at hip hne hfold
  -- the tail starts with no digit and no point
  have htl_dig : ∀ c cs, tl = c :: cs → c.isDigit = false := by
    intro c cs h
    rw [h] at htl
    simp only [endsValue, Bool.or_eq_true, beq_iff_eq] at htl
    rcases htl with h1 | h1 <;> rw [h1] <;> decide
  have htl_frac : fracPart tl = [] ∧ afterFracPart tl = tl := by
    cases tl with
    | nil => exact ⟨rfl, rfl⟩
    | cons c cs =>
      have hcp : c ≠ '.' := by
        simp only [endsValue, Bool.or_eq_true, beq_iff_eq] at htl
        rcases htl with h1 | h1 <;> rw [h1] <;> decide
      constructor
      · unfold fracPart
        split
        · rename_i heq
          injection heq with h1 _
          exact absurd h1 hcp
        · rfl
      · unfold afterFracPart
        split
        · rename_i heq
          injection heq with h1 _
          exact absurd h1 hcp
        · rfl
  have hmag : fmtFixedMag prec n d = ip ++ (if prec = 0 then [] else '.' :: fr) := by
    unfold fmtFixedMag fmtNat
    simp only [hS, hf, hi]
  rw [hmag]
  by_cases h0 : prec = 0
  · subst h0
    simp only [if_true, List.append_nil]
    have hb := takeWhile_digits_append ip tl hip htl_dig
    rw [hb.1, hb.2, htl_frac.1, htl_frac.2, List.append_nil, hfold]
    refine ⟨hne, ?_, ?_, rfl⟩
    · simp
    · rfl
  · simp only [h0, if_false, List.append_assoc, List.cons_append]
    have hb := takeWhile_digits_append ip ('.' :: (fr ++ tl)) hip
      (fun c cs h => by injection h with h1 _; rw [← h1]; decide)
    have hb2 := takeWhile_digits_append fr tl hfr htl_dig
    rw [hb.1, hb.2]
    simp only [fracPart, afterFracPart, hb2.1, hb2.2]
    refine ⟨?_, ?_, hfl, trivial⟩
    · intro h
      exact hne (List.append_eq_nil.mp h).1
    · rw [List.foldl_append, hfold, hff]
      simp only [Nat.zero_mul, Nat.zero_add]
      exact Nat.div_add_mod' _ _

/-- The end of a value ends a number. -/
theorem endsNumeral_of_endsValue (tl : List Char) (h : endsValue tl = true) :
    endsNumeral tl = true := by
  cases tl with
  | nil => rfl
  | cons c cs =>
    simp only [endsValue, Bool.or_eq_true, beq_iff_eq] at h
    rcases h with h1 | h1 <;> rw [h1] <;> rfl

/-- Reading back a value shown by `%.Nf`: `atof` followed by the conversion to
`float` gives the `float` nearest to the value shown. -/
theorem toFloat_atof_fmtFixed (prec : Nat) (x : CFloat) (tl : List Char)
    (htl : endsValue tl = true) :
    toFloat (atof (fmtFixed prec x ++ tl)) = rerendered prec x := by
  cases x with
  | nan => rfl
  | inf neg => cases neg <;> rfl
  | fin q =>
    obtain ⟨hne, hfold, hkf, hafter⟩ :=
      decimalPrefix_fmtFixedMag prec q.num.natAbs q.den tl htl
    have hend := endsNumeral_of_endsValue tl htl
    have hempty : ((fmtFixedMag prec q.num.natAbs q.den ++ tl).takeWhile Char.isDigit
        ++ fracPart ((fmtFixedMag prec q.num.natAbs q.den ++ tl).dropWhile Char.isDigit)).isEmpty
        = false := by
      cases hl : ((fmtFixedMag prec q.num.natAbs q.den ++ tl).takeWhile Char.isDigit
        ++ fracPart ((fmtFixedMag prec q.num.natAbs q.den ++ tl).dropWhile Char.isDigit)) with
      | nil => exact absurd hl hne
      | cons a b => rfl
    obtain ⟨c, cs, hcs, hc⟩ := (fmtFixedMag_shape prec q.num.natAbs q.den).2.2
    simp only [fmtFixed, rerendered]
    split
    · rename_i hneg
      have hdp : decimalPrefix ('-' :: fmtFixedMag prec q.num.natAbs q.den ++ tl)
          = some (true, roundHalfEvenDiv (q.num.natAbs * 10 ^ prec) q.den, prec, tl) := by
        unfold decimalPrefix
        have e1 : stripMinus ('-' :: fmtFixedMag prec q.num.natAbs q.den ++ tl)
            = fmtFixedMag prec q.num.natAbs q.den ++ tl := rfl
        have e2 : hasMinus ('-' :: fmtFixedMag prec q.num.natAbs q.den ++ tl) = true := rfl
        simp only [e1, e2, hempty, Bool.false_eq_true, if_false, hfold, hkf, hafter]
      rw [atof_decimal _ _ _ _ _ hdp hend]
      simp [hneg]
    · rename_i hneg
      have hsm := stripMinus_digit c (cs ++ tl) hc
      have hdp : decimalPrefix (fmtFixedMag prec q.num.natAbs q.den ++ tl)
          = some (false, roundHalfEvenDiv (q.num.natAbs * 10 ^ prec) q.den, prec, tl) := by
        unfold decimalPrefix
        have e1 : stripMinus (fmtFixedMag prec q.num.natAbs q.den ++ tl)
            = fmtFixedMag prec q.num.natAbs q.den ++ tl := by
          rw [hcs]; exact hsm.1
        have e2 : hasMinus (fmtFixedMag prec q.num.natAbs q.den ++ tl) = false := by
          rw [hcs]; exact hsm.2
        simp only [e1, e2, hempty, Bool.false_eq_true, if_false, hfold, hkf, hafter]
      rw [atof_decimal _ _ _ _ _ hdp hend]
      simp [hneg]

/-- The first character of each key is not a character of a value. -/
theorem key_heads_not_valueChar :
    isValueChar 't' = false ∧ isValueChar 'u' = false ∧ isValueChar 'p' = false := by
  decide

/-- A value does not contain a given character that is not a value
character. -/
theorem fmtFixed_ne (prec : Nat) (x : CFloat) (k : Char) (hk : isValueChar k = false) :
    ∀ c ∈ fmtFixed prec x, c ≠ k := by
  intro c hc h
  have := fmtFixed_valueChars prec x c hc
  rw [h, hk] at this
  cases this

/-- Handling the resubmission of the form shown for `t` leaves every limit at
the `float` nearest to the value shown for it. -/
theorem update_limits_resubmission (t t0 : Thresholds) (tail : List Char)
    (htail : endsValue tail = true) :
    update_limits (resubmission t tail) t0 = t.rerendered := by
  obtain ⟨ht, hu, hp⟩ := key_heads_not_valueChar
  have sk : ∀ (prec : Nat) (x : CFloat) (k : Char) (ks R : List Char),
      isValueChar k = false →
      strstr (fmtFixed prec x ++ R) (k :: ks) = strstr R (k :: ks) :=
    fun prec x k ks R hk => strstr_skip k ks _ R (fmtFixed_ne prec x k hk)
  have amp : endsValue ("&".toList ++ []) = true := rfl
  have e1 : ∀ R, strstr ("GET /settings?temp_min=".toList ++ R) "temp_min=".toList
      = some ("temp_min=".toList ++ R) := by
    intro R
    have h : strstr ("GET /settings?temp_min=".toList ++ R) "temp_min=".toList
        = strstr ("temp_min=".toList ++ R) "temp_min=".toList := rfl
    rw [h]; exact strstr_self_append _ _ _
  have a1 : ∀ k R, strstr ("GET /settings?temp_min=".toList ++ R) ('u' :: k)
      = strstr R ('u' :: k) := fun _ _ => rfl
  have a1p : ∀ R, strstr ("GET /settings?temp_min=".toList ++ R) "press_min=".toList
      = strstr R "press_min=".toList := fun _ => rfl
  have a1q : ∀ R, strstr ("GET /settings?temp_min=".toList ++ R) "press_max=".toList
      = strstr R "press_max=".toList := fun _ => rfl
  have a1t : ∀ R, strstr ("GET /settings?temp_min=".toList ++ R) "temp_max=".toList
      = strstr R "temp_max=".toList := fun _ => rfl
  have e2 : ∀ R, strstr ("&temp_max=".toList ++ R) "temp_max=".toList
      = some ("temp_max=".toList ++ R) := by
    intro R
    have h : strstr ("&temp_max=".toList ++ R) "temp_max=".toList
        = strstr ("temp_max=".toList ++ R) "temp_max=".toList := rfl
    rw [h]; exact strstr_self_append _ _ _
  have a2 : ∀ k R, strstr ("&temp_max=".toList ++ R) ('u' :: k) = strstr R ('u' :: k) :=
    fun _ _ => rfl
  have a2p : ∀ R, strstr ("&temp_max=".toList ++ R) "press_min=".toList
      = strstr R "press_min=".toList := fun _ => rfl
  have a2q : ∀ R, strstr ("&temp_max=".toList ++ R) "press_max=".toList
      = strstr R "press_max=".toList := fun _ => rfl
  have e3 : ∀ R, strstr ("&umid_min=".toList ++ R) "umid_min=".toList
      = some ("umid_min=".toList ++ R) := by
    intro R
    have h : strstr ("&umid_min=".toList ++ R) "umid_min=".toList
        = strstr ("umid_min=".toList ++ R) "umid_min=".toList := rfl
    rw [h]; exact strstr_self_append _ _ _
  have a3 : ∀ R, strstr ("&umid_min=".toList ++ R) "umid_max=".toList
      = strstr R "umid_max=".toList := fun _ => rfl
  have a3p : ∀ R, strstr ("&umid_min=".toList ++ R) "press_min=".toList
      = strstr R "press_min=".toList := fun _ => rfl
  have a3q : ∀ R, strstr ("&umid_min=".toList ++ R) "press_max=".toList
      = strstr R "press_max=".toList := fun _ => rfl
  have e4 : ∀ R, strstr ("&umid_max=".toList ++ R) "umid_max=".toList
      = some ("umid_max=".toList ++ R) := by
    intro R
    have h : strstr ("&umid_max=".toList ++ R) "umid_max=".toList
        = strstr ("umid_max=".toList ++ R) "umid_max=".toList := rfl
    rw [h]; exact strstr_self_append _ _ _
  have a4p : ∀ R, strstr ("&umid_max=".toList ++ R) "press_min=".toList
      = strstr R "press_min=".toList := fun _ => rfl
  have a4q : ∀ R, strstr ("&umid_max=".toList ++ R) "press_max=".toList
      = strstr R "press_max=".toList := fun _ => rfl
  have e5 : ∀ R, strstr ("&press_min=".toList ++ R) "press_min=".toList
      = some ("press_min=".toList ++ R) := by
    intro R
    have h : strstr ("&press_min=".toList ++ R) "press_min=".toList
        = strstr ("press_min=".toList ++ R) "press_min=".toList := rfl
    rw [h]; exact strstr_self_append _ _ _
  have a5 : ∀ R, strstr ("&press_min=".toList ++ R) "press_max=".toList
      = strstr R "press_max=".toList := fun _ => rfl
  have e6 : ∀ R, strstr ("&press_max=".toList ++ R) "press_max=".toList
      = some ("press_max=".toList ++ R) := by
    intro R
    have h : strstr ("&press_max=".toList ++ R) "press_max=".toList
        = strstr ("press_max=".toList ++ R) "press_max=".toList := rfl
    rw [h]; exact strstr_self_append _ _ _
  have hamp : ∀ R : List Char, endsValue ('&' :: R) = true := fun _ => rfl
  have f1 : parse_and_update_value (resubmission t tail) "temp_min=".toList t0.temp_lim_min
      = rerendered 1 t.temp_lim_min := by
    unfold parse_and_update_value resubmission
    rw [e1]
    simp only [List.drop_left]
    exact toFloat_atof_fmtFixed 1 _ _ (hamp _)
  have f2 : parse_and_update_value (resubmission t tail) "temp_max=".toList t0.temp_lim_max
      = rerendered 1 t.temp_lim_max := by
    unfold parse_and_update_value resubmission
    rw [a1t, show "temp_max=".toList = 't' :: "emp_max=".toList from rfl, sk _ _ _ _ _ ht,
      show 't' :: "emp_max=".toList = "temp_max=".toList from rfl, e2]
    simp only [List.drop_left]
    exact toFloat_atof_fmtFixed 1 _ _ (hamp _)
  have f3 : parse_and_update_value (resubmission t tail) "umid_min=".toList t0.umid_lim_min
      = rerendered 0 t.umid_lim_min := by
    unfold parse_and_update_value resubmission
    rw [show "umid_min=".toList = 'u' :: "mid_min=".toList from rfl, a1, sk _ _ _ _ _ hu, a2,
      sk _ _ _ _ _ hu, show 'u' :: "mid_min=".toList = "umid_min=".toList from rfl, e3]
    simp only [List.drop_left]
    exact toFloat_atof_fmtFixed 0 _ _ (hamp _)
  have f4 : parse_and_update_value (resubmission t tail) "umid_max=".toList t0.umid_lim_max
      = rerendered 0 t.umid_lim_max := by
    unfold parse_and_update_value resubmission
    rw [show "umid_max=".toList = 'u' :: "mid_max=".toList from rfl, a1, sk _ _ _ _ _ hu, a2,
      sk _ _ _ _ _ hu, show 'u' :: "mid_max=".toList = "umid_max=".toList from rfl, a3,
      show "umid_max=".toList = 'u' :: "mid_max=".toList from rfl, sk _ _ _ _ _ hu,
      show 'u' :: "mid_max=".toList = "umid_max=".toList from rfl, e4]
    simp only [List.drop_left]
    exact toFloat_atof_fmtFixed 0 _ _ (hamp _)
  have skp : ∀ (prec : Nat) (x : CFloat) (R : List Char),
      strstr (fmtFixed prec x ++ R) "press_min=".toList = strstr R "press_min=".toList :=
    fun prec x R => sk prec x 'p' "ress_min=".toList R hp
  have skq : ∀ (prec : Nat) (x : CFloat) (R : List Char),
      strstr (fmtFixed prec x ++ R) "press_max=".toList = strstr R "press_max=".toList :=
    fun prec x R => sk prec x 'p' "ress_max=".toList R hp
  have f5 : parse_and_update_value (resubmission t tail) "press_min=".toList t0.press_lim_min
      = rerendered 0 t.press_lim_min := by
    unfold parse_and_update_value resubmission
    rw [a1p, skp, a2p, skp, a3p, skp, a4p, skp, e5]
    simp only [List.drop_left]
    exact toFloat_atof_fmtFixed 0 _ _ (hamp _)
  have f6 : parse_and_update_value (resubmission t tail) "press_max=".toList t0.press_lim_max
      = rerendered 0 t.press_lim_max := by
    unfold parse_and_update_value resubmission
    rw [a1q, skq, a2q, skq, a3q, skq, a4q, skq, a5, skq, e6]
    simp only [List.drop_left]
    exact toFloat_atof_fmtFixed 0 _ _ htail
  unfold update_limits Thresholds.rerendered
  rw [f1, f2, f3, f4, f5, f6]

/-! ## Exactness of the binary rounding on representable values -/

/-- Halving until 1 computes the position of the leading bit. -/
theorem log2Fuel_le : ∀ (fuel n : Nat), 0 < n → n ≤ fuel → 2 ^ log2Fuel fuel n ≤ n := by
  intro fuel
  induction fuel with
  | zero => intro n h0 h; omega
  | succ fuel ih =>
    intro n h0 h
    unfold log2Fuel
    split
    · simpa using h0
    · rename_i h2
      have := ih (n / 2) (by omega) (by omega)
      rw [pow_succ]
      omega

/-- The exponent computed for a ratio is at most its binary logarithm. -/
theorem floorLog2Ratio_le (n d : Nat) (hn : 0 < n) (hd : 0 < d) :
    (2 : ℚ) ^ floorLog2Ratio n d ≤ (n : ℚ) / d := by
  have hdq : (0 : ℚ) < d := by exact_mod_cast hd
  have hnq : (0 : ℚ) < n := by exact_mod_cast hn
  have ha := log2Fuel_le n n hn (le_refl _)
  have key : ∀ e : Int,
      (0 ≤ e → d * 2 ^ e.toNat ≤ n) → (e < 0 → d ≤ n * 2 ^ (-e).toNat) →
      (2 : ℚ) ^ e ≤ (n : ℚ) / d := by
    intro e h1 h2
    rw [le_div_iff₀ hdq]
    rcases le_or_lt 0 e with he | he
    · have h := h1 he
      have hz : (2 : ℚ) ^ e = ((2 ^ e.toNat : Nat) : ℚ) := by
        rw [← Int.toNat_of_nonneg he, zpow_natCast, Int.toNat_of_nonneg he]
        push_cast
        rfl
      rw [hz]
      have : ((d * 2 ^ e.toNat : Nat) : ℚ) ≤ (n : ℚ) := by exact_mod_cast h
      push_cast at this ⊢
      linarith
    · have h := h2 he
      have hpos : (0 : ℚ) < 2 ^ (-e).toNat := by positivity
      have hz : (2 : ℚ) ^ e = 1 / ((2 ^ (-e).toNat : Nat) : ℚ) := by
        have : e = -((-e).toNat : Int) := by omega
        conv_lhs => rw [this]
        rw [zpow_neg, zpow_natCast]
        push_cast
        rw [one_div]
      rw [hz]
      have h' : ((d : Nat) : ℚ) ≤ ((n * 2 ^ (-e).toNat : Nat) : ℚ) := by exact_mod_cast h
      push_cast at h' ⊢
      rw [div_mul_eq_mul_div, one_mul, div_le_iff₀ hpos]
      linarith
  -- the two candidates of the definition
  have hb : d < 2 ^ (log2Fuel d d + 1) := by
    have : ∀ (fuel m : Nat), 0 < m → m ≤ fuel → m < 2 ^ (log2Fuel fuel m + 1) := by
      intro fuel
      induction fuel with
      | zero => intro m h0 h; omega
      | succ fuel ih =>
        intro m h0 h
        unfold log2Fuel
        split
        · simp; omega
        · have := ih (m / 2) (by omega) (by omega)
          rw [pow_succ] at this ⊢
          omega
    exact this d d hd (le_refl _)
  unfold floorLog2Ratio
  simp only
  generalize log2Fuel n n = a at ha
  generalize log2Fuel d d = b at hb
  split
  · rename_i hge
    have hab : b ≤ a := by omega
    have htn : ((a : Int) - b).toNat = a - b := by omega
    split
    · rename_i htest
      apply key
      · intro _; exact htest
      · intro h; omega
    · rename_i htest
      rw [htn] at htest
      apply key
      · intro he
        have h1 : (((a : Int) - b) - 1).toNat = a - b - 1 := by omega
        rw [h1]
        have hlt : b < a := by omega
        have h2 : d * 2 ^ (a - b - 1) < 2 ^ (b + 1) * 2 ^ (a - b - 1) :=
          Nat.mul_lt_mul_of_pos_right hb (by positivity)
        have h3 : 2 ^ (b + 1) * 2 ^ (a - b - 1) = 2 ^ a := by
          rw [← pow_add]; congr 1; omega
        omega
      · intro he
        have hab2 : a = b := by omega
        have h1 : (-(((a : Int) - b) - 1)).toNat = 1 := by omega
        rw [h1]
        subst hab2
        rw [pow_succ] at hb
        omega
  · rename_i hlt
    have hab : a < b := by omega
    have htn : (-((a : Int) - b)).toNat = b - a := by omega
    split
    · rename_i htest
      apply key
      · intro h; omega
      · intro _; exact htest
    · rename_i htest
      apply key
      · intro h; omega
      · intro _
        have h1 : (-(((a : Int) - b) - 1)).toNat = b - a + 1 := by omega
        rw [h1]
        have h2 : 2 ^ (b + 1) = 2 ^ a * 2 ^ (b - a + 1) := by
          rw [← pow_add]; congr 1; omega
        have h3 : 2 ^ a * 2 ^ (b - a + 1) ≤ n * 2 ^ (b - a + 1) :=
          Nat.mul_le_mul_right _ ha
        omega

/-- Rounding an exact quotient changes nothing. -/
theorem roundHalfEvenDiv_exact (k b : Nat) (hb : 0 < b) : roundHalfEvenDiv (k * b) b = k := by
  unfold roundHalfEvenDiv
  simp [Nat.mul_div_cancel _ hb, hb]

/-- A value `M * 2^T` with `M < 2^p` and `T` not below the least exponent of
the format, smaller than `2^(emax+1)`, is a value of the format: rounding
returns it. -/
theorem roundBinary_exact (p emax : Nat) (neg : Bool) (n d M : Nat) (T : Int)
    (hemax : 1 ≤ emax) (hd : 0 < d) (hM : M < 2 ^ p)
    (hT : (1 - (emax : Int)) - ((p : Int) - 1) ≤ T)
    (hv : (n : ℚ) / d = M * (2 : ℚ) ^ T)
    (hmax : (n : ℚ) / d < (2 : ℚ) ^ ((emax : Int) + 1)) :
    roundBinary p emax neg n d = .fin (if neg then -((n : ℚ) / d) else (n : ℚ) / d) := by
  by_cases hn : n = 0
  · subst hn
    simp [roundBinary]
  have hnpos : 0 < n := Nat.pos_of_ne_zero hn
  have hdq : (0 : ℚ) < d := by exact_mod_cast hd
  have h2 : (1 : ℚ) < 2 := by norm_num
  have hlog := floorLog2Ratio_le n d hnpos hd
  have hfl1 : floorLog2Ratio n d < (emax : Int) + 1 :=
    (zpow_lt_zpow_iff_right₀ h2).1 (lt_of_le_of_lt hlog hmax)
  have hfl2 : floorLog2Ratio n d < (p : Int) + T := by
    apply (zpow_lt_zpow_iff_right₀ h2).1
    refine lt_of_le_of_lt hlog ?_
    rw [hv, zpow_add₀ (by norm_num : (2 : ℚ) ≠ 0), zpow_natCast]
    have : (M : ℚ) < 2 ^ p := by exact_mod_cast hM
    exact mul_lt_mul_of_pos_right this (by positivity)
  obtain ⟨e, he⟩ : ∃ e, e = max (floorLog2Ratio n d) (1 - (emax : Int)) := ⟨_, rfl⟩
  have hee : e ≤ emax := by rw [he]; omega
  have hte : e - ((p : Int) - 1) ≤ T := by rw [he]; omega
  obtain ⟨t, ht⟩ : ∃ t, t = e - ((p : Int) - 1) := ⟨_, rfl⟩
  have htT : t ≤ T := by rw [ht]; exact hte
  obtain ⟨K, hKdef⟩ : ∃ K, K = M * 2 ^ (T - t).toNat := ⟨_, rfl⟩
  have hK : (K : ℚ) * (2 : ℚ) ^ t = (n : ℚ) / d := by
    rw [hv, hKdef]
    push_cast
    rw [mul_assoc, ← zpow_natCast, ← zpow_add₀ (by norm_num : (2 : ℚ) ≠ 0)]
    congr 2
    omega
  have hKlt : e = emax → ¬ 2 ^ p ≤ K := by
    intro hemx hle
    have h1 : ((2 ^ p : Nat) : ℚ) ≤ (K : ℚ) := by exact_mod_cast hle
    have h3 : (2 : ℚ) ^ ((p : Int) + t) ≤ (K : ℚ) * (2 : ℚ) ^ t := by
      rw [zpow_add₀ (by norm_num : (2 : ℚ) ≠ 0), zpow_natCast]
      push_cast at h1
      exact mul_le_mul_of_nonneg_right h1 (by positivity)
    rw [hK] at h3
    have h4 := lt_of_le_of_lt h3 hmax
    have := (zpow_lt_zpow_iff_right₀ h2).1 h4
    omega
  have hm : (if t ≥ 0 then roundHalfEvenDiv n (d * 2 ^ t.toNat)
      else roundHalfEvenDiv (n * 2 ^ (-t).toNat) d) = K := by
    split
    · rename_i h0
      have hz : (2 : ℚ) ^ t = ((2 ^ t.toNat : Nat) : ℚ) := by
        conv_lhs => rw [← Int.toNat_of_nonneg h0]
        rw [zpow_natCast]
        push_cast
        rfl
      have hnat : n = K * (d * 2 ^ t.toNat) := by
        have : (n : ℚ) = ((K * (d * 2 ^ t.toNat) : Nat) : ℚ) := by
          rw [hz] at hK
          push_cast at hK ⊢
          field_simp at hK
          linarith
        exact_mod_cast this
      rw [hnat]
      exact roundHalfEvenDiv_exact _ _ (by positivity)
    · rename_i h0
      have hz : (2 : ℚ) ^ t = 1 / ((2 ^ (-t).toNat : Nat) : ℚ) := by
        have : t = -((-t).toNat : Int) := by omega
        conv_lhs => rw [this]
        rw [zpow_neg, zpow_natCast]
        push_cast
        rw [one_div]
      have hnat : n * 2 ^ (-t).toNat = K * d := by
        have : ((n * 2 ^ (-t).toNat : Nat) : ℚ) = ((K * d : Nat) : ℚ) := by
          rw [hz] at hK
          push_cast at hK ⊢
          field_simp at hK
          linarith
        exact_mod_cast this
      rw [hnat]
      exact roundHalfEvenDiv_exact _ _ hd
  have hmag : (if t ≥ 0 then mkRat (K * 2 ^ t.toNat : Nat) 1
      else mkRat (K : Nat) (2 ^ (-t).toNat)) = (n : ℚ) / d := by
    rw [← hK]
    split
    · rename_i h0
      have hz : (2 : ℚ) ^ t = ((2 ^ t.toNat : Nat) : ℚ) := by
        conv_lhs => rw [← Int.toNat_of_nonneg h0]
        rw [zpow_natCast]
        push_cast
        rfl
      rw [Rat.mkRat_eq_div, hz]
      push_cast
      simp
    · rename_i h0
      have hz : (2 : ℚ) ^ t = 1 / ((2 ^ (-t).toNat : Nat) : ℚ) := by
        have : t = -((-t).toNat : Int) := by omega
        conv_lhs => rw [this]
        rw [zpow_neg, zpow_natCast]
        push_cast
        rw [one_div]
      rw [Rat.mkRat_eq_div, hz]
      push_cast
      rw [mul_one_div]
  unfold roundBinary
  rw [if_neg hn]
  simp only [← he, ← ht, hm, hmag]
  have hov : (decide ((emax : Int) < e) || (decide (e = (emax : Int)) && decide (2 ^ p ≤ K)))
      = false := by
    rcases lt_or_eq_of_le hee with h | h
    · have h1 : ¬ ((emax : Int) < e) := by omega
      have h2 : ¬ (e = (emax : Int)) := by omega
      simp [h1, h2]
    · have h1 : ¬ ((emax : Int) < e) := by omega
      simp [h1, hKlt h]
  rw [hov]
  simp

/-- A rational is its magnitude with its sign. -/
theorem signed_natAbs_div (q : ℚ) :
    (if decide (q.num < 0) = true then -((q.num.natAbs : ℚ) / q.den)
      else (q.num.natAbs : ℚ) / q.den) = q := by
  have hq : (q.num : ℚ) / q.den = q := Rat.num_div_den q
  have habs : (q.num.natAbs : ℚ) = |(q.num : ℚ)| := by
    rw [Nat.cast_natAbs, Int.cast_abs]
  by_cases h : q.num < 0
  · have hneg : (q.num : ℚ) < 0 := by exact_mod_cast h
    simp only [h, decide_True, if_true, habs, abs_of_neg hneg]
    rw [neg_div, neg_neg, hq]
  · have hnn : (0 : ℚ) ≤ (q.num : ℚ) := by exact_mod_cast (not_lt.1 h)
    simp only [h, decide_False, Bool.false_eq_true, if_false, habs, abs_of_nonneg hnn]
    exact hq

/-- A multiple of one half, or of one, of magnitude below `2^23` is shown in
full by `%.Nf` when `1 / k` is a multiple of `10^-N`, and is a `float`:
reading the shown value back gives the value itself. -/
theorem rerendered_small (prec k : Nat) (x : CFloat) (hk : k = 1 ∨ k = 2)
    (hdiv : k ∣ 10 ^ prec) (h : x.isSmallMultiple k = true) : rerendered prec x = x := by
  cases x with
  | nan => cases h
  | inf neg => cases h
  | fin q =>
    simp only [CFloat.isSmallMultiple, Bool.and_eq_true, decide_eq_true_eq] at h
    obtain ⟨hden, hmag⟩ := h
    have hden12 : q.den = 1 ∨ q.den = 2 := by
      have hle := Nat.le_of_dvd (by rcases hk with h | h <;> omega) hden
      have hpos := q.den_pos
      rcases hk with h | h
      · left; omega
      · subst h
        have : q.den = 1 ∨ q.den = 2 := by omega
        exact this
    obtain ⟨c, hc⟩ := dvd_trans hden hdiv
    have hcpos : 0 < c := by
      rcases Nat.eq_zero_or_pos c with h0 | h0
      · rw [h0, Nat.mul_zero] at hc
        exact absurd hc (by positivity)
      · exact h0
    have hcq : (c : ℚ) ≠ 0 := by exact_mod_cast (Nat.pos_iff_ne_zero.1 hcpos)
    have hdq : (q.den : ℚ) ≠ 0 := by exact_mod_cast q.den_nz
    -- the exponent of the representation `|q| = |num| * 2^T`
    obtain ⟨T, hT, hTv⟩ : ∃ T : Int, -1 ≤ T ∧
        (q.num.natAbs : ℚ) / q.den = (q.num.natAbs : ℚ) * (2 : ℚ) ^ T := by
      rcases hden12 with h1 | h2
      · exact ⟨0, by omega, by rw [h1]; simp⟩
      · refine ⟨-1, by omega, ?_⟩
        rw [h2, zpow_neg, zpow_one]
        push_cast
        rw [div_eq_mul_inv]
    have hlt24 : q.num.natAbs < 2 ^ 24 := by omega
    have hvlt : (q.num.natAbs : ℚ) / q.den < 2 ^ 23 := by
      rw [div_lt_iff₀ (by exact_mod_cast q.den_pos)]
      exact_mod_cast hmag
    have hround : roundHalfEvenDiv (q.num.natAbs * 10 ^ prec) q.den = q.num.natAbs * c := by
      rw [hc, show q.num.natAbs * (q.den * c) = (q.num.natAbs * c) * q.den by ring]
      exact roundHalfEvenDiv_exact _ _ q.den_pos
    have hval : ((q.num.natAbs * c : Nat) : ℚ) / ((10 ^ prec : Nat) : ℚ)
        = (q.num.natAbs : ℚ) / q.den := by
      rw [hc]
      push_cast
      field_simp
      ring
    have h64 : roundF64 (decide (q.num < 0)) (q.num.natAbs * c) (10 ^ prec) = .fin q := by
      unfold roundF64
      rw [roundBinary_exact 53 1023 _ _ _ q.num.natAbs T (by norm_num) (by positivity)
        (lt_of_lt_of_le hlt24 (by norm_num)) (by push_cast; omega) (by rw [hval, hTv])
        (by rw [hval]; exact lt_trans hvlt (by norm_num))]
      rw [hval, signed_natAbs_div]
    have h32 : toFloat (.fin q) = .fin q := by
      show roundBinary 24 127 (decide (q.num < 0)) q.num.natAbs q.den = .fin q
      rw [roundBinary_exact 24 127 _ _ _ q.num.natAbs T (by norm_num) q.den_pos
        hlt24 (by push_cast; omega) hTv (lt_trans hvlt (by norm_num))]
      rw [signed_natAbs_div]
    show toFloat (roundF64 (decide (q.num < 0))
      (roundHalfEvenDiv (q.num.natAbs * 10 ^ prec) q.den) (10 ^ prec)) = .fin q
    rw [hround, h64, h32]

/-- Limits that the form shows in full come back unchanged. -/
theorem rerendered_shownExactly (t : Thresholds) (h : t.shownExactly = true) :
    t.rerendered = t := by
  simp only [Thresholds.shownExactly, Bool.and_eq_true] at h
  obtain ⟨⟨⟨⟨⟨h1, h2⟩, h3⟩, h4⟩, h5⟩, h6⟩ := h
  unfold Thresholds.rerendered
  rw [rerendered_small 1 2 _ (Or.inr rfl) (by norm_num) h1,
    rerendered_small 1 2 _ (Or.inr rfl) (by norm_num) h2,
    rerendered_small 0 1 _ (Or.inl rfl) (by norm_num) h3,
    rerendered_small 0 1 _ (Or.inl rfl) (by norm_num) h4,
    rerendered_small 0 1 _ (Or.inl rfl) (by norm_num) h5,
    rerendered_small 0 1 _ (Or.inl rfl) (by norm_num) h6]

/-- C5, as stated, fails: with `temp_lim_min = 18.25` (set by
`GET /settings?temp_min=18.25`) the form shows `18.2`, and submitting the form
unchanged leaves `temp_lim_min` at the `float` nearest to 18.2, which is
4771021 / 262144 = 18.2000007..., not 18.25. -/
theorem C5_counterexample :
    (http_recv readingExample false Thresholds.init
        (some "GET /settings?temp_min=18.25".toList)).1 = limitsQuarter ∧
    fmtFixed 1 limitsQuarter.temp_lim_min = "18.2".toList ∧
    (http_recv readingExample false limitsQuarter
        (some (resubmission limitsQuarter []))).1.temp_lim_min
      = .fin (mkRat 4771021 262144) ∧
    (http_recv readingExample false limitsQuarter (some (resubmission limitsQuarter []))).1
      ≠ limitsQuarter := by
  decide

/-- C5, amended: for every limits `t`, handling the request
`GET /settings?temp_min=v1&temp_max=v2&umid_min=v3&umid_max=v4&press_min=v5&press_max=v6`
(followed by nothing, or by a space and anything), where `v1..v6` are the six
values the settings form shows for `t`, leaves each limit equal to the `float`
nearest to the value shown for it: the old value rounded to one fractional
digit for the two temperature limits and to an integer for the other four.
The limits are therefore equal to `t` exactly when each of them already is
such a value; they are when the two temperature limits are multiples of one
half and the other four are integers, all of magnitude below `2^23`.  The
values shown are those of the form `http_recv` serves. -/
theorem C5_form_round_trip (r : Reading) (alerta : Bool) (t : Thresholds) (tail : List Char)
    (htail : endsValue tail = true) :
    (http_recv r alerta t (some (resubmission t tail))).1 = t.rerendered ∧
    ((http_recv r alerta t (some (resubmission t tail))).1 = t ↔ t.rerendered = t) ∧
    (t.shownExactly = true → (http_recv r alerta t (some (resubmission t tail))).1 = t) ∧
    (t.inFloatRange = true → ∀ req : List Char, req.take 13 = "GET /settings".toList →
      '?' ∉ req →
      (http_recv r alerta t (some req)).2.map (fun hs => hs.response)
        = some (htmlResponse (settingsPage t))) := by
  have hreq : (resubmission t tail).take 13 = "GET /settings".toList := rfl
  have hq : '?' ∈ resubmission t tail := by
    unfold resubmission
    exact List.mem_append_left _ (by decide)
  have h := http_recv_settings_query r alerta t (resubmission t tail) hreq hq
  have hmain : (http_recv r alerta t (some (resubmission t tail))).1 = t.rerendered := by
    simp only [http_recv, h]
    exact update_limits_resubmission t t tail htail
  refine ⟨hmain, by rw [hmain], fun hs => by rw [hmain]; exact rerendered_shownExactly t hs, ?_⟩
  intro hrange req hr hnq
  simp only [http_recv, http_recv_settings_form r alerta t req hr hnq hrange, Option.map_some']

/-- C5 (amended) on the start-up limits, the request being followed by
` HTTP/1.1` and the blank line: the limits come back unchanged. -/
theorem C5_form_round_trip_witness :
    endsValue " HTTP/1.1\r\n\r\n".toList = true ∧
    resubmission Thresholds.init " HTTP/1.1\r\n\r\n".toList
      = ("GET /settings?temp_min=18.0&temp_max=40.0&umid_min=30&umid_max=70"
          ++ "&press_min=950&press_max=1050 HTTP/1.1\r\n\r\n").toList ∧
    Thresholds.init.shownExactly = true ∧
    (http_recv readingExample false Thresholds.init
        (some (resubmission Thresholds.init " HTTP/1.1\r\n\r\n".toList))).1
      = Thresholds.init :=
  ⟨by decide, by decide, by decide,
   (C5_form_round_trip readingExample false Thresholds.init " HTTP/1.1\r\n\r\n".toList
     (by decide)).2.2.1 (by decide)⟩

/-! ## Debounce (C11, C12) -/

/-- The dispatch chain does not write the time stamp. -/
theorem irq_dispatch_last_press (s : IrqState) (gpio : Nat) :
    (irq_dispatch s gpio).last_press = s.last_press := by
  unfold irq_dispatch
  split_ifs <;> rfl

/-- A notification inside the window leaves the state unchanged. -/
theorem gpio_irq_handler_dropped (s : IrqState) (gpio current_time : Nat)
    (hdrop : debounced s current_time = true) :
    gpio_irq_handler s gpio current_time = s := by
  simp [gpio_irq_handler, hdrop]

/-- Unsigned subtraction of two clock readings less than `2^32` ms apart. -/
theorem u32sub_of_le (t1 t2 : Nat) (h : t1 ≤ t2) (hgap : t2 - t1 < 2 ^ 32) :
    u32sub t2 (t1 % 2 ^ 32) = t2 - t1 := by
  unfold u32sub
  omega

/-- The test on the second of two events, the first having been accepted. -/
theorem debounced_after_accept (s : IrqState) (gpio t1 t2 : Nat)
    (hacc : debounced s t1 = false) (h : t1 ≤ t2) (hgap : t2 - t1 < 2 ^ 32) :
    debounced (gpio_irq_handler s gpio t1) t2 = decide (t2 - t1 < 250) := by
  rw [gpio_irq_handler_accepted s gpio t1 hacc]
  unfold debounced
  rw [irq_dispatch_last_press]
  simp only [u32sub_of_le t1 t2 h hgap]

/-- C11, as stated, fails: no event has been accepted since boot (the state is
the start-up state) and button A is pressed 4294967396 ms after boot, when the
32-bit clock reading has wrapped to 100, and again 300 ms later.  The first
press is not inside the window of any accepted event, yet it is dropped (the
state stays the start-up state), because the start-up value 0 of `last_press`
is taken for the time of an event; the second press is accepted.  One of the
two is accepted although they are 300 ms apart. -/
theorem C11_counterexample :
    4294967396 % 2 ^ 32 = 100 ∧
    debounced IrqState.init 4294967396 = true ∧
    gpio_irq_handler IrqState.init BOTAO_A 4294967396 = IrqState.init ∧
    250 ≤ 4294967696 - 4294967396 ∧
    debounced (gpio_irq_handler IrqState.init BOTAO_A 4294967396) 4294967696 = false ∧
    gpio_irq_handler (gpio_irq_handler IrqState.init BOTAO_A 4294967396) BOTAO_A 4294967696
      = ⟨TELA_MONITORAMENTO, 0, 0, 400⟩ := by
  decide

/-- C11, amended: two consecutive notifications from one button, at clock
readings `t1 <= t2` (milliseconds since boot as `to_ms_since_boot` returns
them, hence less than `2^32` ms apart), the first one passing the debounce
test on the stored time stamp, which is the time of the last accepted event
or, when none has been accepted, the start-up value 0.  The first is accepted: it stores
its time and runs the menu transition.  When `t2 - t1 < 250` the second is
dropped and leaves the whole state, the menu included, as the first left it,
so exactly one of the two is accepted; when `t2 - t1 >= 250` the second is
accepted too: it stores its time and runs the menu transition. -/
theorem C11_debounce_pair (s : IrqState) (gpio t1 t2 : Nat)
    (hacc : debounced s t1 = false) (h12 : t1 ≤ t2) (hgap : t2 - t1 < 2 ^ 32) :
    gpio_irq_handler s gpio t1 = irq_dispatch { s with last_press := t1 % 2 ^ 32 } gpio ∧
    (t2 - t1 < 250 →
      debounced (gpio_irq_handler s gpio t1) t2 = true ∧
      gpio_irq_handler (gpio_irq_handler s gpio t1) gpio t2 = gpio_irq_handler s gpio t1) ∧
    (250 ≤ t2 - t1 →
      debounced (gpio_irq_handler s gpio t1) t2 = false ∧
      gpio_irq_handler (gpio_irq_handler s gpio t1) gpio t2
        = irq_dispatch { gpio_irq_handler s gpio t1 with last_press := t2 % 2 ^ 32 } gpio) := by
  have hd := debounced_after_accept s gpio t1 t2 hacc h12 hgap
  refine ⟨gpio_irq_handler_accepted s gpio t1 hacc, ?_, ?_⟩
  · intro hlt
    have h2 : debounced (gpio_irq_handler s gpio t1) t2 = true := by
      rw [hd]; exact decide_eq_true hlt
    exact ⟨h2, gpio_irq_handler_dropped _ gpio t2 h2⟩
  · intro hge
    have h2 : debounced (gpio_irq_handler s gpio t1) t2 = false := by
      rw [hd]; exact decide_eq_false (by omega)
    exact ⟨h2, gpio_irq_handler_accepted _ gpio t2 h2⟩

/-- C11 (amended) on button A from the start-up state: pressed at 1000 ms and again at
1100 ms, the menu goes to the monitoring screen once and the second press
changes nothing; pressed at 1000 ms and again at 1250 ms, both are accepted
and the second press advances the subscreen. -/
theorem C11_debounce_pair_witness :
    debounced IrqState.init 1000 = false ∧
    gpio_irq_handler IrqState.init BOTAO_A 1000 = ⟨TELA_MONITORAMENTO, 0, 0, 1000⟩ ∧
    gpio_irq_handler (gpio_irq_handler IrqState.init BOTAO_A 1000) BOTAO_A 1100
      = gpio_irq_handler IrqState.init BOTAO_A 1000 ∧
    gpio_irq_handler (gpio_irq_handler IrqState.init BOTAO_A 1000) BOTAO_A 1250
      = ⟨TELA_MONITORAMENTO, 1, 0, 1250⟩ :=
  ⟨by decide, by decide,
   ((C11_debounce_pair IrqState.init BOTAO_A 1000 1100 (by decide) (by decide)
      (by decide)).2.1 (by decide)).2,
   ((C11_debounce_pair IrqState.init BOTAO_A 1000 1250 (by decide) (by decide)
      (by decide)).2.2 (by decide)).2.trans (by decide)⟩

/-- The length of concatenated literals is the sum of their lengths. -/
theorem concatLines_length (l : List String) :
    (concatLines l).length = (l.map (fun s => s.toList.length)).sum := by
  induction l with
  | nil => rfl
  | cons s rest ih => simp only [concatLines, List.length_append, ih, List.map_cons, List.sum_cons]

set_option maxRecDepth 100000 in
/-- `strlen(HTML_PAGE)`. -/
theorem HTML_PAGE_length : HTML_PAGE.length = 3523 := by
  unfold HTML_PAGE
  rw [concatLines_length]
  decide

/-- A successful `strncmp` test gives the prefix. -/
theorem take_of_strncmp_eq (req lit : List Char) (n : Nat) (hn : lit.length = n)
    (h : strncmp_eq req lit n = true) : req.take n = lit := by
  unfold strncmp_eq at h
  rw [beq_iff_eq] at h
  rw [h, List.take_of_length_le (by omega)]

/-- On a request that is neither for `/data` nor for `/settings`, `http_recv`
leaves the limits alone and sends the dashboard document with its exact length
as `Content-Length`: 3589 bytes in all. -/
theorem http_recv_dashboard (r : Reading) (alerta : Bool) (t : Thresholds) (req : List Char)
    (h9 : strncmp_eq req "GET /data".toList 9 = false)
    (h13 : strncmp_eq req "GET /settings".toList 13 = false) :
    http_recv_payload r alerta t req
      = (t, { response := htmlResponse HTML_PAGE, len := 3589, sent := 0 }) := by
  have hdig : (fmtNat 3523).length = 4 := by decide
  have hlen : (htmlResponse HTML_PAGE).length = 3589 := by
    rw [htmlResponse_length, HTML_PAGE_length, hdig]
  have hresp : snprintf 4096 RESPONSE_HTML_FORMAT [.int (HTML_PAGE.length : Int), .str HTML_PAGE]
      = (htmlResponse HTML_PAGE, 3589) := by
    unfold snprintf
    rw [vformat_RESPONSE_HTML_FORMAT, take_pred_eq_self _ _ (by rw [hlen]; decide), hlen]
  unfold http_recv_payload
  simp only [h9, h13, Bool.false_eq_true, if_false, hresp, mkState]

/-- The `/data` response for a reading in `float` range has at most 295
bytes. -/
theorem dataResponse_length_le (r : Reading) (alerta : Bool)
    (hrange : r.inFloatRange = true) :
    (dataResponse (dataBody (fmtFixed 2 r.temperatura_bmp) (fmtFixed 2 r.umidade_aht)
      (fmtFixed 2 r.pressao_bmp) (fmtFixed 2 r.altitude_bmp) alerta)).length ≤ 295 := by
  simp only [Reading.inFloatRange, Bool.and_eq_true] at hrange
  obtain ⟨⟨⟨hT, hH⟩, hP⟩, hA⟩ := hrange
  have lT := fmtFixed_length_le 2 _ hT
  have lH := fmtFixed_length_le 2 _ hH
  have lP := fmtFixed_length_le 2 _ hP
  have lA := fmtFixed_length_le 2 _ hA
  simp only [show (2 : Nat) = 0 ↔ False from by decide, if_false] at lT lH lP lA
  generalize hbody : dataBody (fmtFixed 2 r.temperatura_bmp) (fmtFixed 2 r.umidade_aht)
    (fmtFixed 2 r.pressao_bmp) (fmtFixed 2 r.altitude_bmp) alerta = body
  have hbl : body.length ≤ 223 := by
    rw [← hbody, dataBody_length]
    split <;> omega
  have hdig : (fmtNat body.length).length ≤ 3 :=
    natDigits_length_le _ _ 3 (by norm_num; omega) (by decide)
  rw [dataResponse_length]
  omega

/-- The settings-form response for limits in `float` range has at most 2438
bytes. -/
theorem settingsResponse_length_le (t : Thresholds) (hrange : t.inFloatRange = true) :
    (htmlResponse (settingsPage t)).length ≤ 2438 := by
  simp only [Thresholds.inFloatRange, Bool.and_eq_true] at hrange
  obtain ⟨⟨⟨⟨⟨h1, h2⟩, h3⟩, h4⟩, h5⟩, h6⟩ := hrange
  have l1 := fmtFixed_length_le 1 _ h1
  have l2 := fmtFixed_length_le 1 _ h2
  have l3 := fmtFixed_length_le 0 _ h3
  have l4 := fmtFixed_length_le 0 _ h4
  have l5 := fmtFixed_length_le 0 _ h5
  have l6 := fmtFixed_length_le 0 _ h6
  simp only [show (1 : Nat) = 0 ↔ False from by decide, if_false, if_true] at l1 l2 l3 l4 l5 l6
  have hlen := settingsPage_length t
  generalize hpage : settingsPage t = page at hlen
  have hpl : page.length ≤ 2372 := by omega
  have hdig : (fmtNat page.length).length ≤ 4 :=
    natDigits_length_le _ _ 4 (by norm_num; omega) (by decide)
  rw [htmlResponse_length]
  omega

/-- The record `http_recv` hands to the transport, route by route, for a
reading and limits in `float` range: the response is complete (its length is
`len`), `sent` is 0 and `len` is at most 3589. -/
theorem http_recv_payload_len (r : Reading) (alerta : Bool) (t : Thresholds) (req : List Char)
    (hr : r.inFloatRange = true) (ht : t.inFloatRange = true) :
    (http_recv_payload r alerta t req).2.len ≤ 3589 ∧
    (http_recv_payload r alerta t req).2.sent = 0 ∧
    (http_recv_payload r alerta t req).2.response.length
      = (http_recv_payload r alerta t req).2.len := by
  cases h9 : strncmp_eq req "GET /data".toList 9 with
  | true =>
    rw [http_recv_data r alerta t req (take_of_strncmp_eq req _ 9 (by decide) h9) hr]
    have := dataResponse_length_le r alerta hr
    refine ⟨?_, rfl, rfl⟩
    simp only
    omega
  | false =>
    cases h13 : strncmp_eq req "GET /settings".toList 13 with
    | true =>
      have hreq := take_of_strncmp_eq req _ 13 (by decide) h13
      by_cases hq : '?' ∈ req
      · rw [http_recv_settings_query r alerta t req hreq hq]
        refine ⟨?_, rfl, ?_⟩
        · simp only
          omega
        · simp only
          decide
      · rw [http_recv_settings_form r alerta t req hreq hq ht]
        have := settingsResponse_length_le t ht
        refine ⟨?_, rfl, rfl⟩
        simp only
        omega
    | false =>
      rw [http_recv_dashboard r alerta t req h9 h13]
      have hdig : (fmtNat 3523).length = 4 := by decide
      refine ⟨le_refl _, rfl, ?_⟩
      show (htmlResponse HTML_PAGE).length = 3589
      rw [htmlResponse_length, HTML_PAGE_length, hdig]

/-- C14: for every request, every reading and alert flag and every limits
(the `float` values being in the range of `float`), `http_recv` hands a record
to the transport whose `len` is at most the 4096 bytes of `response` (at most
3589, the length of the dashboard response), whose `sent` is 0, so that
`sent <= len`, and whose `response` holds the whole output: none of the four
responses is cut short.  With a null `p` no record is made. -/
theorem C14_response_length (r : Reading) (alerta : Bool) (t : Thresholds) (req : List Char)
    (hr : r.inFloatRange = true) (ht : t.inFloatRange = true) :
    (∃ hs : http_state, (http_recv r alerta t (some req)).2 = some hs ∧
      hs.len ≤ 4096 ∧ hs.len ≤ 3589 ∧ hs.sent = 0 ∧ hs.sent ≤ hs.len ∧
      hs.response.length = hs.len) ∧
    (http_recv r alerta t none).2 = none := by
  obtain ⟨h1, h2, h3⟩ := http_recv_payload_len r alerta t req hr ht
  refine ⟨⟨(http_recv_payload r alerta t req).2, rfl, by omega, h1, h2, by omega, h3⟩, rfl⟩

set_option maxRecDepth 100000 in
/-- C14 on the reading of the example and the start-up limits, for a `/data`
request: the record has `len = 144`. -/
theorem C14_response_length_witness :
    readingExample.inFloatRange = true ∧ Thresholds.init.inFloatRange = true ∧
    (http_recv readingExample false Thresholds.init
        (some "GET /data HTTP/1.1\r\n\r\n".toList)).2.map (fun hs => hs.len) = some 144 ∧
    ∃ hs : http_state,
      (http_recv readingExample false Thresholds.init
        (some "GET /data HTTP/1.1\r\n\r\n".toList)).2 = some hs ∧
      hs.len ≤ 4096 ∧ hs.len ≤ 3589 ∧ hs.sent = 0 ∧ hs.sent ≤ hs.len ∧
      hs.response.length = hs.len :=
  ⟨by decide, by decide, by decide,
   (C14_response_length readingExample false Thresholds.init
      "GET /data HTTP/1.1\r\n\r\n".toList (by decide) (by decide)).1⟩

/-! ## Monotonicity of the binary rounding -/

/-- The rounded quotient lies between the floor of the quotient and its
successor. -/
theorem roundHalfEvenDiv_floor (a b : Nat) :
    a / b ≤ roundHalfEvenDiv a b ∧ roundHalfEvenDiv a b ≤ a / b + 1 := by
  unfold roundHalfEvenDiv
  simp only
  split
  · omega
  · split
    · omega
    · split <;> omega

/-- Rounding to the nearest integer is monotone in the quotient. -/
theorem roundHalfEvenDiv_mono (a1 b1 a2 b2 : Nat) (hb1 : 0 < b1) (hb2 : 0 < b2)
    (h : a1 * b2 ≤ a2 * b1) : roundHalfEvenDiv a1 b1 ≤ roundHalfEvenDiv a2 b2 := by
  have hd1 := Nat.div_add_mod a1 b1
  have hd2 := Nat.div_add_mod a2 b2
  have hr1 : a1 % b1 < b1 := Nat.mod_lt _ hb1
  have hr2 : a2 % b2 < b2 := Nat.mod_lt _ hb2
  have hq : a1 / b1 ≤ a2 / b2 := by
    rw [Nat.le_div_iff_mul_le hb2]
    have h1 : a1 / b1 * b1 ≤ a1 := Nat.div_mul_le_self a1 b1
    have h2 : a1 / b1 * b2 * b1 ≤ a2 * b1 := by
      calc a1 / b1 * b2 * b1 = a1 / b1 * b1 * b2 := by ring
        _ ≤ a1 * b2 := Nat.mul_le_mul_right _ h1
        _ ≤ a2 * b1 := h
    exact Nat.le_of_mul_le_mul_right h2 hb1
  have hf1 := roundHalfEvenDiv_floor a1 b1
  have hf2 := roundHalfEvenDiv_floor a2 b2
  rcases Nat.lt_or_ge (a1 / b1) (a2 / b2) with hlt | hge
  · omega
  · have heq : a1 / b1 = a2 / b2 := le_antisymm hq hge
    -- the remainders are ordered like the quotients
    have hr : a1 % b1 * b2 ≤ a2 % b2 * b1 := by
      have e1 : a1 * b2 = b1 * b2 * (a1 / b1) + a1 % b1 * b2 := by
        conv_lhs => rw [← hd1]
        ring
      have e2 : a2 * b1 = b1 * b2 * (a1 / b1) + a2 % b2 * b1 := by
        conv_lhs => rw [← hd2, ← heq]
        ring
      omega
    unfold roundHalfEvenDiv
    simp only
    rw [heq]
    by_cases c1 : 2 * (a1 % b1) < b1
    · rw [if_pos c1]
      split
      · exact le_refl _
      · split
        · omega
        · split <;> omega
    · rw [if_neg c1]
      have hge2 : b2 ≤ 2 * (a2 % b2) := by
        have h3 : b1 * b2 ≤ 2 * (a1 % b1) * b2 := Nat.mul_le_mul_right _ (by omega)
        have h4 : 2 * (a1 % b1) * b2 = 2 * (a1 % b1 * b2) := by ring
        have h5 : b1 * b2 ≤ 2 * (a2 % b2) * b1 := by
          calc b1 * b2 ≤ 2 * (a1 % b1 * b2) := by omega
            _ ≤ 2 * (a2 % b2 * b1) := by omega
            _ = 2 * (a2 % b2) * b1 := by ring
        have h6 : b2 * b1 ≤ 2 * (a2 % b2) * b1 := by rw [Nat.mul_comm b2 b1]; exact h5
        exact Nat.le_of_mul_le_mul_right h6 hb1
      rw [if_neg (by omega : ¬ 2 * (a2 % b2) < b2)]
      by_cases c2 : b1 < 2 * (a1 % b1)
      · rw [if_pos c2]
        have hgt2 : b2 < 2 * (a2 % b2) := by
          have h3 : b1 * b2 < 2 * (a1 % b1) * b2 := Nat.mul_lt_mul_of_pos_right c2 hb2
          have h4 : 2 * (a1 % b1) * b2 = 2 * (a1 % b1 * b2) := by ring
          have h5 : b2 * b1 < 2 * (a2 % b2) * b1 := by
            calc b2 * b1 = b1 * b2 := Nat.mul_comm _ _
              _ < 2 * (a1 % b1 * b2) := by omega
              _ ≤ 2 * (a2 % b2 * b1) := by omega
              _ = 2 * (a2 % b2) * b1 := by ring
          exact Nat.lt_of_mul_lt_mul_right h5
        rw [if_pos hgt2]
      · rw [if_neg c2]
        split_ifs <;> omega

/-- A power of two with an integer exponent, as a quotient of two powers with
natural exponents (one of which is 1). -/
theorem two_zpow_split (e : Int) :
    (2 : ℚ) ^ e = ((2 ^ e.toNat : Nat) : ℚ) / ((2 ^ (-e).toNat : Nat) : ℚ) := by
  rcases le_or_lt 0 e with he | he
  · have h0 : (-e).toNat = 0 := by omega
    rw [h0]
    conv_lhs => rw [← Int.toNat_of_nonneg he]
    rw [zpow_natCast]
    push_cast
    simp
  · have h0 : e.toNat = 0 := by omega
    have h1 : e = -((-e).toNat : Int) := by omega
    rw [h0]
    conv_lhs => rw [h1]
    rw [zpow_neg, zpow_natCast]
    push_cast
    simp

/-- The leading bit found by halving is the leading bit. -/
theorem log2Fuel_lt : ∀ (fuel n : Nat), n ≤ fuel → n < 2 ^ (log2Fuel fuel n + 1) := by
  intro fuel
  induction fuel with
  | zero =>
    intro n h
    show n < 2 ^ (0 + 1)
    omega
  | succ fuel ih =>
    intro n h
    unfold log2Fuel
    split
    · simp; omega
    · have := ih (n / 2) (by omega)
      rw [pow_succ] at this ⊢
      omega

/-- The exponent computed for a ratio is more than its binary logarithm minus
one. -/
theorem floorLog2Ratio_lt (n d : Nat) (hn : 0 < n) (hd : 0 < d) :
    (n : ℚ) / d < (2 : ℚ) ^ (floorLog2Ratio n d + 1) := by
  have hdq : (0 : ℚ) < d := by exact_mod_cast hd
  have ha : (n : ℚ) < (2 : ℚ) ^ ((log2Fuel n n : Int) + 1) := by
    have := log2Fuel_lt n n (le_refl _)
    have h2 : ((n : Nat) : ℚ) < ((2 ^ (log2Fuel n n + 1) : Nat) : ℚ) := by exact_mod_cast this
    push_cast at h2
    rw [show ((log2Fuel n n : Int) + 1) = ((log2Fuel n n + 1 : Nat) : Int) by push_cast; rfl,
      zpow_natCast]
    exact h2
  have hb : (2 : ℚ) ^ (log2Fuel d d : Int) ≤ (d : ℚ) := by
    have := log2Fuel_le d d hd (le_refl _)
    have h2 : ((2 ^ log2Fuel d d : Nat) : ℚ) ≤ ((d : Nat) : ℚ) := by exact_mod_cast this
    push_cast at h2
    rw [zpow_natCast]
    exact h2
  have hupper : (n : ℚ) / d < (2 : ℚ) ^ (((log2Fuel n n : Int) - (log2Fuel d d : Int)) + 1) := by
    have h2pos : (0 : ℚ) < (2 : ℚ) ^ (log2Fuel d d : Int) := by positivity
    rw [show ((log2Fuel n n : Int) - (log2Fuel d d : Int)) + 1
        = ((log2Fuel n n : Int) + 1) - (log2Fuel d d : Int) by ring,
      zpow_sub₀ (by norm_num : (2 : ℚ) ≠ 0)]
    rw [div_lt_div_iff₀ hdq h2pos]
    calc (n : ℚ) * (2 : ℚ) ^ (log2Fuel d d : Int) ≤ (n : ℚ) * d :=
          mul_le_mul_of_nonneg_left hb (by positivity)
      _ < (2 : ℚ) ^ ((log2Fuel n n : Int) + 1) * d := mul_lt_mul_of_pos_right ha hdq
  -- when the comparison fails, the ratio is below `2 ^ e0`
  have hfail : ∀ e : Int, ¬ (d * 2 ^ e.toNat ≤ n * 2 ^ (-e).toNat) →
      (n : ℚ) / d < (2 : ℚ) ^ e := by
    intro e hlt
    have hlt2 : n * 2 ^ (-e).toNat < d * 2 ^ e.toNat := by omega
    have hq : ((n * 2 ^ (-e).toNat : Nat) : ℚ) < ((d * 2 ^ e.toNat : Nat) : ℚ) := by
      exact_mod_cast hlt2
    rw [two_zpow_split, div_lt_div_iff₀ hdq (by positivity)]
    push_cast at hq ⊢
    linarith
  unfold floorLog2Ratio
  simp only
  split
  · rename_i hge
    have h0 : (-((log2Fuel n n : Int) - (log2Fuel d d : Int))).toNat = 0 := by omega
    split
    · exact hupper
    · rename_i htest
      rw [sub_add_cancel]
      apply hfail
      rw [h0, pow_zero, Nat.mul_one]
      exact htest
  · rename_i hlt
    have h0 : ((log2Fuel n n : Int) - (log2Fuel d d : Int)).toNat = 0 := by omega
    split
    · exact hupper
    · rename_i htest
      rw [sub_add_cancel]
      apply hfail
      rw [h0, pow_zero, Nat.mul_one]
      exact htest

/-- The significand for a scale is monotone in the value. -/
theorem binMant_mono (n1 d1 n2 d2 : Nat) (t : Int) (hd1 : 0 < d1) (hd2 : 0 < d2)
    (h : n1 * d2 ≤ n2 * d1) : binMant n1 d1 t ≤ binMant n2 d2 t := by
  unfold binMant
  split
  · apply roundHalfEvenDiv_mono _ _ _ _ (by positivity) (by positivity)
    calc n1 * (d2 * 2 ^ t.toNat) = n1 * d2 * 2 ^ t.toNat := by ring
      _ ≤ n2 * d1 * 2 ^ t.toNat := Nat.mul_le_mul_right _ h
      _ = n2 * (d1 * 2 ^ t.toNat) := by ring
  · apply roundHalfEvenDiv_mono _ _ _ _ hd1 hd2
    calc n1 * 2 ^ (-t).toNat * d2 = n1 * d2 * 2 ^ (-t).toNat := by ring
      _ ≤ n2 * d1 * 2 ^ (-t).toNat := Nat.mul_le_mul_right _ h
      _ = n2 * 2 ^ (-t).toNat * d1 := by ring

/-- The significand of `K * 2^t` for the scale `2^t` is `K`. -/
theorem binMant_exact (K : Nat) (t : Int) :
    binMant (K * 2 ^ t.toNat) (2 ^ (-t).toNat) t = K := by
  unfold binMant
  split
  · rename_i h
    have h0 : (-t).toNat = 0 := by omega
    rw [h0, pow_zero, Nat.one_mul]
    exact roundHalfEvenDiv_exact _ _ (by positivity)
  · rename_i h
    have h0 : t.toNat = 0 := by omega
    rw [h0, pow_zero, Nat.mul_one]
    exact roundHalfEvenDiv_exact _ _ (by positivity)

/-- The order of a ratio and `K * 2^t`, without fractions. -/
theorem ratio_le_scaled (n d K : Nat) (t : Int) (hd : 0 < d) :
    ((n : ℚ) / d ≤ K * (2 : ℚ) ^ t ↔ n * 2 ^ (-t).toNat ≤ K * 2 ^ t.toNat * d) ∧
    ((K : ℚ) * (2 : ℚ) ^ t ≤ (n : ℚ) / d ↔ K * 2 ^ t.toNat * d ≤ n * 2 ^ (-t).toNat) := by
  have hdq : (0 : ℚ) < d := by exact_mod_cast hd
  have hB : (0 : ℚ) < ((2 ^ (-t).toNat : Nat) : ℚ) := by positivity
  rw [two_zpow_split, ← mul_div_assoc, div_le_div_iff₀ hdq hB, div_le_div_iff₀ hB hdq]
  constructor
  · rw [← Nat.cast_mul, ← Nat.cast_mul, ← Nat.cast_mul, Nat.cast_le]
  · rw [← Nat.cast_mul, ← Nat.cast_mul, ← Nat.cast_mul, Nat.cast_le]

/-- A value that is at most `K * 2^t` has a significand of at most `K`. -/
theorem binMant_le (n d K : Nat) (t : Int) (hd : 0 < d)
    (h : (n : ℚ) / d ≤ K * (2 : ℚ) ^ t) : binMant n d t ≤ K := by
  have h1 := (ratio_le_scaled n d K t hd).1.1 h
  have := binMant_mono n d (K * 2 ^ t.toNat) (2 ^ (-t).toNat) t hd (by positivity) h1
  rwa [binMant_exact] at this

/-- A value that is at least `K * 2^t` has a significand of at least `K`. -/
theorem binMant_ge (n d K : Nat) (t : Int) (hd : 0 < d)
    (h : (K : ℚ) * (2 : ℚ) ^ t ≤ (n : ℚ) / d) : K ≤ binMant n d t := by
  have h1 := (ratio_le_scaled n d K t hd).2.1 h
  have := binMant_mono (K * 2 ^ t.toNat) (2 ^ (-t).toNat) n d t (by positivity) hd h1
  rwa [binMant_exact] at this

/-- The order `<=` on two numbers. -/
theorem CFloat.le_fin (a b : ℚ) : CFloat.le (.fin a) (.fin b) = true ↔ a ≤ b := by
  simp only [CFloat.le, CFloat.lt, CFloat.feq, Bool.or_eq_true, decide_eq_true_eq]
  exact le_iff_lt_or_eq.symm

/-- Plus infinity is above every value but NaN. -/
theorem CFloat.le_inf (x : CFloat) (hx : x ≠ .nan) : CFloat.le x (.inf false) = true := by
  cases x with
  | nan => exact absurd rfl hx
  | inf n => cases n <;> rfl
  | fin q => rfl

/-- Minus infinity is below every value but NaN. -/
theorem CFloat.inf_le (x : CFloat) (hx : x ≠ .nan) : CFloat.le (.inf true) x = true := by
  cases x with
  | nan => exact absurd rfl hx
  | inf n => cases n <;> rfl
  | fin q => rfl

/-- Two values in the order `<=` are not NaN. -/
theorem CFloat.ne_nan_of_le (a b : CFloat) (h : CFloat.le a b = true) :
    a ≠ .nan ∧ b ≠ .nan := by
  cases a <;> cases b <;> simp_all [CFloat.le, CFloat.lt, CFloat.feq]

/-- The order `<=` is reflexive on values other than NaN. -/
theorem CFloat.le_refl (a : CFloat) (h : a ≠ .nan) : CFloat.le a a = true := by
  cases a with
  | nan => exact absurd rfl h
  | inf n => cases n <;> rfl
  | fin q => exact (CFloat.le_fin q q).2 le_rfl

/-- The order `<=` is transitive. -/
theorem CFloat.le_trans (a b c : CFloat) (h1 : CFloat.le a b = true)
    (h2 : CFloat.le b c = true) : CFloat.le a c = true := by
  cases a with
  | nan => simp [CFloat.le, CFloat.lt, CFloat.feq] at h1
  | inf n1 =>
    cases b with
    | nan => simp [CFloat.le, CFloat.lt, CFloat.feq] at h1
    | inf n2 =>
      cases c with
      | nan => simp [CFloat.le, CFloat.lt, CFloat.feq] at h2
      | inf n3 => revert h1 h2; cases n1 <;> cases n2 <;> cases n3 <;> decide
      | fin q3 => revert h1 h2; cases n1 <;> cases n2 <;> simp [CFloat.le, CFloat.lt, CFloat.feq]
    | fin q2 =>
      cases c with
      | nan => simp [CFloat.le, CFloat.lt, CFloat.feq] at h2
      | inf n3 => revert h1 h2; cases n1 <;> cases n3 <;> simp [CFloat.le, CFloat.lt, CFloat.feq]
      | fin q3 => revert h1; cases n1 <;> simp [CFloat.le, CFloat.lt, CFloat.feq]
  | fin q1 =>
    cases b with
    | nan => simp [CFloat.le, CFloat.lt, CFloat.feq] at h1
    | inf n2 =>
      cases c with
      | nan => simp [CFloat.le, CFloat.lt, CFloat.feq] at h2
      | inf n3 => revert h1 h2; cases n2 <;> cases n3 <;> simp [CFloat.le, CFloat.lt, CFloat.feq]
      | fin q3 => revert h1 h2; cases n2 <;> simp [CFloat.le, CFloat.lt, CFloat.feq]
    | fin q2 =>
      cases c with
      | nan => simp [CFloat.le, CFloat.lt, CFloat.feq] at h2
      | inf n3 => revert h2; cases n3 <;> simp [CFloat.le, CFloat.lt, CFloat.feq]
      | fin q3 =>
        rw [CFloat.le_fin] at h1 h2 ⊢
        exact h1.trans h2

/-- The magnitude `roundBinary` builds from the significand `m` and the scale
`2^t`. -/
theorem mkRat_scaled (m : Nat) (t : Int) :
    (if t ≥ 0 then mkRat (m * 2 ^ t.toNat : Nat) 1 else mkRat (m : Nat) (2 ^ (-t).toNat))
      = (m : ℚ) * (2 : ℚ) ^ t := by
  rw [two_zpow_split]
  split
  · rename_i h
    have h0 : (-t).toNat = 0 := by omega
    rw [Rat.mkRat_eq_div, h0]
    push_cast
    simp
  · rename_i h
    have h0 : t.toNat = 0 := by omega
    rw [Rat.mkRat_eq_div, h0]
    push_cast
    simp [div_eq_mul_inv]

/-- What `roundBinary` returns for a value other than zero: an infinity when
the exponent or the rounded significand is beyond the format, else the
significand times the scale, with the sign. -/
theorem roundBinary_eq (p emax : Nat) (neg : Bool) (n d : Nat) (hn : n ≠ 0) :
    roundBinary p emax neg n d =
      if (emax : Int) < binExp emax n d ∨
          (binExp emax n d = (emax : Int) ∧
            2 ^ p ≤ binMant n d (binExp emax n d - ((p : Int) - 1))) then .inf neg
      else .fin (if neg then
          -((binMant n d (binExp emax n d - ((p : Int) - 1)) : ℚ)
            * (2 : ℚ) ^ (binExp emax n d - ((p : Int) - 1)))
        else (binMant n d (binExp emax n d - ((p : Int) - 1)) : ℚ)
            * (2 : ℚ) ^ (binExp emax n d - ((p : Int) - 1))) := by
  have hE : max (floorLog2Ratio n d) (1 - (emax : Int)) = binExp emax n d := rfl
  have hM : ∀ t : Int, (if t ≥ 0 then roundHalfEvenDiv n (d * 2 ^ t.toNat)
      else roundHalfEvenDiv (n * 2 ^ (-t).toNat) d) = binMant n d t := fun _ => rfl
  unfold roundBinary
  rw [if_neg hn]
  simp only [hE, hM, mkRat_scaled]
  by_cases hov : (emax : Int) < binExp emax n d ∨
      (binExp emax n d = (emax : Int) ∧
        2 ^ p ≤ binMant n d (binExp emax n d - ((p : Int) - 1)))
  · rw [if_pos hov, if_pos]
    simp only [Bool.or_eq_true, Bool.and_eq_true, decide_eq_true_eq]
    exact hov
  · rw [if_neg hov, if_neg]
    simp only [Bool.or_eq_true, Bool.and_eq_true, decide_eq_true_eq]
    exact hov

/-- A natural power of two times an integer power of two. -/
theorem two_pow_mul_zpow (k : Nat) (t : Int) :
    ((2 ^ k : Nat) : ℚ) * (2 : ℚ) ^ t = (2 : ℚ) ^ ((k : Int) + t) := by
  rw [zpow_add₀ (by norm_num : (2 : ℚ) ≠ 0), zpow_natCast]
  push_cast
  rfl

/-- The exponent and the significand `roundBinary` works with: the exponent
is at least the least exponent of the format, the value is below
`2^(e+1)`, so the significand is at most `2^p`; above the least exponent the
value is at least `2^e`, so the significand is at least `2^(p-1)`. -/
theorem binExp_facts (p emax n d : Nat) (hp : 1 ≤ p) (hn : 0 < n) (hd : 0 < d) :
    1 - (emax : Int) ≤ binExp emax n d ∧
    (n : ℚ) / d < (2 : ℚ) ^ (binExp emax n d + 1) ∧
    binMant n d (binExp emax n d - ((p : Int) - 1)) ≤ 2 ^ p ∧
    (1 - (emax : Int) < binExp emax n d →
      floorLog2Ratio n d = binExp emax n d ∧
      (2 : ℚ) ^ binExp emax n d ≤ (n : ℚ) / d ∧
      2 ^ (p - 1) ≤ binMant n d (binExp emax n d - ((p : Int) - 1))) := by
  have h2 : (1 : ℚ) < 2 := by norm_num
  have hlo := floorLog2Ratio_le n d hn hd
  have hhi := floorLog2Ratio_lt n d hn hd
  have hmax : floorLog2Ratio n d ≤ binExp emax n d := le_max_left _ _
  have hmin : 1 - (emax : Int) ≤ binExp emax n d := le_max_right _ _
  have hlt : (n : ℚ) / d < (2 : ℚ) ^ (binExp emax n d + 1) :=
    lt_of_lt_of_le hhi ((zpow_le_zpow_iff_right₀ h2).2 (by omega))
  refine ⟨hmin, hlt, ?_, ?_⟩
  · apply binMant_le n d (2 ^ p) _ hd
    rw [two_pow_mul_zpow]
    have : (p : Int) + (binExp emax n d - ((p : Int) - 1)) = binExp emax n d + 1 := by ring
    rw [this]
    exact le_of_lt hlt
  · intro hgt
    have heq : floorLog2Ratio n d = binExp emax n d := by
      unfold binExp at hgt ⊢
      rcases le_total (floorLog2Ratio n d) (1 - (emax : Int)) with h | h
      · rw [max_eq_right h] at hgt
        exact absurd hgt (lt_irrefl _)
      · rw [max_eq_left h]
    have hle : (2 : ℚ) ^ binExp emax n d ≤ (n : ℚ) / d := by rw [← heq]; exact hlo
    refine ⟨heq, hle, ?_⟩
    apply binMant_ge n d (2 ^ (p - 1)) _ hd
    rw [two_pow_mul_zpow]
    have : ((p - 1 : Nat) : Int) + (binExp emax n d - ((p : Int) - 1)) = binExp emax n d := by
      omega
    rw [this]
    exact hle

/-- The exponent selected is monotone in the value. -/
theorem binExp_mono (emax n1 d1 n2 d2 : Nat) (hn1 : 0 < n1) (hd1 : 0 < d1) (hn2 : 0 < n2)
    (hd2 : 0 < d2) (h : (n1 : ℚ) / d1 ≤ (n2 : ℚ) / d2) :
    binExp emax n1 d1 ≤ binExp emax n2 d2 := by
  have h2 : (1 : ℚ) < 2 := by norm_num
  have hlo := floorLog2Ratio_le n1 d1 hn1 hd1
  have hhi := floorLog2Ratio_lt n2 d2 hn2 hd2
  have : floorLog2Ratio n1 d1 < floorLog2Ratio n2 d2 + 1 :=
    (zpow_lt_zpow_iff_right₀ h2).1 (lt_of_le_of_lt (hlo.trans h) hhi)
  unfold binExp
  exact max_le_max (by omega) le_rfl

/-- The rounding of magnitudes is monotone: a larger value does not round to
a smaller one, and overflows if the smaller one does. -/
theorem roundBinary_mono (p emax n1 d1 n2 d2 : Nat) (hp : 1 ≤ p) (hd1 : 0 < d1)
    (hd2 : 0 < d2) (h : n1 * d2 ≤ n2 * d1) :
    CFloat.le (roundBinary p emax false n1 d1) (roundBinary p emax false n2 d2) = true := by
  have h2 : (1 : ℚ) < 2 := by norm_num
  have hpos2 : ∀ (n d : Nat), n ≠ 0 → 0 < d →
      CFloat.le (.fin 0) (roundBinary p emax false n d) = true := by
    intro n d hn hd
    rw [roundBinary_eq p emax false n d hn]
    split
    · rfl
    · rw [CFloat.le_fin]
      simp only [Bool.false_eq_true, if_false]
      positivity
  by_cases hn1 : n1 = 0
  · subst hn1
    have e1 : roundBinary p emax false 0 d1 = .fin 0 := by simp [roundBinary]
    rw [e1]
    by_cases hn2 : n2 = 0
    · subst hn2
      have e2 : roundBinary p emax false 0 d2 = .fin 0 := by simp [roundBinary]
      rw [e2]
      exact CFloat.le_refl _ (by simp)
    · exact hpos2 n2 d2 hn2 hd2
  have hn1p : 0 < n1 := Nat.pos_of_ne_zero hn1
  have hn2p : 0 < n2 := by
    rcases Nat.eq_zero_or_pos n2 with h0 | h0
    · subst h0
      have : 0 < n1 * d2 := Nat.mul_pos hn1p hd2
      omega
    · exact h0
  have hn2 : n2 ≠ 0 := Nat.pos_iff_ne_zero.1 hn2p
  have hd1q : (0 : ℚ) < d1 := by exact_mod_cast hd1
  have hd2q : (0 : ℚ) < d2 := by exact_mod_cast hd2
  have hv : (n1 : ℚ) / d1 ≤ (n2 : ℚ) / d2 := by
    rw [div_le_div_iff₀ hd1q hd2q]
    exact_mod_cast h
  have he := binExp_mono emax n1 d1 n2 d2 hn1p hd1 hn2p hd2 hv
  obtain ⟨hmin1, hlt1, hm1, -⟩ := binExp_facts p emax n1 d1 hp hn1p hd1
  obtain ⟨hmin2, hlt2, hm2, hnorm2⟩ := binExp_facts p emax n2 d2 hp hn2p hd2
  rw [roundBinary_eq p emax false n1 d1 hn1, roundBinary_eq p emax false n2 d2 hn2]
  simp only [Bool.false_eq_true, if_false]
  rcases eq_or_lt_of_le he with heq | hlt
  · -- same exponent: the significands are ordered
    have hm := binMant_mono n1 d1 n2 d2 (binExp emax n1 d1 - ((p : Int) - 1)) hd1 hd2 h
    rw [← heq]
    split_ifs with c1 c2 c2
    · rfl
    · exfalso
      apply c2
      rcases c1 with c | ⟨c, c'⟩
      · exact Or.inl c
      · exact Or.inr ⟨c, c'.trans hm⟩
    · rfl
    · rw [CFloat.le_fin]
      have : (binMant n1 d1 (binExp emax n1 d1 - ((p : Int) - 1)) : ℚ)
          ≤ (binMant n2 d2 (binExp emax n1 d1 - ((p : Int) - 1)) : ℚ) := by exact_mod_cast hm
      exact mul_le_mul_of_nonneg_right this (by positivity)
  · -- a larger exponent: a power of two lies between the two results
    obtain ⟨-, hle2, hmn2⟩ := hnorm2 (by omega)
    split_ifs with c1 c2 c2
    · rfl
    · exfalso
      apply c2
      left
      rcases c1 with c | ⟨c, -⟩ <;> omega
    · rfl
    · rw [CFloat.le_fin]
      have hm1q : (binMant n1 d1 (binExp emax n1 d1 - ((p : Int) - 1)) : ℚ)
          ≤ ((2 ^ p : Nat) : ℚ) := by exact_mod_cast hm1
      have hm2q : ((2 ^ (p - 1) : Nat) : ℚ)
          ≤ (binMant n2 d2 (binExp emax n2 d2 - ((p : Int) - 1)) : ℚ) := by exact_mod_cast hmn2
      calc (binMant n1 d1 (binExp emax n1 d1 - ((p : Int) - 1)) : ℚ)
              * (2 : ℚ) ^ (binExp emax n1 d1 - ((p : Int) - 1))
          ≤ ((2 ^ p : Nat) : ℚ) * (2 : ℚ) ^ (binExp emax n1 d1 - ((p : Int) - 1)) :=
            mul_le_mul_of_nonneg_right hm1q (by positivity)
        _ = (2 : ℚ) ^ (binExp emax n1 d1 + 1) := by
            rw [two_pow_mul_zpow]; congr 1; ring
        _ ≤ (2 : ℚ) ^ (binExp emax n2 d2) := (zpow_le_zpow_iff_right₀ h2).2 (by omega)
        _ = ((2 ^ (p - 1) : Nat) : ℚ) * (2 : ℚ) ^ (binExp emax n2 d2 - ((p : Int) - 1)) := by
            rw [two_pow_mul_zpow]; congr 1; omega
        _ ≤ (binMant n2 d2 (binExp emax n2 d2 - ((p : Int) - 1)) : ℚ)
              * (2 : ℚ) ^ (binExp emax n2 d2 - ((p : Int) - 1)) :=
            mul_le_mul_of_nonneg_right hm2q (by positivity)

/-! ## Rounding of signed values -/

/-- Rounding with the sign is the rounding of the magnitude, negated. -/
theorem roundBinary_neg (p emax n d : Nat) :
    roundBinary p emax true n d = (roundBinary p emax false n d).neg := by
  by_cases hn : n = 0
  · subst hn
    simp [roundBinary, CFloat.neg]
  · rw [roundBinary_eq p emax true n d hn, roundBinary_eq p emax false n d hn]
    split <;> simp [CFloat.neg]

/-- Negation reverses the order. -/
theorem CFloat.neg_le_neg (a b : CFloat) (h : CFloat.le a b = true) :
    CFloat.le b.neg a.neg = true := by
  cases a with
  | nan => simp [CFloat.le, CFloat.lt, CFloat.feq] at h
  | inf n1 =>
    cases b with
    | nan => simp [CFloat.le, CFloat.lt, CFloat.feq] at h
    | inf n2 => revert h; cases n1 <;> cases n2 <;> decide
    | fin q2 => revert h; cases n1 <;> simp [CFloat.le, CFloat.lt, CFloat.feq, CFloat.neg]
  | fin q1 =>
    cases b with
    | nan => simp [CFloat.le, CFloat.lt, CFloat.feq] at h
    | inf n2 => revert h; cases n2 <;> simp [CFloat.le, CFloat.lt, CFloat.feq, CFloat.neg]
    | fin q2 =>
      rw [CFloat.le_fin] at h
      simp only [CFloat.neg]
      rw [CFloat.le_fin]
      linarith

/-- A rounded magnitude is not negative. -/
theorem roundBinary_nonneg (p emax n d : Nat) :
    CFloat.le (.fin 0) (roundBinary p emax false n d) = true := by
  by_cases hn : n = 0
  · subst hn
    have e1 : roundBinary p emax false 0 d = .fin 0 := by simp [roundBinary]
    rw [e1]
    exact CFloat.le_refl _ (by simp)
  · rw [roundBinary_eq p emax false n d hn]
    split
    · rfl
    · rw [CFloat.le_fin]
      simp only [Bool.false_eq_true, if_false]
      positivity

/-- Rounding never gives NaN. -/
theorem roundRatio_ne_nan (p emax : Nat) (num : Int) (den : Nat) :
    roundRatio p emax num den ≠ .nan := by
  unfold roundRatio
  by_cases hn : num.natAbs = 0
  · rw [hn]
    simp [roundBinary]
  · rw [roundBinary_eq p emax _ _ den hn]
    split <;> simp

/-- Zero rounds to zero. -/
theorem roundRatio_zero (p emax : Nat) (den : Nat) : roundRatio p emax 0 den = .fin 0 := by
  simp [roundRatio, roundBinary]

/-- The rounding of a value that is not negative. -/
theorem roundRatio_of_nonneg (p emax : Nat) (num : Int) (den : Nat) (h : 0 ≤ num) :
    roundRatio p emax num den = roundBinary p emax false num.natAbs den := by
  unfold roundRatio
  rw [decide_eq_false (by omega)]

/-- The rounding of a negative value. -/
theorem roundRatio_of_neg (p emax : Nat) (num : Int) (den : Nat) (h : num < 0) :
    roundRatio p emax num den = (roundBinary p emax false num.natAbs den).neg := by
  unfold roundRatio
  rw [decide_eq_true h, roundBinary_neg]

/-- Rounding is monotone: a larger value does not round to a smaller one. -/
theorem roundRatio_mono (p emax : Nat) (num1 : Int) (den1 : Nat) (num2 : Int) (den2 : Nat)
    (hp : 1 ≤ p) (hd1 : 0 < den1) (hd2 : 0 < den2)
    (h : (num1 : ℚ) / den1 ≤ (num2 : ℚ) / den2) :
    CFloat.le (roundRatio p emax num1 den1) (roundRatio p emax num2 den2) = true := by
  have hd1q : (0 : ℚ) < den1 := by exact_mod_cast hd1
  have hd2q : (0 : ℚ) < den2 := by exact_mod_cast hd2
  have hz : num1 * den2 ≤ num2 * den1 := by
    rw [div_le_div_iff₀ hd1q hd2q] at h
    exact_mod_cast h
  rcases lt_or_le num1 0 with h1 | h1
  · rcases lt_or_le num2 0 with h2 | h2
    · rw [roundRatio_of_neg _ _ _ _ h1, roundRatio_of_neg _ _ _ _ h2]
      apply CFloat.neg_le_neg
      apply roundBinary_mono p emax _ _ _ _ hp hd2 hd1
      have e1 : (num1.natAbs : Int) = -num1 := by omega
      have e2 : (num2.natAbs : Int) = -num2 := by omega
      have : (num2.natAbs : Int) * den1 ≤ (num1.natAbs : Int) * den2 := by
        rw [e1, e2]; linarith
      exact_mod_cast this
    · rw [roundRatio_of_neg _ _ _ _ h1, roundRatio_of_nonneg _ _ _ _ h2]
      have a := CFloat.neg_le_neg _ _ (roundBinary_nonneg p emax num1.natAbs den1)
      have b := roundBinary_nonneg p emax num2.natAbs den2
      have e0 : (CFloat.fin 0).neg = .fin 0 := by simp [CFloat.neg]
      rw [e0] at a
      exact CFloat.le_trans _ _ _ a b
  · have h2 : 0 ≤ num2 := by
      by_contra hneg
      have hn2 : num2 < 0 := by omega
      have hpos : (0 : Int) < den1 := by exact_mod_cast hd1
      have hpos2 : (0 : Int) ≤ den2 := by omega
      have : num2 * den1 < 0 := mul_neg_of_neg_of_pos hn2 hpos
      have : 0 ≤ num1 * den2 := mul_nonneg h1 hpos2
      omega
    rw [roundRatio_of_nonneg _ _ _ _ h1, roundRatio_of_nonneg _ _ _ _ h2]
    apply roundBinary_mono p emax _ _ _ _ hp hd1 hd2
    have e1 : (num1.natAbs : Int) = num1 := by omega
    have e2 : (num2.natAbs : Int) = num2 := by omega
    have : (num1.natAbs : Int) * den2 ≤ (num2.natAbs : Int) * den1 := by
      rw [e1, e2]; exact hz
    exact_mod_cast this

/-- The magnitude of `num / den`. -/
theorem natAbs_div_eq_abs (num : Int) (den : Nat) :
    (num.natAbs : ℚ) / den = |(num : ℚ) / den| := by
  have hden : (0 : ℚ) ≤ den := by positivity
  rw [abs_div, abs_of_nonneg hden, Nat.cast_natAbs, Int.cast_abs]

/-- A value with its sign, from its magnitude. -/
theorem signed_abs_div (num : Int) (den : Nat) :
    (if decide (num < 0) = true then -(|(num : ℚ) / den|) else |(num : ℚ) / den|)
      = (num : ℚ) / den := by
  have hden : (0 : ℚ) ≤ den := by positivity
  by_cases h : num < 0
  · have hq : (num : ℚ) / den ≤ 0 :=
      div_nonpos_of_nonpos_of_nonneg (by exact_mod_cast le_of_lt h) hden
    simp only [h, decide_True, if_true, abs_of_nonpos hq, neg_neg]
  · have hq : 0 ≤ (num : ℚ) / den :=
      div_nonneg (by exact_mod_cast not_lt.1 h) hden
    simp only [h, decide_False, Bool.false_eq_true, if_false, abs_of_nonneg hq]

/-- A value of the format rounds to itself: `|num / den| = M * 2^T` with
`M < 2^p`, `T` not below the least exponent, and the value below
`2^(emax+1)`. -/
theorem roundRatio_exact (p emax : Nat) (num : Int) (den M : Nat) (T : Int)
    (hemax : 1 ≤ emax) (hden : 0 < den) (hM : M < 2 ^ p)
    (hT : (1 - (emax : Int)) - ((p : Int) - 1) ≤ T)
    (hv : |(num : ℚ) / den| = M * (2 : ℚ) ^ T)
    (hmax : |(num : ℚ) / den| < (2 : ℚ) ^ ((emax : Int) + 1)) :
    roundRatio p emax num den = .fin ((num : ℚ) / den) := by
  unfold roundRatio
  rw [roundBinary_exact p emax _ num.natAbs den M T hemax hden hM hT
    (by rw [natAbs_div_eq_abs]; exact hv) (by rw [natAbs_div_eq_abs]; exact hmax)]
  rw [natAbs_div_eq_abs, signed_abs_div]

/-- A number that comes out of the rounding is a value of the format:
`|q| = M * 2^T` with `M <= 2^p` and `T` between the least and the largest
scale. -/
theorem roundRatio_fin_rep (p emax : Nat) (num : Int) (den : Nat) (q : ℚ) (hp : 1 ≤ p)
    (hemax : 1 ≤ emax) (hden : 0 < den) (h : roundRatio p emax num den = .fin q) :
    ∃ (M : Nat) (T : Int), M ≤ 2 ^ p ∧ (1 - (emax : Int)) - ((p : Int) - 1) ≤ T ∧
      T ≤ (emax : Int) - ((p : Int) - 1) ∧ |q| = M * (2 : ℚ) ^ T := by
  unfold roundRatio at h
  by_cases hn : num.natAbs = 0
  · rw [hn] at h
    have hq : q = 0 := by
      simp [roundBinary] at h
      exact h.symm
    exact ⟨0, (1 - (emax : Int)) - ((p : Int) - 1), by positivity, le_rfl, by omega,
      by rw [hq]; simp⟩
  · obtain ⟨hmin, -, hm, -⟩ :=
      binExp_facts p emax num.natAbs den hp (Nat.pos_of_ne_zero hn) hden
    rw [roundBinary_eq p emax _ _ den hn] at h
    split at h
    · cases h
    · rename_i hov
      have he : binExp emax num.natAbs den ≤ emax := by
        by_contra hc
        exact hov (Or.inl (by omega))
      refine ⟨binMant num.natAbs den (binExp emax num.natAbs den - ((p : Int) - 1)),
        binExp emax num.natAbs den - ((p : Int) - 1), hm, by omega, by omega, ?_⟩
      have hpos : (0 : ℚ) ≤
          (binMant num.natAbs den (binExp emax num.natAbs den - ((p : Int) - 1)) : ℚ)
            * (2 : ℚ) ^ (binExp emax num.natAbs den - ((p : Int) - 1)) := by positivity
      injection h with h
      rw [← h]
      split
      · rw [abs_neg, abs_of_nonneg hpos]
      · rw [abs_of_nonneg hpos]

/-- The order `<=` is antisymmetric. -/
theorem CFloat.le_antisymm (a b : CFloat) (h1 : CFloat.le a b = true)
    (h2 : CFloat.le b a = true) : a = b := by
  cases a with
  | nan => simp [CFloat.le, CFloat.lt, CFloat.feq] at h1
  | inf n1 =>
    cases b with
    | nan => simp [CFloat.le, CFloat.lt, CFloat.feq] at h1
    | inf n2 => revert h1 h2; cases n1 <;> cases n2 <;> decide
    | fin q2 => revert h1 h2; cases n1 <;> simp [CFloat.le, CFloat.lt, CFloat.feq]
  | fin q1 =>
    cases b with
    | nan => simp [CFloat.le, CFloat.lt, CFloat.feq] at h1
    | inf n2 => revert h1 h2; cases n2 <;> simp [CFloat.le, CFloat.lt, CFloat.feq]
    | fin q2 =>
      rw [CFloat.le_fin] at h1 h2
      rw [h1.antisymm h2]

/-- The rounding depends on the value only, not on the fraction that gives
it. -/
theorem roundRatio_congr (p emax : Nat) (num1 : Int) (den1 : Nat) (num2 : Int) (den2 : Nat)
    (hp : 1 ≤ p) (hd1 : 0 < den1) (hd2 : 0 < den2)
    (h : (num1 : ℚ) / den1 = (num2 : ℚ) / den2) :
    roundRatio p emax num1 den1 = roundRatio p emax num2 den2 :=
  CFloat.le_antisymm _ _ (roundRatio_mono p emax _ _ _ _ hp hd1 hd2 (le_of_eq h))
    (roundRatio_mono p emax _ _ _ _ hp hd2 hd1 (le_of_eq h.symm))

/-- The fraction `sub` rounds is the difference. -/
theorem sub_val (x y : ℚ) :
    ((x.num * y.den - y.num * x.den : Int) : ℚ) / ((x.den * y.den : Nat) : ℚ) = x - y := by
  have hx : (x.den : ℚ) ≠ 0 := by exact_mod_cast x.den_nz
  have hy : (y.den : ℚ) ≠ 0 := by exact_mod_cast y.den_nz
  conv_rhs => rw [← Rat.num_div_den x, ← Rat.num_div_den y]
  push_cast
  field_simp
  ring

/-- The fraction `mul` rounds is the product. -/
theorem mul_val (x y : ℚ) :
    ((x.num * y.num : Int) : ℚ) / ((x.den * y.den : Nat) : ℚ) = x * y := by
  have hx : (x.den : ℚ) ≠ 0 := by exact_mod_cast x.den_nz
  have hy : (y.den : ℚ) ≠ 0 := by exact_mod_cast y.den_nz
  conv_rhs => rw [← Rat.num_div_den x, ← Rat.num_div_den y]
  push_cast
  field_simp

/-- The fraction `div` rounds is the quotient. -/
theorem div_val (x y : ℚ) (hy0 : y.num ≠ 0) :
    ((x.num * y.den * y.num.sign : Int) : ℚ) / ((x.den * y.num.natAbs : Nat) : ℚ) = x / y := by
  have hx : (x.den : ℚ) ≠ 0 := by exact_mod_cast x.den_nz
  have hy : (y.den : ℚ) ≠ 0 := by exact_mod_cast y.den_nz
  have hn : (y.num : ℚ) ≠ 0 := by exact_mod_cast hy0
  have habs : ((y.num.natAbs : Nat) : ℚ) = (y.num.sign : ℚ) * (y.num : ℚ) := by
    have : (y.num.natAbs : Int) = y.num.sign * y.num := by
      rcases lt_or_gt_of_ne hy0 with h | h
      · rw [Int.sign_eq_neg_one_of_neg h]; omega
      · rw [Int.sign_eq_one_of_pos h]; omega
    rw [← Int.cast_mul, ← this, Int.cast_natCast]
  have hs : (y.num.sign : ℚ) ≠ 0 := by
    have : y.num.sign ≠ 0 := by
      rw [Ne, Int.sign_eq_zero_iff_zero]; exact hy0
    exact_mod_cast this
  conv_rhs => rw [← Rat.num_div_den x, ← Rat.num_div_den y]
  push_cast
  rw [habs]
  field_simp
  ring

/-! ## Monotonicity of the operations -/

/-- A function on numbers that is monotone, never gives NaN and keeps the
infinities is monotone on all values but NaN. -/
theorem CFloat.le_lift (f : CFloat → CFloat)
    (hfin : ∀ x y : ℚ, x ≤ y → CFloat.le (f (.fin x)) (f (.fin y)) = true)
    (hinf : ∀ n, f (.inf n) = .inf n) (a b : CFloat) (h : CFloat.le a b = true) :
    CFloat.le (f a) (f b) = true := by
  have hnn : ∀ x : ℚ, f (.fin x) ≠ .nan := fun x =>
    (CFloat.ne_nan_of_le _ _ (hfin x x le_rfl)).1
  cases a with
  | nan => simp [CFloat.le, CFloat.lt, CFloat.feq] at h
  | inf n1 =>
    cases b with
    | nan => simp [CFloat.le, CFloat.lt, CFloat.feq] at h
    | inf n2 => rw [hinf, hinf]; exact h
    | fin q2 =>
      have : n1 = true := by
        revert h; cases n1 <;> simp [CFloat.le, CFloat.lt, CFloat.feq]
      rw [hinf, this]
      exact CFloat.inf_le _ (hnn q2)
  | fin q1 =>
    cases b with
    | nan => simp [CFloat.le, CFloat.lt, CFloat.feq] at h
    | inf n2 =>
      have : n2 = false := by
        revert h; cases n2 <;> simp [CFloat.le, CFloat.lt, CFloat.feq]
      rw [hinf, this]
      exact CFloat.le_inf _ (hnn q1)
    | fin q2 => exact hfin q1 q2 ((CFloat.le_fin q1 q2).1 h)

/-- The numerator of a positive rational is positive. -/
theorem num_pos_of_pos (c : ℚ) (hc : 0 < c) : 0 < c.num := Rat.num_pos.2 hc

/-- Subtracting a number is monotone in the first operand. -/
theorem CFloat.sub_mono (p emax : Nat) (hp : 1 ≤ p) (y : ℚ) (a b : CFloat)
    (h : CFloat.le a b = true) :
    CFloat.le (CFloat.sub p emax a (.fin y)) (CFloat.sub p emax b (.fin y)) = true := by
  apply CFloat.le_lift (fun v => CFloat.sub p emax v (.fin y)) _ _ a b h
  · intro x1 x2 hx
    show CFloat.le (roundRatio p emax _ _) (roundRatio p emax _ _) = true
    apply roundRatio_mono p emax _ _ _ _ hp (Nat.mul_pos x1.den_pos y.den_pos)
      (Nat.mul_pos x2.den_pos y.den_pos)
    rw [sub_val, sub_val]
    linarith
  · intro n; rfl

/-- Multiplying by a positive number is monotone. -/
theorem CFloat.mul_mono (p emax : Nat) (hp : 1 ≤ p) (c : ℚ) (hc : 0 < c) (a b : CFloat)
    (h : CFloat.le a b = true) :
    CFloat.le (CFloat.mul p emax (.fin c) a) (CFloat.mul p emax (.fin c) b) = true := by
  have hcn := num_pos_of_pos c hc
  apply CFloat.le_lift (fun v => CFloat.mul p emax (.fin c) v) _ _ a b h
  · intro x1 x2 hx
    show CFloat.le (roundRatio p emax _ _) (roundRatio p emax _ _) = true
    apply roundRatio_mono p emax _ _ _ _ hp (Nat.mul_pos c.den_pos x1.den_pos)
      (Nat.mul_pos c.den_pos x2.den_pos)
    rw [mul_val, mul_val]
    exact mul_le_mul_of_nonneg_left hx (le_of_lt hc)
  · intro n
    show (if c.num = 0 then CFloat.nan else .inf (decide (c.num < 0) != n)) = .inf n
    rw [if_neg (by omega), decide_eq_false (by omega)]
    cases n <;> rfl

/-- Dividing by a positive number is monotone. -/
theorem CFloat.div_mono (p emax : Nat) (hp : 1 ≤ p) (d : ℚ) (hd : 0 < d) (a b : CFloat)
    (h : CFloat.le a b = true) :
    CFloat.le (CFloat.div p emax a (.fin d)) (CFloat.div p emax b (.fin d)) = true := by
  have hdn := num_pos_of_pos d hd
  have hdn0 : d.num ≠ 0 := by omega
  have hnat : 0 < d.num.natAbs := by omega
  have hfin : ∀ x : ℚ, CFloat.div p emax (.fin x) (.fin d)
      = roundRatio p emax (x.num * d.den * d.num.sign) (x.den * d.num.natAbs) := by
    intro x
    show (if d.num = 0 then _ else _) = _
    rw [if_neg hdn0]
  apply CFloat.le_lift (fun v => CFloat.div p emax v (.fin d)) _ _ a b h
  · intro x1 x2 hx
    show CFloat.le (CFloat.div p emax (.fin x1) (.fin d))
      (CFloat.div p emax (.fin x2) (.fin d)) = true
    rw [hfin, hfin]
    apply roundRatio_mono p emax _ _ _ _ hp (Nat.mul_pos x1.den_pos hnat)
      (Nat.mul_pos x2.den_pos hnat)
    rw [div_val _ _ hdn0, div_val _ _ hdn0]
    exact div_le_div_of_nonneg_right hx (le_of_lt hd)
  · intro n
    show CFloat.inf (n != decide (d.num < 0)) = .inf n
    rw [decide_eq_false (by omega)]
    cases n <;> rfl

/-- The conversion to `float` rounds the value. -/
theorem toFloat_fin (q : ℚ) : toFloat (.fin q) = roundRatio 24 127 q.num q.den := rfl

/-- The conversion to `float` is monotone. -/
theorem toFloat_mono (a b : CFloat) (h : CFloat.le a b = true) :
    CFloat.le (toFloat a) (toFloat b) = true := by
  apply CFloat.le_lift toFloat _ _ a b h
  · intro x1 x2 hx
    rw [toFloat_fin, toFloat_fin]
    apply roundRatio_mono 24 127 _ _ _ _ (by norm_num) x1.den_pos x2.den_pos
    rw [Rat.num_div_den, Rat.num_div_den]
    exact hx
  · intro n; rfl

/-! ## The level indicator: from the percentage to the rows (C13, C15) -/

/-- The clamped percentage is a number between 0 and 100. -/
theorem percentual_clamp_range (r : CFloat) (hr : r ≠ .nan) :
    ∃ c : ℚ, percentual_clamp r = .fin c ∧ 0 ≤ c ∧ c ≤ 100 := by
  unfold percentual_clamp
  cases r with
  | nan => exact absurd rfl hr
  | inf n =>
    cases n
    · exact ⟨100, by decide, by norm_num, le_rfl⟩
    · exact ⟨0, by decide, le_rfl, by norm_num⟩
  | fin q =>
    by_cases h0 : q < 0
    · refine ⟨0, ?_, le_rfl, by norm_num⟩
      simp [CFloat.lt, CFloat.gt, h0]
    · by_cases h1 : 100 < q
      · refine ⟨100, ?_, by norm_num, le_rfl⟩
        simp [CFloat.lt, CFloat.gt, h0, h1]
      · refine ⟨q, ?_, not_lt.1 h0, not_lt.1 h1⟩
        simp [CFloat.lt, CFloat.gt, h0, h1]

/-- A percentage that is at most 0 is clamped to 0. -/
theorem percentual_clamp_low (r : CFloat) (h : CFloat.le r (.fin 0) = true) :
    percentual_clamp r = .fin 0 := by
  unfold percentual_clamp
  cases r with
  | nan => simp [CFloat.le, CFloat.lt, CFloat.feq] at h
  | inf n =>
    cases n
    · simp [CFloat.le, CFloat.lt, CFloat.feq] at h
    · decide
  | fin q =>
    rw [CFloat.le_fin] at h
    rcases lt_or_eq_of_le h with h0 | h0
    · simp [CFloat.lt, CFloat.gt, h0]
    · subst h0
      decide

/-- A percentage that is at least 100 is clamped to 100. -/
theorem percentual_clamp_high (r : CFloat) (h : CFloat.le (.fin 100) r = true) :
    percentual_clamp r = .fin 100 := by
  unfold percentual_clamp
  cases r with
  | nan => simp [CFloat.le, CFloat.lt, CFloat.feq] at h
  | inf n =>
    cases n
    · decide
    · simp [CFloat.le, CFloat.lt, CFloat.feq] at h
  | fin q =>
    rw [CFloat.le_fin] at h
    have h0 : ¬ q < 0 := by linarith
    rcases lt_or_eq_of_le h with h1 | h1
    · simp [CFloat.lt, CFloat.gt, h0, h1]
    · subst h1
      decide

/-- Clamping is monotone. -/
theorem percentual_clamp_mono (r1 r2 : CFloat) (h : CFloat.le r1 r2 = true) :
    CFloat.le (percentual_clamp r1) (percentual_clamp r2) = true := by
  obtain ⟨hn1, hn2⟩ := CFloat.ne_nan_of_le _ _ h
  have h100 : CFloat.le (.fin 0) (.fin 100) = true := by decide
  by_cases a : CFloat.le r1 (.fin 0) = true
  · rw [percentual_clamp_low r1 a]
    obtain ⟨c, hc, hc0, -⟩ := percentual_clamp_range r2 hn2
    rw [hc, CFloat.le_fin]
    exact hc0
  · by_cases b : CFloat.le (.fin 100) r2 = true
    · rw [percentual_clamp_high r2 b]
      obtain ⟨c, hc, -, hc1⟩ := percentual_clamp_range r1 hn1
      rw [hc, CFloat.le_fin]
      exact hc1
    · -- both values lie strictly inside and are kept
      have keep : ∀ r : CFloat, r ≠ .nan → ¬ CFloat.le r (.fin 0) = true →
          ¬ CFloat.le (.fin 100) r = true → percentual_clamp r = r := by
        intro r hr ha hb
        cases r with
        | nan => exact absurd rfl hr
        | inf n => cases n <;> simp [CFloat.le, CFloat.lt, CFloat.feq] at ha hb
        | fin q =>
          rw [CFloat.le_fin] at ha hb
          unfold percentual_clamp
          have h0 : ¬ q < 0 := by linarith
          have h1 : ¬ 100 < q := by linarith
          simp [CFloat.lt, CFloat.gt, h0, h1]
      have a2 : ¬ CFloat.le r2 (.fin 0) = true := fun hh => a (CFloat.le_trans _ _ _ h hh)
      have b1 : ¬ CFloat.le (.fin 100) r1 = true := fun hh => b (CFloat.le_trans _ _ _ hh h)
      rw [keep r1 hn1 a b1, keep r2 hn2 a2 b]
      exact h

/-- A value between two numbers is a number between them. -/
theorem CFloat.fin_of_between (x : CFloat) (lo hi : ℚ) (h1 : CFloat.le (.fin lo) x = true)
    (h2 : CFloat.le x (.fin hi) = true) : ∃ c : ℚ, x = .fin c ∧ lo ≤ c ∧ c ≤ hi := by
  cases x with
  | nan => simp [CFloat.le, CFloat.lt, CFloat.feq] at h1
  | inf n => cases n <;> simp [CFloat.le, CFloat.lt, CFloat.feq] at h1 h2
  | fin q => exact ⟨q, rfl, (CFloat.le_fin _ _).1 h1, (CFloat.le_fin _ _).1 h2⟩

/-- The quotient `percentual / 20.0f` of a percentage between 0 and 100 is a
number between 0 and 5. -/
theorem div20_range (c : ℚ) (h0 : 0 ≤ c) (h1 : c ≤ 100) :
    ∃ q : ℚ, CFloat.div 24 127 (.fin c) (.fin 20) = .fin q ∧ 0 ≤ q ∧ q ≤ 5 := by
  have e0 : CFloat.div 24 127 (.fin 0) (.fin 20) = .fin 0 := by decide
  have e5 : CFloat.div 24 127 (.fin 100) (.fin 20) = .fin 5 := by decide
  have m0 := CFloat.div_mono 24 127 (by norm_num) 20 (by norm_num) (.fin 0) (.fin c)
    ((CFloat.le_fin _ _).2 h0)
  have m5 := CFloat.div_mono 24 127 (by norm_num) 20 (by norm_num) (.fin c) (.fin 100)
    ((CFloat.le_fin _ _).2 h1)
  rw [e0] at m0
  rw [e5] at m5
  exact CFloat.fin_of_between _ 0 5 m0 m5

/-- The conversion to `int` of a number that is not negative is its floor. -/
theorem tdiv_eq_floor (q : ℚ) (h0 : 0 ≤ q) : q.num.tdiv q.den = ⌊q⌋ := by
  have hn : 0 ≤ q.num := Rat.num_nonneg.2 h0
  rw [Int.tdiv_eq_ediv hn (by positivity), Rat.floor_def]

/-- The rows for a percentage whose quotient by 20 is a number `q` between 0
and 5: the floor of `q`. -/
theorem linhas_of_quotient (c q : ℚ) (hq : CFloat.div 24 127 (.fin c) (.fin 20) = .fin q)
    (h0 : 0 ≤ q) (h5 : q ≤ 5) :
    linhas_of_percentual (.fin c) = some ⌊q⌋ ∧ 0 ≤ ⌊q⌋ ∧ ⌊q⌋ ≤ 5 := by
  have f0 : 0 ≤ ⌊q⌋ := Int.floor_nonneg.2 h0
  have f5 : ⌊q⌋ ≤ 5 := by
    have : ⌊q⌋ ≤ ⌊(5 : ℚ)⌋ := Int.floor_mono h5
    simpa using this
  refine ⟨?_, f0, f5⟩
  unfold linhas_of_percentual
  rw [hq]
  simp only [CFloat.toInt, tdiv_eq_floor q h0]
  rw [if_pos (by constructor <;> omega)]
  simp only [Option.map_some', linhas_clamp]
  rw [if_neg (by omega), if_neg (by omega)]

/-- A number of type `float` is a whole multiple of `2^-149`. -/
theorem isFloat_grid (a : ℚ) (h : CFloat.isFloat (.fin a) = true) :
    ∃ z : Int, a * 2 ^ 149 = z := by
  unfold CFloat.isFloat at h
  rw [decide_eq_true_eq, toFloat_fin] at h
  obtain ⟨M, T, -, hT, -, hrep⟩ :=
    roundRatio_fin_rep 24 127 a.num a.den a (by norm_num) (by norm_num) a.den_pos h
  have hT2 : (-149 : Int) ≤ T := by
    have : (1 - ((127 : Nat) : Int)) - (((24 : Nat) : Int) - 1) = -149 := by norm_num
    omega
  have habs : |a| * 2 ^ 149 = ((M * 2 ^ (T + 149).toNat : Nat) : ℚ) := by
    rw [hrep]
    push_cast
    rw [mul_assoc, ← zpow_natCast (2 : ℚ) 149, ← zpow_natCast (2 : ℚ) (T + 149).toNat,
      ← zpow_add₀ (by norm_num : (2 : ℚ) ≠ 0)]
    congr 2
    have : (((T + 149).toNat : Nat) : Int) = T + 149 := Int.toNat_of_nonneg (by omega)
    rw [this]
    norm_num
  rcases le_total 0 a with ha | ha
  · rw [abs_of_nonneg ha] at habs
    exact ⟨(M * 2 ^ (T + 149).toNat : Nat), by rw [habs]; norm_cast⟩
  · rw [abs_of_nonpos ha] at habs
    refine ⟨-((M * 2 ^ (T + 149).toNat : Nat) : Int), ?_⟩
    have : a * 2 ^ 149 = -(-a * 2 ^ 149) := by ring
    rw [this, habs]
    norm_cast

/-- Two different numbers of type `float` are at least `2^-149` apart. -/
theorem isFloat_gap (a b : ℚ) (ha : CFloat.isFloat (.fin a) = true)
    (hb : CFloat.isFloat (.fin b) = true) (hab : a < b) : 1 / 2 ^ 149 ≤ b - a := by
  obtain ⟨za, hza⟩ := isFloat_grid a ha
  obtain ⟨zb, hzb⟩ := isFloat_grid b hb
  have hpos : (0 : ℚ) < 2 ^ 149 := by positivity
  have hlt : (za : ℚ) < zb := by
    rw [← hza, ← hzb]
    exact mul_lt_mul_of_pos_right hab hpos
  have hz : za + 1 ≤ zb := by
    have : za < zb := by exact_mod_cast hlt
    omega
  have hq : (za : ℚ) + 1 ≤ zb := by exact_mod_cast hz
  rw [div_le_iff₀ hpos]
  have : (b - a) * 2 ^ 149 = zb - za := by rw [← hza, ← hzb]; ring
  rw [this]
  linarith

/-- The least positive `float` rounds to itself. -/
theorem roundRatio_tiny : roundRatio 24 127 1 (2 ^ 149) = .fin (1 / 2 ^ 149) := by
  have hval : ((1 : Int) : ℚ) / ((2 ^ 149 : Nat) : ℚ) = 1 / 2 ^ 149 := by
    simp only [Int.cast_one, Nat.cast_pow, Nat.cast_ofNat]
  have hpos : (0 : ℚ) ≤ 1 / 2 ^ 149 := by positivity
  have h := roundRatio_exact 24 127 1 (2 ^ 149) 1 (-149) (by norm_num) (by positivity)
    (by norm_num) (by norm_num)
    (by
      rw [hval, abs_of_nonneg hpos, Nat.cast_one, one_mul, zpow_neg, one_div]
      norm_cast)
    (by
      rw [hval, abs_of_nonneg hpos]
      have h1 : (1 : ℚ) / 2 ^ 149 ≤ 1 := by
        rw [div_le_one (by positivity)]
        exact one_le_pow₀ (by norm_num)
      have h2 : (1 : ℚ) < (2 : ℚ) ^ (((127 : Nat) : Int) + 1) := by
        apply one_lt_zpow₀ (by norm_num)
        norm_num
      linarith)
  rw [h, hval]

/-- The least negative `float` rounds to itself. -/
theorem roundRatio_tiny_neg : roundRatio 24 127 (-1) (2 ^ 149) = .fin (-(1 / 2 ^ 149)) := by
  rw [roundRatio_of_neg _ _ _ _ (by norm_num)]
  have h := roundRatio_tiny
  rw [roundRatio_of_nonneg _ _ _ _ (by norm_num)] at h
  have e : (-1 : Int).natAbs = (1 : Int).natAbs := rfl
  rw [e, h]
  simp only [CFloat.neg]

/-- The `float` difference of a number and a smaller number of type `float`
is a number that is at least `2^-149`, or plus infinity. -/
theorem sub_pos_of_lt (a b : ℚ) (ha : CFloat.isFloat (.fin a) = true)
    (hb : CFloat.isFloat (.fin b) = true) (hab : a < b) :
    CFloat.le (.fin (1 / 2 ^ 149)) (CFloat.sub 24 127 (.fin b) (.fin a)) = true := by
  rw [← roundRatio_tiny]
  show CFloat.le _ (roundRatio 24 127 _ _) = true
  apply roundRatio_mono 24 127 _ _ _ _ (by norm_num) (by positivity)
    (Nat.mul_pos b.den_pos a.den_pos)
  rw [sub_val]
  simp only [Int.cast_one, Nat.cast_pow, Nat.cast_ofNat]
  exact isFloat_gap a b ha hb hab

/-- The `float` difference of a number and a larger number of type `float` is
a number that is at most `-2^-149`, or minus infinity. -/
theorem sub_neg_of_lt (a b : ℚ) (ha : CFloat.isFloat (.fin a) = true)
    (hb : CFloat.isFloat (.fin b) = true) (hab : a < b) :
    CFloat.le (CFloat.sub 24 127 (.fin a) (.fin b)) (.fin (-(1 / 2 ^ 149))) = true := by
  rw [← roundRatio_tiny_neg]
  show CFloat.le (roundRatio 24 127 _ _) _ = true
  apply roundRatio_mono 24 127 _ _ _ _ (by norm_num) (Nat.mul_pos a.den_pos b.den_pos)
    (by positivity)
  rw [sub_val]
  simp only [Int.cast_neg, Int.cast_one, Nat.cast_pow, Nat.cast_ofNat, neg_div]
  have := isFloat_gap a b ha hb hab
  linarith

/-- The difference of a number and itself is zero. -/
theorem sub_self_eq (p emax : Nat) (a : ℚ) :
    CFloat.sub p emax (.fin a) (.fin a) = .fin 0 := by
  show roundRatio p emax (a.num * a.den - a.num * a.den) (a.den * a.den) = .fin 0
  rw [sub_self, roundRatio_zero]

/-- The product of 100 and a number of type `float` is exact in `double`. -/
theorem mul100_exact (num : Int) (den : Nat) (d : ℚ) (hden : 0 < den)
    (h : roundRatio 24 127 num den = .fin d) :
    CFloat.mul 53 1023 (.fin 100) (.fin d) = .fin (100 * d) := by
  obtain ⟨M, T, hM, hT, hT2, hrep⟩ :=
    roundRatio_fin_rep 24 127 num den d (by norm_num) (by norm_num) hden h
  have hTlo : (-149 : Int) ≤ T := by
    have : (1 - ((127 : Nat) : Int)) - (((24 : Nat) : Int) - 1) = -149 := by norm_num
    omega
  have hThi : T ≤ 104 := by
    have : ((127 : Nat) : Int) - (((24 : Nat) : Int) - 1) = 104 := by norm_num
    omega
  have h2 : (1 : ℚ) < 2 := by norm_num
  have hval := mul_val 100 d
  have habs : |(100 : ℚ) * d| = ((100 * M : Nat) : ℚ) * (2 : ℚ) ^ T := by
    rw [abs_mul, hrep, abs_of_nonneg (by norm_num : (0 : ℚ) ≤ 100)]
    push_cast
    ring
  show roundRatio 53 1023 _ _ = _
  rw [roundRatio_exact 53 1023 _ _ (100 * M) T (by norm_num)
    (Nat.mul_pos (Rat.den_pos 100) d.den_pos)
    (by
      have : (2 : Nat) ^ 24 * 100 < 2 ^ 53 := by norm_num
      have h3 : 100 * M ≤ 100 * 2 ^ 24 := Nat.mul_le_mul_left _ hM
      omega)
    (by
      have : (1 - ((1023 : Nat) : Int)) - (((53 : Nat) : Int) - 1) = -1074 := by norm_num
      omega)
    (by rw [hval]; exact habs)
    (by
      rw [hval, habs]
      have hMq : ((100 * M : Nat) : ℚ) ≤ (2 : ℚ) ^ (31 : Int) := by
        have h3 : 100 * M ≤ 2 ^ 31 := by
          have : 100 * M ≤ 100 * 2 ^ 24 := Nat.mul_le_mul_left _ hM
          have : (100 : Nat) * 2 ^ 24 ≤ 2 ^ 31 := by norm_num
          omega
        have : ((100 * M : Nat) : ℚ) ≤ ((2 ^ 31 : Nat) : ℚ) := by exact_mod_cast h3
        rw [show (31 : Int) = ((31 : Nat) : Int) from rfl, zpow_natCast]
        push_cast at this ⊢
        exact this
      have hTq : (2 : ℚ) ^ T ≤ (2 : ℚ) ^ (104 : Int) := (zpow_le_zpow_iff_right₀ h2).2 hThi
      calc ((100 * M : Nat) : ℚ) * (2 : ℚ) ^ T
          ≤ (2 : ℚ) ^ (31 : Int) * (2 : ℚ) ^ (104 : Int) :=
            mul_le_mul hMq hTq (by positivity) (by positivity)
        _ = (2 : ℚ) ^ (135 : Int) := by
            rw [← zpow_add₀ (by norm_num : (2 : ℚ) ≠ 0)]; norm_num
        _ < (2 : ℚ) ^ (((1023 : Nat) : Int) + 1) := (zpow_lt_zpow_iff_right₀ h2).2 (by norm_num))]
  rw [hval]

/-- The quotient of `100 * d` and `d` is 100, exactly. -/
theorem div100_exact (d : ℚ) (hd : 0 < d) :
    CFloat.div 53 1023 (.fin (100 * d)) (.fin d) = .fin 100 := by
  have hdn := num_pos_of_pos d hd
  have hdn0 : d.num ≠ 0 := by omega
  have hnat : 0 < d.num.natAbs := by omega
  have hval := div_val (100 * d) d hdn0
  have hq : (100 * d) / d = 100 := by field_simp
  have h2 : (1 : ℚ) < 2 := by norm_num
  show (if d.num = 0 then _ else roundRatio 53 1023 _ _) = _
  rw [if_neg hdn0]
  rw [roundRatio_exact 53 1023 _ _ 100 0 (by norm_num)
    (Nat.mul_pos (100 * d).den_pos hnat) (by norm_num) (by norm_num)
    (by rw [hval, hq]; norm_num)
    (by
      rw [hval, hq, abs_of_nonneg (by norm_num)]
      calc (100 : ℚ) < (2 : ℚ) ^ (7 : Int) := by norm_num
        _ < (2 : ℚ) ^ (((1023 : Nat) : Int) + 1) :=
          (zpow_lt_zpow_iff_right₀ h2).2 (by norm_num))]
  rw [hval, hq]

/-- The percentage computed for a range `min < max` whose `float` difference
is the number `d > 0` is monotone in the value. -/
theorem percentual_init_mono (a b d : ℚ) (hd : 0 < d)
    (hD : CFloat.sub 24 127 (.fin b) (.fin a) = .fin d) (v w : CFloat)
    (h : CFloat.le v w = true) :
    CFloat.le (percentual_init v (.fin a) (.fin b)) (percentual_init w (.fin a) (.fin b))
      = true := by
  unfold percentual_init
  rw [hD]
  apply toFloat_mono
  apply CFloat.div_mono 53 1023 (by norm_num) d hd
  apply CFloat.mul_mono 53 1023 (by norm_num) 100 (by norm_num)
  exact CFloat.sub_mono 24 127 (by norm_num) a v w h

/-- At `valor == min` the percentage is 0. -/
theorem percentual_init_min (a b d : ℚ) (hd : 0 < d)
    (hD : CFloat.sub 24 127 (.fin b) (.fin a) = .fin d) :
    percentual_init (.fin a) (.fin a) (.fin b) = .fin 0 := by
  have hdn := num_pos_of_pos d hd
  have hdn0 : d.num ≠ 0 := by omega
  unfold percentual_init
  rw [hD, sub_self_eq]
  have e1 : CFloat.mul 53 1023 (.fin 100) (.fin 0) = .fin 0 := by decide
  rw [e1]
  have e2 : CFloat.div 53 1023 (.fin 0) (.fin d) = .fin 0 := by
    show (if d.num = 0 then _ else roundRatio 53 1023 _ _) = _
    rw [if_neg hdn0]
    have : (0 : ℚ).num * (d.den : Int) * d.num.sign = 0 := by simp
    rw [this, roundRatio_zero]
  rw [e2]
  decide

/-- At `valor == max` the percentage is 100. -/
theorem percentual_init_max (a b d : ℚ) (hd : 0 < d)
    (hD : CFloat.sub 24 127 (.fin b) (.fin a) = .fin d) :
    percentual_init (.fin b) (.fin a) (.fin b) = .fin 100 := by
  unfold percentual_init
  rw [hD]
  rw [mul100_exact _ _ d (Nat.mul_pos b.den_pos a.den_pos) hD, div100_exact d hd]
  decide

/-- From a percentage that is not NaN to the rows: the clamped percentage is
a number `c` in `[0, 100]`, its quotient by 20 a number `q` in `[0, 5]`, and
the row count is the floor of `q`. -/
theorem linhas_of_clamped (r : CFloat) (hr : r ≠ .nan) :
    ∃ c q : ℚ, percentual_clamp r = .fin c ∧
      CFloat.div 24 127 (.fin c) (.fin 20) = .fin q ∧ 0 ≤ q ∧ q ≤ 5 ∧
      linhas_of_percentual (percentual_clamp r) = some ⌊q⌋ := by
  obtain ⟨c, hc, hc0, hc1⟩ := percentual_clamp_range r hr
  obtain ⟨q, hq, hq0, hq5⟩ := div20_range c hc0 hc1
  refine ⟨c, q, hc, hq, hq0, hq5, ?_⟩
  rw [hc]
  exact (linhas_of_quotient c q hq hq0 hq5).1

/-- The `float` difference `max - min` of a range of numbers of type `float`
with `min < max`, when it is finite, is a positive number. -/
theorem range_diff_pos (a b : ℚ) (ha : CFloat.isFloat (.fin a) = true)
    (hb : CFloat.isFloat (.fin b) = true) (hab : CFloat.lt (.fin a) (.fin b) = true)
    (hD : (CFloat.sub 24 127 (.fin b) (.fin a)).isFinite = true) :
    ∃ d : ℚ, CFloat.sub 24 127 (.fin b) (.fin a) = .fin d ∧ 0 < d := by
  have hlt : a < b := by simpa [CFloat.lt] using hab
  have hpos := sub_pos_of_lt a b ha hb hlt
  cases hs : CFloat.sub 24 127 (.fin b) (.fin a) with
  | nan => rw [hs] at hD; cases hD
  | inf n => rw [hs] at hD; cases hD
  | fin d =>
    rw [hs, CFloat.le_fin] at hpos
    exact ⟨d, rfl, lt_of_lt_of_le (by positivity) hpos⟩

set_option maxRecDepth 100000 in
/-- C13, as stated, fails: for the range of `float` values `min = -FLT_MAX <
max = FLT_MAX` the difference `max - min` overflows to infinity, and at
`valor == max` the percentage is NaN (infinity divided by infinity), whose
conversion to `int` is undefined: the row count is not 5.  A value that is
NaN gives no row count either, whatever the range. -/
theorem C13_counterexample :
    CFloat.isFloat (.fin (-FLT_MAX)) = true ∧ CFloat.isFloat (.fin FLT_MAX) = true ∧
    CFloat.lt (.fin (-FLT_MAX)) (.fin FLT_MAX) = true ∧
    CFloat.sub 24 127 (.fin FLT_MAX) (.fin (-FLT_MAX)) = .inf false ∧
    percentual (.fin FLT_MAX) (.fin (-FLT_MAX)) (.fin FLT_MAX) = .nan ∧
    linhas_acesas (.fin FLT_MAX) (.fin (-FLT_MAX)) (.fin FLT_MAX) = none ∧
    linhas_acesas .nan (.fin 10) (.fin 40) = none := by
  decide

/-- C13, amended: for every range of numbers of type `float` with `min < max`
whose `float` difference `max - min` does not overflow, and every value other
than NaN (plus and minus infinity included), `linhas_acesas` is an integer in
`[0, 5]`; it is monotonically non-decreasing in the value; it is 0 for every
value `<= min` and 5 for every value `>= max`. -/
theorem C13_linhas_acesas (a b : ℚ) (ha : CFloat.isFloat (.fin a) = true)
    (hb : CFloat.isFloat (.fin b) = true) (hab : CFloat.lt (.fin a) (.fin b) = true)
    (hD : (CFloat.sub 24 127 (.fin b) (.fin a)).isFinite = true) :
    (∀ v : CFloat, v ≠ .nan →
      ∃ n : Int, linhas_acesas v (.fin a) (.fin b) = some n ∧ 0 ≤ n ∧ n ≤ 5) ∧
    (∀ (v w : CFloat) (n m : Int), CFloat.le v w = true →
      linhas_acesas v (.fin a) (.fin b) = some n →
      linhas_acesas w (.fin a) (.fin b) = some m → n ≤ m) ∧
    (∀ v : CFloat, CFloat.le v (.fin a) = true →
      linhas_acesas v (.fin a) (.fin b) = some 0) ∧
    (∀ v : CFloat, CFloat.le (.fin b) v = true →
      linhas_acesas v (.fin a) (.fin b) = some 5) := by
  obtain ⟨d, hd, hdpos⟩ := range_diff_pos a b ha hb hab hD
  have hmono := percentual_init_mono a b d hdpos hd
  have hnn : ∀ v : CFloat, v ≠ .nan → percentual_init v (.fin a) (.fin b) ≠ .nan :=
    fun v hv => (CFloat.ne_nan_of_le _ _ (hmono v v (CFloat.le_refl v hv))).1
  refine ⟨?_, ?_, ?_, ?_⟩
  · intro v hv
    obtain ⟨c, q, -, -, hq0, hq5, hl⟩ := linhas_of_clamped _ (hnn v hv)
    refine ⟨⌊q⌋, hl, Int.floor_nonneg.2 hq0, ?_⟩
    have : ⌊q⌋ ≤ ⌊(5 : ℚ)⌋ := Int.floor_mono hq5
    simpa using this
  · intro v w n m hvw hn hm
    obtain ⟨hv, hw⟩ := CFloat.ne_nan_of_le _ _ hvw
    obtain ⟨c1, q1, hc1, hq1, -, -, hl1⟩ := linhas_of_clamped _ (hnn v hv)
    obtain ⟨c2, q2, hc2, hq2, -, -, hl2⟩ := linhas_of_clamped _ (hnn w hw)
    have hcl := percentual_clamp_mono _ _ (hmono v w hvw)
    rw [hc1, hc2] at hcl
    have hq := CFloat.div_mono 24 127 (by norm_num) 20 (by norm_num) _ _ hcl
    rw [hq1, hq2, CFloat.le_fin] at hq
    have e1 : some n = some ⌊q1⌋ := hn.symm.trans hl1
    have e2 : some m = some ⌊q2⌋ := hm.symm.trans hl2
    injection e1 with e1
    injection e2 with e2
    rw [e1, e2]
    exact Int.floor_mono hq
  · intro v hv
    have h0 := hmono v (.fin a) hv
    rw [percentual_init_min a b d hdpos hd] at h0
    show linhas_of_percentual (percentual_clamp (percentual_init v (.fin a) (.fin b))) = some 0
    rw [percentual_clamp_low _ h0]
    decide
  · intro v hv
    have h0 := hmono (.fin b) v hv
    rw [percentual_init_max a b d hdpos hd] at h0
    show linhas_of_percentual (percentual_clamp (percentual_init v (.fin a) (.fin b))) = some 5
    rw [percentual_clamp_high _ h0]
    decide

/-- C13 (amended) on the range of the program, `min = 10` and `max = 40`: no
row at 10 degrees, five rows at 40 degrees, two rows at 25 degrees. -/
theorem C13_linhas_acesas_witness :
    CFloat.isFloat (.fin 10) = true ∧ CFloat.isFloat (.fin 40) = true ∧
    CFloat.lt (.fin 10) (.fin 40) = true ∧
    (CFloat.sub 24 127 (.fin 40) (.fin 10)).isFinite = true ∧
    linhas_acesas (.fin 10) (.fin 10) (.fin 40) = some 0 ∧
    linhas_acesas (.fin 40) (.fin 10) (.fin 40) = some 5 ∧
    linhas_acesas (.fin 25) (.fin 10) (.fin 40) = some 2 :=
  ⟨by decide, by decide, by decide, by decide,
   (C13_linhas_acesas 10 40 (by decide) (by decide) (by decide) (by decide)).2.2.1
     (.fin 10) (by decide),
   (C13_linhas_acesas 10 40 (by decide) (by decide) (by decide) (by decide)).2.2.2
     (.fin 40) (by decide),
   by decide⟩

/-- The clamped row count is between 0 and 5. -/
theorem linhas_clamp_range (x : Int) : 0 ≤ linhas_clamp x ∧ linhas_clamp x ≤ 5 := by
  unfold linhas_clamp
  simp only
  split_ifs <;> omega

/-- Where the conversion is defined, the variable holds its clamped value. -/
theorem linhas_acesas_var_eq (conv : Int) (valor min max : CFloat) (l : Int)
    (h : linhas_acesas valor min max = some l) : linhas_acesas_var conv valor min max = l := by
  unfold linhas_acesas linhas_of_percentual at h
  unfold linhas_acesas_var
  cases hx : CFloat.toInt (CFloat.div 24 127 (percentual valor min max) (.fin 20)) with
  | none => rw [hx] at h; cases h
  | some x =>
    rw [hx] at h
    simp only [Option.map_some', Option.some.injEq] at h
    simp only [Option.getD_some, h]

/-! ## The degenerate range (C15) -/

/-- A value above a positive number, divided by zero, is plus infinity. -/
theorem div_zero_of_pos (p emax : Nat) (c : ℚ) (hc : 0 < c) (y : CFloat)
    (h : CFloat.le (.fin c) y = true) : CFloat.div p emax y (.fin 0) = .inf false := by
  cases y with
  | nan => simp [CFloat.le, CFloat.lt, CFloat.feq] at h
  | inf n =>
    cases n
    · rfl
    · simp [CFloat.le, CFloat.lt, CFloat.feq] at h
  | fin q =>
    rw [CFloat.le_fin] at h
    have hq := num_pos_of_pos q (lt_of_lt_of_le hc h)
    have h0 : q.num ≠ 0 := by omega
    have h1 : ¬ q.num < 0 := by omega
    simp [CFloat.div, h0, h1]

/-- A value below a negative number, divided by zero, is minus infinity. -/
theorem div_zero_of_neg (p emax : Nat) (c : ℚ) (hc : c < 0) (y : CFloat)
    (h : CFloat.le y (.fin c) = true) : CFloat.div p emax y (.fin 0) = .inf true := by
  cases y with
  | nan => simp [CFloat.le, CFloat.lt, CFloat.feq] at h
  | inf n =>
    cases n
    · simp [CFloat.le, CFloat.lt, CFloat.feq] at h
    · rfl
  | fin q =>
    rw [CFloat.le_fin] at h
    have hq : q.num < 0 := Rat.num_neg.2 (lt_of_le_of_lt h hc)
    have h0 : q.num ≠ 0 := by omega
    simp [CFloat.div, h0, hq]

/-- The `float` difference of a value of type `float` and a smaller number of
type `float` is at least `2^-149`. -/
theorem sub_ge_tiny (m : ℚ) (v : CFloat) (hm : CFloat.isFloat (.fin m) = true)
    (hv : CFloat.isFloat v = true) (h : CFloat.lt (.fin m) v = true) :
    CFloat.le (.fin (1 / 2 ^ 149)) (CFloat.sub 24 127 v (.fin m)) = true := by
  cases v with
  | nan => simp [CFloat.lt] at h
  | inf n =>
    cases n
    · rfl
    · simp [CFloat.lt] at h
  | fin x => exact sub_pos_of_lt m x hm hv (by simpa [CFloat.lt] using h)

/-- The `float` difference of a value of type `float` and a larger number of
type `float` is at most `-2^-149`. -/
theorem sub_le_tiny (m : ℚ) (v : CFloat) (hm : CFloat.isFloat (.fin m) = true)
    (hv : CFloat.isFloat v = true) (h : CFloat.lt v (.fin m) = true) :
    CFloat.le (CFloat.sub 24 127 v (.fin m)) (.fin (-(1 / 2 ^ 149))) = true := by
  cases v with
  | nan => simp [CFloat.lt] at h
  | inf n =>
    cases n
    · simp [CFloat.lt] at h
    · rfl
  | fin x => exact sub_neg_of_lt x m hv hm (by simpa [CFloat.lt] using h)

set_option maxRecDepth 100000 in
/-- C15, as stated, fails: with `min = max = 10` and `valor = 25` the divisor
`max - min` is zero, the quotient is plus infinity, the percentage is clamped
to 100 and five rows are lit; with `valor = 10` the quotient of zero by zero
is NaN, which stays the percentage, and its conversion to `int` is
undefined. -/
theorem C15_counterexample :
    CFloat.sub 24 127 (.fin 10) (.fin 10) = .fin 0 ∧
    percentual_init (.fin 25) (.fin 10) (.fin 10) = .inf false ∧
    percentual (.fin 25) (.fin 10) (.fin 10) = .fin 100 ∧
    linhas_acesas (.fin 25) (.fin 10) (.fin 10) = some 5 ∧
    linhas_acesas_var 0 (.fin 25) (.fin 10) (.fin 10) = 5 ∧
    percentual (.fin 10) (.fin 10) (.fin 10) = .nan ∧
    linhas_acesas (.fin 10) (.fin 10) (.fin 10) = none := by
  decide

/-- C15, amended: for a degenerate range `min == max`, a number `m` of type
`float` other than zero (a zero difference of two zeros has the sign that
their signs give it, and the sign of a zero divisor decides the result), and a
value of type `float`, the divisor `max - min` is the positive zero and
nothing guards the division: for a value above `m` (plus infinity included)
the percentage is 100 and all five rows are lit; for a value below `m` (minus
infinity included) the percentage is 0 and no row is lit; for a value equal
to `m` the percentage is NaN, the conversion that gives `linhas_acesas` is
undefined, and the variable holds the `int` the conversion yields, clamped to
`0..5`. -/
theorem C15_degenerate_range (m : ℚ) (v : CFloat) (conv : Int)
    (hm : CFloat.isFloat (.fin m) = true) (hm0 : m ≠ 0) (hv : CFloat.isFloat v = true) :
    CFloat.sub 24 127 (.fin m) (.fin m) = .fin 0 ∧
    (CFloat.lt (.fin m) v = true →
      percentual v (.fin m) (.fin m) = .fin 100 ∧
      linhas_acesas v (.fin m) (.fin m) = some 5 ∧
      linhas_acesas_var conv v (.fin m) (.fin m) = 5) ∧
    (CFloat.lt v (.fin m) = true →
      percentual v (.fin m) (.fin m) = .fin 0 ∧
      linhas_acesas v (.fin m) (.fin m) = some 0 ∧
      linhas_acesas_var conv v (.fin m) (.fin m) = 0) ∧
    (CFloat.feq v (.fin m) = true →
      percentual v (.fin m) (.fin m) = .nan ∧
      linhas_acesas v (.fin m) (.fin m) = none ∧
      linhas_acesas_var conv v (.fin m) (.fin m) = linhas_clamp conv) := by
  have hD := sub_self_eq 24 127 m
  have hplus : CFloat.mul 53 1023 (.fin 100) (.fin (1 / 2 ^ 149))
      = .fin (100 * (1 / 2 ^ 149)) := mul100_exact 1 (2 ^ 149) _ (by positivity) roundRatio_tiny
  have hminus : CFloat.mul 53 1023 (.fin 100) (.fin (-(1 / 2 ^ 149)))
      = .fin (100 * -(1 / 2 ^ 149)) :=
    mul100_exact (-1) (2 ^ 149) _ (by positivity) roundRatio_tiny_neg
  refine ⟨hD, ?_, ?_, ?_⟩
  · intro h
    have h1 := CFloat.mul_mono 53 1023 (by norm_num) 100 (by norm_num) _ _
      (sub_ge_tiny m v hm hv h)
    rw [hplus] at h1
    have hp : percentual v (.fin m) (.fin m) = .fin 100 := by
      show percentual_clamp (percentual_init v (.fin m) (.fin m)) = .fin 100
      unfold percentual_init
      rw [hD, div_zero_of_pos 53 1023 _ (by positivity) _ h1]
      decide
    have hl : linhas_acesas v (.fin m) (.fin m) = some 5 := by
      show linhas_of_percentual (percentual v (.fin m) (.fin m)) = some 5
      rw [hp]
      decide
    exact ⟨hp, hl, linhas_acesas_var_eq conv _ _ _ _ hl⟩
  · intro h
    have h1 := CFloat.mul_mono 53 1023 (by norm_num) 100 (by norm_num) _ _
      (sub_le_tiny m v hm hv h)
    rw [hminus] at h1
    have hp : percentual v (.fin m) (.fin m) = .fin 0 := by
      show percentual_clamp (percentual_init v (.fin m) (.fin m)) = .fin 0
      unfold percentual_init
      rw [hD, div_zero_of_neg 53 1023 (100 * -(1 / 2 ^ 149))
        (by
          have : (0 : ℚ) < 1 / 2 ^ 149 := by positivity
          linarith) _ h1]
      decide
    have hl : linhas_acesas v (.fin m) (.fin m) = some 0 := by
      show linhas_of_percentual (percentual v (.fin m) (.fin m)) = some 0
      rw [hp]
      decide
    exact ⟨hp, hl, linhas_acesas_var_eq conv _ _ _ _ hl⟩
  · intro h
    cases v with
    | nan => simp [CFloat.feq] at h
    | inf n => simp [CFloat.feq] at h
    | fin x =>
      have hx : x = m := by simpa [CFloat.feq] using h
      subst hx
      have hp : percentual (.fin x) (.fin x) (.fin x) = .nan := by
        show percentual_clamp (percentual_init (.fin x) (.fin x) (.fin x)) = .nan
        unfold percentual_init
        rw [hD]
        decide
      refine ⟨hp, ?_, ?_⟩
      · show linhas_of_percentual (percentual (.fin x) (.fin x) (.fin x)) = none
        rw [hp]
        decide
      · unfold linhas_acesas_var
        rw [hp]
        have : CFloat.toInt (CFloat.div 24 127 .nan (.fin 20)) = none := by decide
        rw [this]
        rfl

/-- C15 (amended) at `min = max = 10`: 25 degrees light all five rows. -/
theorem C15_degenerate_range_witness :
    CFloat.isFloat (.fin 10) = true ∧ (10 : ℚ) ≠ 0 ∧ CFloat.isFloat (.fin 25) = true ∧
    CFloat.lt (.fin 10) (.fin 25) = true ∧
    percentual (.fin 25) (.fin 10) (.fin 10) = .fin 100 ∧
    linhas_acesas (.fin 25) (.fin 10) (.fin 10) = some 5 ∧
    linhas_acesas_var 0 (.fin 25) (.fin 10) (.fin 10) = 5 :=
  ⟨by decide, by decide, by decide, by decide,
   (C15_degenerate_range 10 (.fin 25) 0 (by decide) (by decide) (by decide)).2.1 (by decide)⟩

/-! ## The pixels of the level indicator (C16) -/

/-- The cell of a physical pixel `k`: its row is `4 - k / 5`, and its column
is `4 - k % 5` in the rows 0, 2 and 4 and `k % 5` in the rows 1 and 3. -/
theorem pixel_map_cell :
    ∀ i, i < 5 → ∀ j, j < 5 →
      4 - pixel_map i j / 5 = i ∧
      (if i % 2 = 0 then 4 - pixel_map i j % 5 else pixel_map i j % 5) = j := by
  decide

/-- Every cell of `pixel_map` is a physical pixel `0..24`, two cells never
share a pixel, and every pixel is that of a cell. -/
theorem pixel_map_bijective :
    (∀ i, i < 5 → ∀ j, j < 5 → pixel_map i j < 25) ∧
    (∀ i, i < 5 → ∀ j, j < 5 → ∀ i2, i2 < 5 → ∀ j2, j2 < 5 →
      pixel_map i j = pixel_map i2 j2 → i = i2 ∧ j = j2) ∧
    (∀ k, k < 25 → ∃ i, i < 5 ∧ ∃ j, j < 5 ∧ pixel_map i j = k) := by
  refine ⟨by decide, ?_, by decide⟩
  intro i hi j hj i2 hi2 j2 hj2 h
  obtain ⟨r1, c1⟩ := pixel_map_cell i hi j hj
  obtain ⟨r2, c2⟩ := pixel_map_cell i2 hi2 j2 hj2
  rw [← h] at r2 c2
  have hrow : i = i2 := r1.symm.trans r2
  subst hrow
  exact ⟨rfl, c1.symm.trans c2⟩

set_option maxRecDepth 100000 in
/-- The pixels sent for a row count between 0 and 5: the loops end, 25 values
are sent, and the pixel of each cell has the colour specified for its row. -/
theorem put_pixels_spec (l : Int) (h0 : 0 ≤ l) (h5 : l ≤ 5) (alerta : Bool) :
    (put_pixels l alerta).isSome = true ∧
    ((put_pixels l alerta).getD []).length = 25 ∧
    (∀ i, i < 5 → ∀ j, j < 5 →
      ((put_pixels l alerta).getD []).getD (pixel_map i j) 0 = cell_colour l alerta i) := by
  interval_cases l <;> cases alerta <;> decide

/-- The row count is defined exactly when the percentage is not NaN. -/
theorem linhas_acesas_isSome (valor min max : CFloat) :
    (linhas_acesas valor min max).isSome = true ↔ percentual valor min max ≠ .nan := by
  constructor
  · intro h hp
    unfold linhas_acesas at h
    rw [hp] at h
    revert h
    decide
  · intro h
    have hr : percentual_init valor min max ≠ .nan := by
      intro hr
      apply h
      unfold percentual
      rw [hr]
      decide
    obtain ⟨c, q, -, -, -, -, hl⟩ := linhas_of_clamped _ hr
    show (linhas_of_percentual (percentual_clamp (percentual_init valor min max))).isSome = true
    rw [hl]
    rfl

/-- C16: for every value, range and alert flag, and whatever `int` the
conversion `(int)(percentual / 20.0f)` yields where it is undefined (the
percentage is NaN), the variable `linhas_acesas` is between 0 and 5 after the
two clamping statements, the two loops end and `set_matriz_indicador` sends 25
colours; the pixel `pixel_map[i][j]` of each cell gets the alert colour
`urgb_u32(20, 0, 0)` when the alert flag is set and `i = 0` (the topmost row,
also when all five rows are lit), else the level colour `urgb_u32(0, 0, 8)`
when the row is one of the bottom `linhas_acesas` rows
(`i >= 5 - linhas_acesas`), else 0.  Every cell is a pixel `0..24`, no two
cells share a pixel and every pixel is that of a cell.  Where the conversion
is defined, which is where the percentage is not NaN, the variable holds its
value.  The colours depend on the inputs through `linhas_acesas` only: for
every `int` the conversion can leave in the variable, the pixels sent for its
clamped value are the ones specified. -/
theorem C16_pixel_colours (conv : Int) (valor min max : CFloat) (alerta : Bool) :
    (∀ x : Int, (0 ≤ linhas_clamp x ∧ linhas_clamp x ≤ 5) ∧
      ∃ out : List Nat, put_pixels (linhas_clamp x) alerta = some out ∧ out.length = 25 ∧
        ∀ i, i < 5 → ∀ j, j < 5 →
          out.getD (pixel_map i j) 0 = cell_colour (linhas_clamp x) alerta i) ∧
    set_matriz_indicador conv valor min max alerta
      = put_pixels (linhas_acesas_var conv valor min max) alerta ∧
    (0 ≤ linhas_acesas_var conv valor min max ∧ linhas_acesas_var conv valor min max ≤ 5) ∧
    (∃ out : List Nat, set_matriz_indicador conv valor min max alerta = some out ∧
      out.length = 25 ∧
      ∀ i, i < 5 → ∀ j, j < 5 →
        out.getD (pixel_map i j) 0
          = cell_colour (linhas_acesas_var conv valor min max) alerta i) ∧
    ((∀ i, i < 5 → ∀ j, j < 5 → pixel_map i j < 25) ∧
      (∀ i, i < 5 → ∀ j, j < 5 → ∀ i2, i2 < 5 → ∀ j2, j2 < 5 →
        pixel_map i j = pixel_map i2 j2 → i = i2 ∧ j = j2) ∧
      (∀ k, k < 25 → ∃ i, i < 5 ∧ ∃ j, j < 5 ∧ pixel_map i j = k)) ∧
    (∀ linhas : Int, linhas_acesas valor min max = some linhas →
      linhas_acesas_var conv valor min max = linhas) ∧
    ((linhas_acesas valor min max).isSome = true ↔ percentual valor min max ≠ .nan) ∧
    urgb_u32 20 0 0 = 5120 ∧ urgb_u32 0 0 8 = 8 := by
  have hr := linhas_clamp_range
    ((CFloat.toInt (CFloat.div 24 127 (percentual valor min max) (.fin 20))).getD conv)
  have hall : ∀ x : Int, (0 ≤ linhas_clamp x ∧ linhas_clamp x ≤ 5) ∧
      ∃ out : List Nat, put_pixels (linhas_clamp x) alerta = some out ∧ out.length = 25 ∧
        ∀ i, i < 5 → ∀ j, j < 5 →
          out.getD (pixel_map i j) 0 = cell_colour (linhas_clamp x) alerta i := by
    intro x
    have hx := linhas_clamp_range x
    obtain ⟨hsome, hlen, hcol⟩ := put_pixels_spec (linhas_clamp x) hx.1 hx.2 alerta
    refine ⟨hx, ?_⟩
    cases hp : put_pixels (linhas_clamp x) alerta with
    | none => rw [hp] at hsome; cases hsome
    | some out =>
      rw [hp] at hlen hcol
      exact ⟨out, rfl, hlen, hcol⟩
  exact ⟨hall, rfl, hr, (hall _).2, pixel_map_bijective,
    fun l hl => linhas_acesas_var_eq conv _ _ _ l hl,
    linhas_acesas_isSome valor min max, by decide, by decide⟩

set_option maxRecDepth 100000 in
/-- C16 on the range of the program: at 25 degrees with the alert flag set,
the ten pixels of the two bottom rows have the level colour, the five pixels
of the topmost row the alert colour, and the others are off; at 45 degrees
all five rows are lit and the alert colour replaces the level colour in the
topmost row; on the degenerate range `min = max = 10` at 10 degrees, where the
percentage is NaN, a conversion that yields 0 lights no level row. -/
theorem C16_pixel_colours_witness :
    linhas_acesas_var 0 (.fin 25) (.fin 10) (.fin 40) = 2 ∧
    set_matriz_indicador 0 (.fin 25) (.fin 10) (.fin 40) true
      = some [8, 8, 8, 8, 8, 8, 8, 8, 8, 8, 0, 0, 0, 0, 0, 0, 0, 0, 0, 0,
          5120, 5120, 5120, 5120, 5120] ∧
    set_matriz_indicador 0 (.fin 45) (.fin 10) (.fin 40) true
      = some [8, 8, 8, 8, 8, 8, 8, 8, 8, 8, 8, 8, 8, 8, 8, 8, 8, 8, 8, 8,
          5120, 5120, 5120, 5120, 5120] ∧
    set_matriz_indicador 0 (.fin 10) (.fin 10) (.fin 10) true
      = some [0, 0, 0, 0, 0, 0, 0, 0, 0, 0, 0, 0, 0, 0, 0, 0, 0, 0, 0, 0,
          5120, 5120, 5120, 5120, 5120] ∧
    ∃ out : List Nat, set_matriz_indicador 0 (.fin 25) (.fin 10) (.fin 40) true = some out ∧
      out.length = 25 ∧
      ∀ i, i < 5 → ∀ j, j < 5 →
        out.getD (pixel_map i j) 0
          = cell_colour (linhas_acesas_var 0 (.fin 25) (.fin 10) (.fin 40)) true i :=
  ⟨by decide, by decide, by decide, by decide,
   (C16_pixel_colours 0 (.fin 25) (.fin 10) (.fin 40) true).2.2.2.1⟩

end Estacao
